import Mathlib

/-!
# qt_spdlog: severity levels, scoped guards, conditional dispatch, formatters

A shallow embedding of `include/qt_spdlog.h`.  `QString` and `std::string` are
modelled by `String`, a `QByteArray` by the list of its bytes.  The process-wide spdlog registry, the loggers it owns and
the `QThreadStorage` slots are made explicit in `State`; every operation that
reads or writes them takes the state (and, for thread-local data, the calling
thread) as an argument.
-/

namespace qt_spdlog

/-! ## Severity levels -/

/-- The enumeration `spdlog::level::level_enum`, in increasing numeric order
(`trace = 0`, ..., `off = 6`). -/
inductive level_enum
  | trace | debug | info | warn | err | critical | off
  deriving DecidableEq

/-- The numeric value of a level. -/
def level_enum.toNat : level_enum → Nat
  | .trace => 0
  | .debug => 1
  | .info => 2
  | .warn => 3
  | .err => 4
  | .critical => 5
  | .off => 6

/-- The seven levels, from `trace` to `off`. -/
def level_enum.all : List level_enum :=
  [.trace, .debug, .info, .warn, .err, .critical, .off]

/-- The library functions the header calls and that are not part of it:
`QString::toLower`, `spdlog::level::from_str` (`none` stands for a thrown
exception, which the `catch (...)` of `string_to_level` intercepts), and
`std::hash<std::thread::id>` applied to the id of a thread. -/
structure Externals where
  toLower : String → String
  from_str : String → Option level_enum
  thread_hash : Nat → Nat

/-- Lower-casing of the ASCII letters, the restriction of `QString::toLower` to
ASCII text. -/
def asciiToLower (s : String) : String :=
  String.mk (s.data.map Char.toLower)

/-- The level-name parser of spdlog 1.x, `spdlog::level::from_str`: the seven
native names, then `warn` and `err`, and `off` for everything else; it never
throws. -/
def spdlog_from_str (name : String) : Option level_enum :=
  if name = "trace" then some .trace
  else if name = "debug" then some .debug
  else if name = "info" then some .info
  else if name = "warning" then some .warn
  else if name = "error" then some .err
  else if name = "critical" then some .critical
  else if name = "off" then some .off
  else if name = "warn" then some .warn
  else if name = "err" then some .err
  else some .off

/-- The externals of an ASCII-only deployment. -/
def asciiExternals : Externals :=
  { toLower := asciiToLower, from_str := spdlog_from_str, thread_hash := fun t => t }

/-- Membership test of a `QMap`, here a list of key/value entries with distinct
keys. -/
def QMap.contains {κ β : Type} [DecidableEq κ] (m : List (κ × β)) (k : κ) : Bool :=
  m.any (fun e => decide (e.1 = k))

/-- The lookup `QMap::value(key, defaultValue)`. -/
def QMap.value {κ β : Type} [DecidableEq κ] (m : List (κ × β)) (k : κ) (dflt : β) : β :=
  match m.find? (fun e => decide (e.1 = k)) with
  | some e => e.2
  | none => dflt

/-- The table `details::get_string_to_level_map`. -/
def details.get_string_to_level_map : List (String × level_enum) :=
  [ ("trace", .trace),
    ("debug", .debug),
    ("info", .info),
    ("warn", .warn),
    ("warning", .warn),
    ("error", .err),
    ("critical", .critical),
    ("off", .off),
    ("always", .off) ]

/-- The function `string_to_level`: alias table first, then the parser of spdlog,
and `info` when that parser throws.  `QMap::value(key)` without a default
yields a value-initialised level, i.e. `trace`. -/
def string_to_level (x : Externals) (level_str : String) : level_enum :=
  let map := details.get_string_to_level_map
  let lower := x.toLower level_str
  if QMap.contains map lower then
    QMap.value map lower level_enum.trace
  else
    match x.from_str level_str with
    | some l => l
    | none => level_enum.info

/-- The function `is_valid_level`. -/
def is_valid_level (x : Externals) (level : String) : Bool :=
  QMap.contains details.get_string_to_level_map (x.toLower level)

/-! ## Loggers and the registry -/

/-- A logger object, identified by its address. -/
abbrev LoggerId := Nat

/-- A thread, identified by a number. -/
abbrev ThreadId := Nat

/-- One message a logger handed to its sinks: the logger, the level and the
arguments of the call (format string first). -/
structure Record where
  logger : LoggerId
  level : level_enum
  payload : List String
  deriving DecidableEq

/-- The mutable state the header works on.  `registry` is `spdlog::get`,
`default_logger` is `spdlog::default_logger()` (`none` is the null pointer),
`level l` is the threshold `l->level()`, `name l` is `l->name()`,
`next_logger` is the address the next created logger gets, `module_storage t`
and `logger_storage t` are the slots of thread `t` in the `QThreadStorage`
objects of `get_module_storage` and `get_logger_storage` (`none` when
`hasLocalData()` is false), `output` lists the messages that reached
the sinks, oldest first, and `registered_names` lists the names in the table
of the registry, the names for which `registry` gives a logger. -/
structure State where
  registry : String → Option LoggerId
  default_logger : Option LoggerId
  level : LoggerId → level_enum
  name : LoggerId → String
  next_logger : LoggerId
  module_storage : ThreadId → Option String
  logger_storage : ThreadId → Option LoggerId
  output : List Record
  registered_names : List String

/-- Modelled from the spec: the "would this severity be emitted" predicate of
the backend, `spdlog::logger::should_log`: the level of the message is at
least the threshold of the logger. -/
def should_log (s : State) (l : LoggerId) (msg_level : level_enum) : Bool :=
  decide ((s.level l).toNat ≤ msg_level.toNat)

/-- Modelled from the spec: the per-logger "set severity threshold" operation of
the backend, `spdlog::logger::set_level`. -/
def set_level (s : State) (l : LoggerId) (lvl : level_enum) : State :=
  { s with level := fun j => if j = l then lvl else s.level j }

/-! ## The level guard -/

/-- The members of `scoped::ScopedLoggerLevel`. -/
structure ScopedLoggerLevel where
  logger_ : Option LoggerId
  original_level_ : level_enum
  active_ : Bool
  deriving DecidableEq

/-- The logger a `ScopedLoggerLevel` resolves: `default_logger()` for the empty
name and `spdlog::get(name)` otherwise, with `default_logger()` again when that
lookup gave a null pointer. -/
def ScopedLoggerLevel.resolve (logger_name : String) (s : State) : Option LoggerId :=
  let logger_ := if logger_name = "" then s.default_logger else s.registry logger_name
  match logger_ with
  | some l => some l
  | none => s.default_logger

/-- The constructor `ScopedLoggerLevel(logger_name, level)`.  When no logger is
resolved, `original_level_` stays uninitialised; it is never read then, and
is shown here as `trace`. -/
def ScopedLoggerLevel.ctor (logger_name : String) (level : level_enum) (s : State) :
    ScopedLoggerLevel × State :=
  match ScopedLoggerLevel.resolve logger_name s with
  | some l =>
      ({ logger_ := some l, original_level_ := s.level l, active_ := true },
        set_level s l level)
  | none =>
      ({ logger_ := none, original_level_ := level_enum.trace, active_ := false }, s)

/-- The destructor `~ScopedLoggerLevel()`. -/
def ScopedLoggerLevel.dtor (g : ScopedLoggerLevel) (s : State) : State :=
  match g.active_, g.logger_ with
  | true, some l => set_level s l g.original_level_
  | _, _ => s

/-- The conversion `explicit operator bool()`. -/
def ScopedLoggerLevel.toBool (g : ScopedLoggerLevel) : Bool :=
  g.active_

/-- The factory `create_scoped_logger(const QString& level_name)`. -/
def create_scoped_logger (x : Externals) (level_name : String) (s : State) :
    ScopedLoggerLevel × State :=
  if !is_valid_level x level_name then
    ScopedLoggerLevel.ctor "" level_enum.info s
  else
    let level := string_to_level x level_name
    ScopedLoggerLevel.ctor "qt" level s

/-- The fixture of the unit tests: one logger, `test_logger`, installed as the
default logger with threshold `trace`; no module tag set on any thread. -/
def testState : State :=
  { registry := fun n => if n = "test_logger" then some 0 else none
    default_logger := some 0
    level := fun _ => level_enum.trace
    name := fun _ => "test_logger"
    next_logger := 1
    module_storage := fun _ => none
    logger_storage := fun _ => none
    output := []
    registered_names := ["test_logger"] }

/-! ## The thread-local module tag and the module guard -/

/-- The function `get_current_module_name`, called on thread `t`. -/
def get_current_module_name (t : ThreadId) (s : State) : String :=
  match s.module_storage t with
  | some m => m
  | none => "unknown"

/-- The function `set_current_module_name`, called on thread `t`. -/
def set_current_module_name (t : ThreadId) (module_name : String) (s : State) : State :=
  { s with module_storage := fun u => if u = t then some module_name else s.module_storage u }

/-- The alias `get_current_module`. -/
def get_current_module (t : ThreadId) (s : State) : String :=
  get_current_module_name t s

/-- The alias `set_current_module`. -/
def set_current_module (t : ThreadId) (module_name : String) (s : State) : State :=
  set_current_module_name t module_name s

/-- The members of `scoped::ScopedModule`. -/
structure ScopedModule where
  m_previous_module : String
  m_new_module : String
  deriving DecidableEq

/-- The constructor `ScopedModule(module)`, run on thread `t`. -/
def ScopedModule.ctor (t : ThreadId) (module_name : String) (s : State) : ScopedModule × State :=
  ({ m_previous_module := get_current_module_name t s, m_new_module := module_name },
    set_current_module_name t module_name s)

/-- The destructor `~ScopedModule()`, run on thread `t`. -/
def ScopedModule.dtor (t : ThreadId) (g : ScopedModule) (s : State) : State :=
  set_current_module_name t g.m_previous_module s

/-- The accessor `previous_module()`. -/
def ScopedModule.previous_module (g : ScopedModule) : String :=
  g.m_previous_module

/-- The accessor `current_module()`. -/
def ScopedModule.current_module (g : ScopedModule) : String :=
  g.m_new_module

/-- The factory `module(module_name)`, called on thread `t`. -/
def module (t : ThreadId) (module_name : String) (s : State) : ScopedModule × State :=
  ScopedModule.ctor t module_name s

/-! ## Lexical scopes holding guards -/

/-- The declaration of a guard variable: a level guard on the logger of a given
name, or a module guard. -/
inductive GuardDecl
  | level (logger_name : String) (level : level_enum)
  | module (module_name : String)

/-- A constructed guard object. -/
inductive Guard
  | level (g : ScopedLoggerLevel)
  | module (g : ScopedModule)

/-- Construction of the declared guard on thread `t`. -/
def GuardDecl.construct (t : ThreadId) : GuardDecl → State → Guard × State
  | .level logger_name lvl, s =>
      let r := ScopedLoggerLevel.ctor logger_name lvl s
      (Guard.level r.1, r.2)
  | .module m, s =>
      let r := ScopedModule.ctor t m s
      (Guard.module r.1, r.2)

/-- Destruction of a guard object on thread `t`. -/
def Guard.destroy (t : ThreadId) : Guard → State → State
  | .level g, s => g.dtor s
  | .module g, s => g.dtor t s

/-- A properly nested sequence of guards: `scope d inner next` is the block
`{ d; inner }` followed by `next`.  The guard declared by `d` is constructed
on entry of the block and destroyed on exit, after every guard of `inner`. -/
inductive Scopes
  | done
  | scope (d : GuardDecl) (inner : Scopes) (next : Scopes)

/-- Execution of a properly nested sequence of guards on thread `t`. -/
def Scopes.run (t : ThreadId) : Scopes → State → State
  | .done, s => s
  | .scope d inner next, s =>
      let r := d.construct t s
      next.run t (r.1.destroy t (inner.run t r.2))

/-- The two states agree on the threshold of every logger and on the module
tag that `get_current_module` returns on every thread, and also on the
registry, the default logger, the logger names, the thread-local loggers and
the emitted messages. -/
def sameObservableState (s s' : State) : Prop :=
  (∀ l, s'.level l = s.level l) ∧
  (∀ t, get_current_module t s' = get_current_module t s) ∧
  s'.registry = s.registry ∧ s'.default_logger = s.default_logger ∧ s'.name = s.name ∧
  s'.next_logger = s.next_logger ∧ s'.logger_storage = s.logger_storage ∧
  s'.output = s.output

/-- How a block ended: it ran to its end, or an exception left it. -/
inductive Completion
  | normal
  | raised (what : String)
  deriving DecidableEq

/-- The block `{ d; body }` on thread `t`: the guard is constructed, the body
runs, and the destructor of the guard runs when control leaves the block, at
its end or during stack unwinding, before the code after the block or the
enclosing handler continues. -/
def guarded_block (t : ThreadId) (d : GuardDecl) (body : State → State × Completion)
    (s : State) : State × Completion :=
  let r := d.construct t s
  let b := body r.2
  (r.1.destroy t b.1, b.2)

/-- The statement `try { block } catch (const std::exception& e) { handler }`. -/
def try_catch (block : State → State × Completion) (handler : String → State → State)
    (s : State) : State :=
  match block s with
  | (s', .normal) => s'
  | (s', .raised what) => handler what s'

/-! ## The thread-local logger -/

/-- The function `get_thread_local_logger`, called on thread `t`.  The clone
made by `spdlog::default_logger()->clone(logger_name)` is a new logger object
with the threshold of the default logger and the given name; it is not entered
in the registry.  The result is `none` when the default logger is the null
pointer, which the call dereferences. -/
def get_thread_local_logger (x : Externals) (t : ThreadId) (s : State) :
    Option (LoggerId × State) :=
  match s.logger_storage t with
  | some l => some (l, s)
  | none =>
      let thread_hash := x.thread_hash t
      let current_module := get_current_module_name t s
      let logger_name := current_module ++ "_" ++ toString thread_hash
      match s.default_logger with
      | none => none
      | some d =>
          let logger := s.next_logger
          some (logger,
            { s with
              level := fun j => if j = logger then s.level d else s.level j
              name := fun j => if j = logger then logger_name else s.name j
              next_logger := logger + 1
              logger_storage := fun u => if u = t then some logger else s.logger_storage u })

/-! ## Conditional dispatch -/

/-- Modelled from the spec: the level-parameterised emit operation of the
backend, `spdlog::logger::log(lvl, fmt, args...)` (the methods `trace`, ...,
`critical` call it with their own level).  The message reaches the sinks when
the "would this severity be emitted" predicate `should_log(lvl)` holds and is
dropped otherwise. -/
def logger_log (l : LoggerId) (lvl : level_enum) (payload : List String) (s : State) : State :=
  if should_log s l lvl then
    { s with output := s.output ++ [{ logger := l, level := lvl, payload := payload }] }
  else s

/-- An evaluated argument of a log statement, by the kind of its C++ type. -/
inductive LogArg
  | qstring (text : String)
  | qbytearray (bytes : String)
  | cstr (chars : String)
  | other (rendered : String)
  deriving DecidableEq

/-- The text the backend receives for an argument. -/
def LogArg.text : LogArg → String
  | .qstring text => text
  | .qbytearray bytes => bytes
  | .cstr chars => chars
  | .other rendered => rendered

/-- The function `utils::convert_arg`: a `QString` becomes the `QByteArray`
of its UTF-8 encoding, every other argument is passed on. -/
def utils.convert_arg : LogArg → LogArg
  | .qstring text => .qbytearray text
  | a => a

/-- The function `utils::get_log_arg`: a `QByteArray` becomes the pointer
`constData()`, every other argument is passed on. -/
def utils.get_log_arg : LogArg → LogArg
  | .qbytearray bytes => .cstr bytes
  | a => a

/-- The steps of a log statement that the dispatch contract speaks of. -/
inductive Event
  | arg_evaluated (i : Nat)
  | arg_converted (i : Nat)
  | backend_call (l : LoggerId) (lvl : level_enum) (payload : List String)
  deriving DecidableEq

/-- The function `utils::log_with_conversion`, applied to evaluated arguments:
every argument goes through `convert_arg`, and `logger_func` is called on
the `get_log_arg` of the converted arguments. -/
def utils.log_with_conversion (logger_func : List LogArg → State → State × List Event)
    (args : List LogArg) (s : State) : State × List Event :=
  let converted := args.map utils.convert_arg
  let r := logger_func (converted.map utils.get_log_arg) s
  (r.1, (List.range args.length).map Event.arg_converted ++ r.2)

/-- An argument expression of a log statement.  Its evaluation yields a value
and may change the world `σ` of the caller; it does not write the logging
state. -/
abbrev ArgExpr (σ : Type) := σ → LogArg × σ

/-- Evaluation of the argument expressions of a call, left to right. -/
def eval_args {σ : Type} : List (ArgExpr σ) → σ → List LogArg × σ
  | [], w => ([], w)
  | e :: es, w =>
      let r := e w
      let rs := eval_args es r.2
      (r.1 :: rs.1, rs.2)

/-- What a log statement did: the world of the caller and the logging state
after it, and its steps in order. -/
structure Dispatch (σ : Type) where
  world : σ
  state : State
  trace : List Event

/-- The six method names that the macros pass as `level_name`. -/
inductive LevelName
  | trace | debug | info | warn | error | critical
  deriving DecidableEq

/-- Modelled from the spec: the level at which the backend method of a given
name emits, `logger->error(...)` being `log(spdlog::level::err, ...)`. -/
def LevelName.method_level : LevelName → level_enum
  | .trace => .trace
  | .debug => .debug
  | .info => .info
  | .warn => .warn
  | .error => .err
  | .critical => .critical

/-- The `level_enum` argument that the macros `QT_LOG_<LEVEL>`,
`QT_LOGGER_<LEVEL>` and `QT_LOG_<LEVEL>_TS` pass along with `level_name`. -/
def LevelName.check_level : LevelName → level_enum
  | .trace => .trace
  | .debug => .debug
  | .info => .info
  | .warn => .warn
  | .error => .err
  | .critical => .critical

/-- The lambda `[_logger](auto... converted_args) { _logger->log(lvl, converted_args...); }`
of the dispatch macros. -/
def logger_func (_logger : LoggerId) (lvl : level_enum) (converted_args : List LogArg)
    (s : State) : State × List Event :=
  let payload := converted_args.map LogArg.text
  (logger_log _logger lvl payload s, [Event.backend_call _logger lvl payload])

/-- The macro `QT_LOG_INTERNAL(logger_ptr, level_name, level_enum, ...)`, with
`logger_ptr` already evaluated.  The result is `none` when `logger_ptr` is
the null pointer, which the macro dereferences. -/
def QT_LOG_INTERNAL {σ : Type} (logger_ptr : Option LoggerId) (level_name : LevelName)
    (lvl : level_enum) (args : List (ArgExpr σ)) (w : σ) (s : State) : Option (Dispatch σ) :=
  match logger_ptr with
  | none => none
  | some _logger =>
      if should_log s _logger lvl then
        let a := eval_args args w
        let r := utils.log_with_conversion (logger_func _logger level_name.method_level) a.1 s
        some { world := a.2, state := r.1,
               trace := (List.range args.length).map Event.arg_evaluated ++ r.2 }
      else
        some { world := w, state := s, trace := [] }

/-- The macros `QT_LOG_TRACE`, ..., `QT_LOG_CRITICAL`. -/
def QT_LOG {σ : Type} (n : LevelName) (args : List (ArgExpr σ)) (w : σ) (s : State) :
    Option (Dispatch σ) :=
  QT_LOG_INTERNAL s.default_logger n n.check_level args w s

/-- The macros `QT_LOGGER_TRACE`, ..., `QT_LOGGER_CRITICAL`. -/
def QT_LOGGER {σ : Type} (n : LevelName) (logger : Option LoggerId) (args : List (ArgExpr σ))
    (w : σ) (s : State) : Option (Dispatch σ) :=
  QT_LOG_INTERNAL logger n n.check_level args w s

/-- The macros `QT_LOG_TRACE_TS`, ..., `QT_LOG_CRITICAL_TS`, used on thread `t`. -/
def QT_LOG_TS {σ : Type} (x : Externals) (t : ThreadId) (n : LevelName)
    (args : List (ArgExpr σ)) (w : σ) (s : State) : Option (Dispatch σ) :=
  match get_thread_local_logger x t s with
  | none => none
  | some r => QT_LOG_INTERNAL (some r.1) n n.check_level args w r.2

/-- The macros `QT_LOG_IF_TRACE`, ..., `QT_LOG_IF_CRITICAL`; the condition is an
expression of the caller and is evaluated first. -/
def QT_LOG_IF {σ : Type} (n : LevelName) (condition : σ → Bool × σ) (args : List (ArgExpr σ))
    (w : σ) (s : State) : Option (Dispatch σ) :=
  let c := condition w
  if c.1 then QT_LOG n args c.2 s
  else some { world := c.2, state := s, trace := [] }

/-- The macro `QT_LOG_ALWAYS`. -/
def QT_LOG_ALWAYS {σ : Type} (args : List (ArgExpr σ)) (w : σ) (s : State) :
    Option (Dispatch σ) :=
  match s.default_logger with
  | none => none
  | some _logger =>
      let a := eval_args args w
      let r := utils.log_with_conversion (logger_func _logger level_enum.off) a.1 s
      some { world := a.2, state := r.1,
             trace := (List.range args.length).map Event.arg_evaluated ++ r.2 }

/-- An argument expression that yields a constant and counts its evaluations
in a world made of one counter. -/
def countingArg (v : LogArg) : ArgExpr Nat :=
  fun w => (v, w + 1)

/-- A body that sets the tag of thread 0 to `Inner`, lowers the threshold of
logger 0 to `trace` and then, if asked to, raises `std::runtime_error`. -/
def disturbingBody (raises : Bool) (s : State) : State × Completion :=
  (set_level (set_current_module 0 "Inner" s) 0 level_enum.trace,
    if raises then Completion.raised "std::runtime_error" else Completion.normal)

/-- The texts the backend receives for evaluated arguments that went through
`convert_arg` and `get_log_arg`. -/
def forwarded_payload (vals : List LogArg) : List String :=
  ((vals.map utils.convert_arg).map utils.get_log_arg).map LogArg.text

/-- A state without any logger: nothing registered and a null default logger. -/
def noLoggerState : State :=
  { testState with registry := fun _ => none, default_logger := none, registered_names := [] }

/-- The test fixture with the threshold of its logger set to `lvl`. -/
def testStateAt (lvl : level_enum) : State :=
  set_level testState 0 lvl

/-! ## Level names, aliases and host severities -/

/-- The table `details::get_level_to_string_map`. -/
def details.get_level_to_string_map : List (level_enum × String) :=
  [ (.trace, "trace"),
    (.debug, "debug"),
    (.info, "info"),
    (.warn, "warn"),
    (.err, "error"),
    (.critical, "critical"),
    (.off, "off") ]

/-- The short level names of spdlog, `spdlog::level::to_short_c_str`, with the
default `SPDLOG_SHORT_LEVEL_NAMES`. -/
def spdlog_to_short_c_str : level_enum → String
  | .trace => "T"
  | .debug => "D"
  | .info => "I"
  | .warn => "W"
  | .err => "E"
  | .critical => "C"
  | .off => "O"

/-- The function `level_to_string`. -/
def level_to_string (level : level_enum) : String :=
  let map := details.get_level_to_string_map
  if QMap.contains map level then
    QMap.value map level ""
  else
    spdlog_to_short_c_str level

/-- The function `get_level_display_name`. -/
def get_level_display_name (x : Externals) (level_str : String) : String :=
  let level := string_to_level x level_str
  level_to_string level

/-- The UTF-16 code units by which a `QString` stores a character: the code
point itself below `0x10000`, and a high and a low surrogate above. -/
def utf16CodeUnits (c : Char) : List Nat :=
  if c.toNat < 0x10000 then [c.toNat]
  else [0xD800 + (c.toNat - 0x10000) / 0x400, 0xDC00 + (c.toNat - 0x10000) % 0x400]

/-- The method `QString::utf16()`: the code units of the string.  The operator
`<` of `QString` compares two strings code unit by code unit. -/
def QString.utf16 (s : String) : List Nat :=
  (s.data.map utf16CodeUnits).flatten

/-- The entries of a `QMap` with `QString` keys in the order in which an
iterator from `begin()` to `end()` visits them: ascending by key, the keys
compared as `QString::operator<` does, by their UTF-16 code units. -/
def QMap.entriesByKey {β : Type} (m : List (String × β)) : List (String × β) :=
  m.insertionSort (fun a b => QString.utf16 a.1 ≤ QString.utf16 b.1)

/-- The function `get_level_aliases`. -/
def get_level_aliases (x : Externals) (canonical_level : String) : List String :=
  let map := details.get_string_to_level_map
  let target_level := string_to_level x canonical_level
  (QMap.entriesByKey map).foldl
    (fun aliases it =>
      if it.2 = target_level ∧ it.1 ≠ canonical_level then aliases ++ [it.1] else aliases)
    []

/-- The enumeration `QtMsgType` of Qt, in the order of its numeric values
0, ..., 4. -/
inductive QtMsgType
  | QtDebugMsg | QtWarningMsg | QtCriticalMsg | QtFatalMsg | QtInfoMsg
  deriving DecidableEq

/-- The table `details::get_qt_to_spdlog_map`. -/
def details.get_qt_to_spdlog_map : List (QtMsgType × level_enum) :=
  [ (.QtDebugMsg, .debug),
    (.QtInfoMsg, .info),
    (.QtWarningMsg, .warn),
    (.QtCriticalMsg, .err),
    (.QtFatalMsg, .critical) ]

/-- The table `details::get_spdlog_to_qt_map`. -/
def details.get_spdlog_to_qt_map : List (level_enum × QtMsgType) :=
  [ (.trace, .QtDebugMsg),
    (.debug, .QtDebugMsg),
    (.info, .QtInfoMsg),
    (.warn, .QtWarningMsg),
    (.err, .QtCriticalMsg),
    (.critical, .QtFatalMsg),
    (.off, .QtFatalMsg) ]

/-- The function `qt_to_spdlog_level`. -/
def qt_to_spdlog_level (qt_level : QtMsgType) : level_enum :=
  let map := details.get_qt_to_spdlog_map
  QMap.value map qt_level level_enum.info

/-- The lookup of `get_qt_level` for a threshold given by its numeric value:
`level_map.find(level)` and `QtInfoMsg` when nothing is found.  The values
0, ..., 6 are the levels `trace`, ..., `off`; any other value of the
enumeration type, such as `n_levels = 7`, has no entry. -/
def get_qt_level_lookup (level : Nat) : QtMsgType :=
  match details.get_spdlog_to_qt_map.find? (fun e => decide (e.1.toNat = level)) with
  | some e => e.2
  | none => QtMsgType.QtInfoMsg

/-- The function `get_qt_level`; `spdlog::get_level()` is the threshold of the
default logger, and the result is `none` when the default logger is the null
pointer, which the call dereferences. -/
def get_qt_level (s : State) : Option QtMsgType :=
  match s.default_logger with
  | none => none
  | some d => some (get_qt_level_lookup (s.level d).toNat)

/-- The lower-casing function leaves the nine keys of the alias table, which
are lowercase ASCII words, as they are. -/
def Externals.lowerFixesKeys (x : Externals) : Prop :=
  ∀ e ∈ details.get_string_to_level_map, x.toLower e.1 = e.1

/-! ## Formatters -/

/-- A byte. -/
abbrev Byte := Fin 256

/-- A `QByteArray`: its bytes in order. -/
abbrev QByteArray := List Byte

/-- The digits of lowercase hexadecimal notation. -/
def hexDigitChars : List Char := "0123456789abcdef".data

/-- The lowercase hexadecimal digit of a value below 16. -/
def lowerHexDigit (d : Nat) : Char := hexDigitChars.getD d '0'

/-- The conversion `QString::number(n)` of an integer: decimal notation with a
leading minus sign for negative numbers. -/
def QString.number (n : Int) : String := toString n

/-- The conversion `QString::number(n, base)` of an unsigned integer: its
digits in the given base, most significant first, letters in lowercase. -/
def QString.number_base (n : Nat) (base : Nat) : String := String.mk (Nat.toDigits base n)

/-- The method `QString::rightJustified(width, fill)`: the string, preceded by
as many `fill` characters as it is shorter than `width`. -/
def QString.rightJustified (s : String) (width : Nat) (fill : Char) : String :=
  String.mk (List.replicate (width - s.length) fill) ++ s

/-- The method `QByteArray::toHex()`: per byte the digit of the high and the
digit of the low half-byte, taken from `0123456789abcdef`. -/
def QByteArray.toHex (data : QByteArray) : String :=
  String.mk (data.map (fun b => [lowerHexDigit (b.val / 16), lowerHexDigit (b.val % 16)])).flatten

/-- The value of a byte read as a `char`: -128, ..., 127 on a platform whose
`char` is signed, 0, ..., 255 otherwise. -/
def charValue (char_signed : Bool) (b : Byte) : Int :=
  if char_signed && decide (128 ≤ b.val) then (b.val : Int) - 256 else (b.val : Int)

/-- The function `formatters::formatQByteArray` on a platform whose `char` is
signed or not as `char_signed` says.  The codes 39 and 92 are the single quote
and the backslash; a character appended to the result is the one with the
code of the byte. -/
def formatQByteArray (char_signed : Bool) (data : QByteArray) (showHexString : Bool) :
    String :=
  if data.isEmpty then
    if showHexString then "x''" else "b''"
  else if showHexString then
    "x'" ++ QByteArray.toHex data ++ "'"
  else
    let result := data.foldl
      (fun result b =>
        let c := charValue char_signed b
        if c ≥ 32 ∧ c ≤ 126 ∧ c ≠ 39 ∧ c ≠ 92 then
          result ++ String.singleton (Char.ofNat b.val)
        else
          result ++ ("\\x" ++ QString.rightJustified (QString.number_base b.val 16) 2 '0'))
      "b'"
    result ++ "'"

/-- The text-mode rendering of one byte in the words of the specification: the
byte itself when it is printable ASCII other than quote and backslash, and
otherwise a backslash, an `x` and the two lowercase hexadecimal digits of its
unsigned value. -/
def escapedByte (b : Byte) : String :=
  if 32 ≤ b.val ∧ b.val ≤ 126 ∧ b.val ≠ 39 ∧ b.val ≠ 92 then
    String.singleton (Char.ofNat b.val)
  else
    "\\x" ++ String.mk [lowerHexDigit (b.val / 16), lowerHexDigit (b.val % 16)]

/-- The method `QStringList::join(separator)`. -/
def QStringList.join (list : List String) (separator : String) : String :=
  String.intercalate separator list

/-- The function `formatters::formatQStringList`. -/
def formatQStringList (list : List String) : String :=
  if list.isEmpty then "[]"
  else "[" ++ QStringList.join list ", " ++ "]"

/-- A value of type `double`, given by the text `QString::number` produces for
it (format `g`, six significant digits), the only use the formatters make of
it. -/
structure Double where
  number : String
  deriving DecidableEq

/-- A `QVariant`, by its runtime type.  `invalid` is the default-constructed
variant.  A `map` lists the entries of the `QVariantMap` in the order of
`keys()`, ascending by key, so that `map[keys[i]]` is the value of entry `i`.
`other` stands for a variant of any type without a case of its own in
`formatQVariant`, given by the results of its `isNull()` and `toString()`. -/
inductive QVariant
  | invalid
  | string (s : String)
  | int (i : Int)
  | double (d : Double)
  | bool (b : Bool)
  | stringList (l : List String)
  | list (l : List QVariant)
  | map (m : List (String × QVariant))
  | byteArray (b : QByteArray)
  | other (isNull : Bool) (toString : String)

mutual
/-- The function `formatters::formatQVariant`; `fromUtf8` is the conversion
`QString(const QByteArray&)`, which decodes UTF-8. -/
def formatQVariant (fromUtf8 : QByteArray → String) : QVariant → String
  | .string s => s
  | .int i => QString.number i
  | .double d => d.number
  | .bool b => if b then "true" else "false"
  | .stringList l => formatQStringList l
  | .list l => formatQVariantList fromUtf8 l
  | .map m => formatQVariantMap fromUtf8 m
  | .byteArray b => fromUtf8 b
  | .invalid => "null"
  | .other isNull toString => if isNull then "null" else toString
termination_by v => (sizeOf v, 0)
/-- The function `formatters::formatQVariantList`. -/
def formatQVariantList (fromUtf8 : QByteArray → String) (list : List QVariant) : String :=
  if list.isEmpty then "[]"
  else formatQVariantList_loop fromUtf8 list 0 "[" ++ "]"
termination_by (sizeOf list, 1)
/-- The loop of `formatQVariantList`, at index `i` with the elements from `i` on
still to visit. -/
def formatQVariantList_loop (fromUtf8 : QByteArray → String) :
    List QVariant → Nat → String → String
  | [], _, result => result
  | v :: rest, i, result =>
      formatQVariantList_loop fromUtf8 rest (i + 1)
        ((if i > 0 then result ++ ", " else result) ++ formatQVariant fromUtf8 v)
termination_by l => (sizeOf l, 0)
/-- The function `formatters::formatQVariantMap`. -/
def formatQVariantMap (fromUtf8 : QByteArray → String) (map : List (String × QVariant)) :
    String :=
  if map.isEmpty then "\x7b\x7d"
  else formatQVariantMap_loop fromUtf8 map 0 "\x7b" ++ "\x7d"
termination_by (sizeOf map, 1)
/-- The loop of `formatQVariantMap`, at index `i` with the entries from `i` on
still to visit. -/
def formatQVariantMap_loop (fromUtf8 : QByteArray → String) :
    List (String × QVariant) → Nat → String → String
  | [], _, result => result
  | (key, value) :: rest, i, result =>
      formatQVariantMap_loop fromUtf8 rest (i + 1)
        ((if i > 0 then result ++ ", " else result)
          ++ (key ++ ": " ++ formatQVariant fromUtf8 value))
termination_by l => (sizeOf l, 0)
end

/-- The decoding of a byte array that holds ASCII text. -/
def asciiFromUtf8 (b : QByteArray) : String :=
  String.mk (b.map (fun c => Char.ofNat c.val))

/-- The piece `whole` contains `piece` as a substring. -/
def containsSubstring (whole piece : String) : Prop :=
  ∃ pre post : String, whole = pre ++ piece ++ post

/-! ## Numeric sequences -/

/-- The function `formatters::formatNum` for an integral type: the branch
`QString::number(value)` of its `if constexpr`. -/
def formatNum (value : Int) : String := QString.number value

/-- The loop of `formatListNums`, at index `i` with the elements from `i` on
still to visit. -/
def formatListNums_loop : List Int → Nat → String → String
  | [], _, result => result
  | v :: rest, i, result =>
      formatListNums_loop rest (i + 1)
        ((if i > 0 then result ++ ", " else result) ++ formatNum v)

/-- The function `formatters::formatListNums` for a list of integers. -/
def formatListNums (list : List Int) : String :=
  if list.isEmpty then "[]"
  else formatListNums_loop list 0 "[" ++ "]"

/-- The loop of `formatVectorNums`, at index `i` with the elements from `i` on
still to visit. -/
def formatVectorNums_loop : List Int → Nat → String → String
  | [], _, result => result
  | v :: rest, i, result =>
      formatVectorNums_loop rest (i + 1)
        ((if i > 0 then result ++ ", " else result) ++ formatNum v)

/-- The function `formatters::formatVectorNums` for a vector of integers. -/
def formatVectorNums (vec : List Int) : String :=
  if vec.isEmpty then "[]"
  else formatVectorNums_loop vec 0 "[" ++ "]"

/-- A variant tree of nesting depth `n`: the invalid variant inside `n` lists of
one element. -/
def nestedList : Nat → QVariant
  | 0 => QVariant.invalid
  | n + 1 => QVariant.list [nestedList n]

/-! ## Runs of the variant formatters with a bound on the steps

The three variant formatters call each other.  Here they are given once more,
statement by statement, as runs in which every call and every pass of a loop
takes one step: a run ends with the string returned, with an access outside a
container, or with the steps used up. -/

/-- How a run of a formatter with a bound on its steps ends. -/
inductive Run
  | returned (text : String)
  | raised
  | unfinished
  deriving DecidableEq

mutual
/-- A run of `formatters::formatQVariant`. -/
def formatQVariant_run (fromUtf8 : QByteArray → String) : Nat → QVariant → Run
  | 0, _ => Run.unfinished
  | steps + 1, variant =>
      match variant with
      | .string s => Run.returned s
      | .int i => Run.returned (QString.number i)
      | .double d => Run.returned d.number
      | .bool b => Run.returned (if b then "true" else "false")
      | .stringList l => Run.returned (formatQStringList l)
      | .list l => formatQVariantList_run fromUtf8 steps l
      | .map m => formatQVariantMap_run fromUtf8 steps m
      | .byteArray b => Run.returned (fromUtf8 b)
      | .invalid => Run.returned "null"
      | .other isNull toString => Run.returned (if isNull then "null" else toString)
/-- A run of `formatters::formatQVariantList`. -/
def formatQVariantList_run (fromUtf8 : QByteArray → String) : Nat → List QVariant → Run
  | 0, _ => Run.unfinished
  | steps + 1, list =>
      if list.isEmpty then Run.returned "[]"
      else
        match formatQVariantList_loop_run fromUtf8 steps list 0 "[" with
        | Run.returned result => Run.returned (result ++ "]")
        | r => r
/-- A run of the loop of `formatQVariantList` from index `i` on; `list[i]` is an
access that raises outside the list. -/
def formatQVariantList_loop_run (fromUtf8 : QByteArray → String) :
    Nat → List QVariant → Nat → String → Run
  | 0, _, _, _ => Run.unfinished
  | steps + 1, list, i, result =>
      if i < list.length then
        match list[i]? with
        | none => Run.raised
        | some v =>
            match formatQVariant_run fromUtf8 steps v with
            | Run.returned text =>
                formatQVariantList_loop_run fromUtf8 steps list (i + 1)
                  ((if i > 0 then result ++ ", " else result) ++ text)
            | r => r
      else Run.returned result
/-- A run of `formatters::formatQVariantMap`. -/
def formatQVariantMap_run (fromUtf8 : QByteArray → String) :
    Nat → List (String × QVariant) → Run
  | 0, _ => Run.unfinished
  | steps + 1, map =>
      if map.isEmpty then Run.returned "\x7b\x7d"
      else
        match formatQVariantMap_loop_run fromUtf8 steps map 0 "\x7b" with
        | Run.returned result => Run.returned (result ++ "\x7d")
        | r => r
/-- A run of the loop of `formatQVariantMap` from index `i` on; `keys[i]` is an
access that raises outside the list of keys, and `keys[i]` and `map[keys[i]]`
are the key and the value of entry `i`. -/
def formatQVariantMap_loop_run (fromUtf8 : QByteArray → String) :
    Nat → List (String × QVariant) → Nat → String → Run
  | 0, _, _, _ => Run.unfinished
  | steps + 1, map, i, result =>
      if i < map.length then
        match map[i]? with
        | none => Run.raised
        | some (key, value) =>
            match formatQVariant_run fromUtf8 steps value with
            | Run.returned text =>
                formatQVariantMap_loop_run fromUtf8 steps map (i + 1)
                  ((if i > 0 then result ++ ", " else result) ++ (key ++ ": " ++ text))
            | r => r
      else Run.returned result
end

/-- A variant tree with a list, a map and a string list inside a list. -/
def sampleTree : QVariant :=
  QVariant.list
    [QVariant.int 1,
     QVariant.map [("a", QVariant.list [QVariant.invalid]), ("b", QVariant.bool true)],
     QVariant.stringList ["x", "y"]]

/-! ## Writes of the module tag -/

/-- A write of the module tag: `set_current_module(tag)` executed on `thread`.
The constructor and the destructor of a module guard are such writes. -/
structure ModuleWrite where
  thread : ThreadId
  tag : String
  deriving DecidableEq

/-- The writes of a list executed one after the other, in the order in which the
threads happened to perform them. -/
def runModuleWrites (ws : List ModuleWrite) (s : State) : State :=
  ws.foldl (fun st w => set_current_module w.thread w.tag st) s

/-- The tag of the last write of the list that thread `t` executed, if it
executed one. -/
def lastModuleWrite (t : ThreadId) : List ModuleWrite → Option String
  | [] => none
  | w :: ws =>
      match lastModuleWrite t ws with
      | some m => some m
      | none => if w.thread = t then some w.tag else none

/-! ## Maps

A `QMap` is given by its key/value pairs, with distinct keys, in the order in
which they were inserted.  `keys()` lists the keys in ascending order whatever
that order of insertion was.  The value and key types of the two function
templates are type parameters. -/

/-- The method `QMap::keys()` of a map with `QString` keys. -/
def QMap.keys {β : Type} (m : List (String × β)) : List String :=
  (QMap.entriesByKey m).map Prod.fst

/-- A numeric type `T` of the formatter templates, by what the formatters use
of it: the text `QString::number` gives for a value, and the value-initialised
`T()`, which `QMap::value` returns for a key the map does not have. -/
structure NumberType (T : Type) where
  number : T → String
  zero : T

/-- The type `int`, and every other integral type, over unbounded integers. -/
def intType : NumberType Int := { number := QString.number, zero := 0 }

/-- The types `float` and `double`: `QString::number` takes a `double`, to
which a `float` is promoted, and writes it in format `g` with six digits. -/
def doubleType : NumberType Double :=
  { number := fun d => d.number, zero := { number := "0" } }

/-- The entries of a `QMap` with keys of a numeric type `T` in ascending order
of the keys by the `operator<` of `T`, a total order. -/
def QMap.entriesByNumKey {T β : Type} [LinearOrder T] (m : List (T × β)) : List (T × β) :=
  m.insertionSort (fun a b => a.1 ≤ b.1)

/-- The method `QMap::keys()` of a map with keys of a numeric type. -/
def QMap.numKeys {T β : Type} [LinearOrder T] (m : List (T × β)) : List T :=
  (QMap.entriesByNumKey m).map Prod.fst

/-- The loop of `formatMapStrNums` over `keys`, at index `i` with the keys from
`i` on still to visit. -/
def formatMapStrNums_loop {T : Type} (nt : NumberType T) (map : List (String × T)) :
    List String → Nat → String → String
  | [], _, result => result
  | key :: rest, i, result =>
      formatMapStrNums_loop nt map rest (i + 1)
        ((if i > 0 then result ++ ", " else result)
          ++ (key ++ ": " ++ nt.number (QMap.value map key nt.zero)))

/-- The function template `formatters::formatMapStrNums` for a
`QMap<QString, T>`. -/
def formatMapStrNums {T : Type} (nt : NumberType T) (map : List (String × T)) : String :=
  if map.isEmpty then "\x7b\x7d"
  else
    let keys := QMap.keys map
    formatMapStrNums_loop nt map keys 0 "\x7b" ++ "\x7d"

/-- The loop of `formatMapNumStrs` over `keys`, at index `i` with the keys from
`i` on still to visit; `map[key]` is the value stored under the key. -/
def formatMapNumStrs_loop {T : Type} [LinearOrder T] (nt : NumberType T)
    (map : List (T × String)) : List T → Nat → String → String
  | [], _, result => result
  | key :: rest, i, result =>
      formatMapNumStrs_loop nt map rest (i + 1)
        ((if i > 0 then result ++ ", " else result)
          ++ (nt.number key ++ ": " ++ QMap.value map key ""))

/-- The function template `formatters::formatMapNumStrs` for a
`QMap<T, QString>`. -/
def formatMapNumStrs {T : Type} [LinearOrder T] (nt : NumberType T)
    (map : List (T × String)) : String :=
  if map.isEmpty then "\x7b\x7d"
  else
    let keys := QMap.numKeys map
    formatMapNumStrs_loop nt map keys 0 "\x7b" ++ "\x7d"

/-! ## The thread-local logger over time -/

/-- An operation on the context of a thread: `set_current_module(tag)` or
`get_thread_local_logger()`, executed on thread `t`. -/
inductive ContextOp
  | setModule (t : ThreadId) (tag : String)
  | getLogger (t : ThreadId)

/-- The effect of one operation; `none` when `get_thread_local_logger` meets a
null default logger. -/
def ContextOp.run (x : Externals) : ContextOp → State → Option State
  | .setModule t tag, s => some (set_current_module t tag s)
  | .getLogger t, s =>
      match get_thread_local_logger x t s with
      | some r => some r.2
      | none => none

/-- The operations of a list executed one after the other. -/
def runContextOps (x : Externals) : List ContextOp → State → Option State
  | [], s => some s
  | op :: ops, s =>
      match op.run x s with
      | some s' => runContextOps x ops s'
      | none => none

/-- Thread `t` holds the logger `l`, which has the name `n` and an address below
the next one to be given out, and there is a default logger. -/
def holdsLogger (t : ThreadId) (l : LoggerId) (n : String) (s : State) : Prop :=
  s.logger_storage t = some l ∧ s.name l = n ∧ l < s.next_logger ∧
    ∃ d, s.default_logger = some d

/-! ## The global level -/

/-- The logger is in the table of the registry. -/
def State.isRegistered (s : State) (l : LoggerId) : Bool :=
  s.registered_names.any (fun n => decide (s.registry n = some l))

/-- Modelled from the spec: the operation `spdlog::set_level(lvl)` of the
backend, which sets the threshold of every logger in the table of the
registry. -/
def spdlog_set_level (s : State) (lvl : level_enum) : State :=
  { s with level := fun j => if s.isRegistered j then lvl else s.level j }

/-- The function `set_level(const QString&)`: the result and the state after
the call (the message written to `std::cerr` for an unknown name is not part
of the state). -/
def set_level_QString (x : Externals) (level : String) (s : State) : Bool × State :=
  let level_map := details.get_string_to_level_map
  match level_map.find? (fun e => decide (e.1 = x.toLower level)) with
  | some it => (true, spdlog_set_level s it.2)
  | none => (false, s)

/-- The function `get_level`; `spdlog::get_level()` is the threshold of the
default logger, and the result is `none` when the default logger is the null
pointer, which the call dereferences. -/
def get_level (s : State) : Option String :=
  match s.default_logger with
  | none => none
  | some d =>
      match details.get_level_to_string_map.find? (fun e => decide (e.1 = s.level d)) with
      | some it => some it.2
      | none => some "unknown"

/-! ## The handler for host messages -/

/-- The numeric values of `QtMsgType`. -/
def QtMsgType.toNat : QtMsgType → Nat
  | .QtDebugMsg => 0
  | .QtWarningMsg => 1
  | .QtCriticalMsg => 2
  | .QtFatalMsg => 3
  | .QtInfoMsg => 4

/-- The `switch` of the handler that `setup_qt_message_handler` installs, on the
numeric value of the message type. -/
def message_handler_level (type : Nat) : level_enum :=
  if type = QtMsgType.QtDebugMsg.toNat then level_enum.debug
  else if type = QtMsgType.QtInfoMsg.toNat then level_enum.info
  else if type = QtMsgType.QtWarningMsg.toNat then level_enum.warn
  else if type = QtMsgType.QtCriticalMsg.toNat then level_enum.err
  else if type = QtMsgType.QtFatalMsg.toNat then level_enum.critical
  else level_enum.info

/-- How a call of the handler ends: it returns, or it has called `std::abort()`. -/
inductive HandlerEnd
  | returned
  | aborted
  deriving DecidableEq

/-- The handler that `setup_qt_message_handler` installs, with a logging step
that returns normally, as the backend operation `logger_log` does; the `catch`
branch, which hands the message to the previously installed handler when the
logging step throws `std::exception`, is then not entered.  The result is
`none` when the default logger is the null pointer, which the handler
dereferences. -/
def qt_message_handler (type : Nat) (msg : String) (s : State) : Option (State × HandlerEnd) :=
  let level := message_handler_level type
  match s.default_logger with
  | none => none
  | some d =>
      let s1 := logger_log d level [msg] s
      if type = QtMsgType.QtFatalMsg.toNat then some (s1, HandlerEnd.aborted)
      else some (s1, HandlerEnd.returned)

/-! ## Exception names -/

/-- The method `QString::replace(before, after)` for a non-empty `before`, on
the characters of the strings: the text is scanned from the left, every
occurrence of `before` found is replaced by `after`, and the scan goes on behind
the occurrence.  The counter is the number of characters of a found occurrence
still to be passed over. -/
def replaceScan (before after : List Char) : Nat → List Char → List Char
  | _, [] => []
  | skip + 1, _ :: cs => replaceScan before after skip cs
  | 0, c :: cs =>
      if before.isPrefixOf (c :: cs) then
        after ++ replaceScan before after (before.length - 1) cs
      else
        c :: replaceScan before after 0 cs

/-- The method `QString::replace(before, after)` for a non-empty `before`. -/
def QString.replace (s before after : String) : String :=
  String.mk (replaceScan before.data after.data 0 s.data)

/-- The method `QString::startsWith`. -/
def QString.startsWith (s start : String) : Bool :=
  start.data.isPrefixOf s.data

/-- The method `QString::mid(position)`. -/
def QString.mid (s : String) (position : Nat) : String :=
  String.mk (s.data.drop position)

/-- The function `utils::format_exception_name`. -/
def utils.format_exception_name (name : String) : String :=
  let result := name
  let result := QString.replace result "St13runtime_error" "std::runtime_error"
  let result := QString.replace result "St16invalid_argument" "std::invalid_argument"
  let result := QString.replace result "St12out_of_range" "std::out_of_range"
  let result := QString.replace result "St11logic_error" "std::logic_error"
  let result := QString.replace result "St12length_error" "std::length_error"
  let result := QString.replace result "NSt8ios_base7failureE" "std::ios::failure"
  let result := QString.replace result "NSt8ios_base7failureB5cxx11E" "std::ios::failure"
  if QString.startsWith result "St" then QString.mid result 2 else result

/-- Every non-empty end piece of `u` and the text `v` differ at some position
that both have: neither is a beginning of the other.  Then no occurrence of
`v` in a text begins inside an occurrence of `u`. -/
def noOverlap (u v : List Char) : Bool :=
  u.tails.all (fun t => t.isEmpty || (!(t.isPrefixOf v) && !(v.isPrefixOf t)))

end qt_spdlog

open qt_spdlog

/-! ## Scoped level guard -/

/-- C1: for a valid level name `N`, with the target logger of
`create_scoped_logger(N)` (the logger registered as `qt`, else the default
logger) being `l`, the returned guard converts to true and holds `l`, the
threshold of `l` is `string_to_level(N)` while the guard is alive, no other
threshold is touched, and after the destructor every threshold, that of `l`
included, is what it was before. -/
theorem create_scoped_logger_valid (x : Externals) (N : String) (s : State) (l : LoggerId)
    (hN : is_valid_level x N = true)
    (hl : ScopedLoggerLevel.resolve "qt" s = some l) :
    (create_scoped_logger x N s).1.toBool = true ∧
    (create_scoped_logger x N s).1.logger_ = some l ∧
    (create_scoped_logger x N s).2.level l = string_to_level x N ∧
    (∀ j, j ≠ l → (create_scoped_logger x N s).2.level j = s.level j) ∧
    (∀ j, ((create_scoped_logger x N s).1.dtor (create_scoped_logger x N s).2).level j
      = s.level j) := by
  have h : create_scoped_logger x N s =
      ({ logger_ := some l, original_level_ := s.level l, active_ := true },
        set_level s l (string_to_level x N)) := by
    simp [create_scoped_logger, hN, ScopedLoggerLevel.ctor, hl]
  rw [h]
  refine ⟨rfl, rfl, ?_, ?_, ?_⟩
  · simp [set_level]
  · intro j hj
    simp [set_level, hj]
  · intro j
    by_cases hj : j = l
    · simp [ScopedLoggerLevel.dtor, set_level, hj]
    · simp [ScopedLoggerLevel.dtor, set_level, hj]

/-- C1, at the test fixture with threshold `info` and the name `debug`: the
guard is active, `should_log(debug)` is true inside the scope and false
after it. -/
theorem create_scoped_logger_valid_witness :
    (is_valid_level asciiExternals "debug" = true ∧
      ScopedLoggerLevel.resolve "qt" (testStateAt .info) = some 0) ∧
    ((create_scoped_logger asciiExternals "debug" (testStateAt .info)).1.toBool = true ∧
      should_log (create_scoped_logger asciiExternals "debug" (testStateAt .info)).2 0 .debug
        = true ∧
      should_log ((create_scoped_logger asciiExternals "debug" (testStateAt .info)).1.dtor
        (create_scoped_logger asciiExternals "debug" (testStateAt .info)).2) 0 .debug = false ∧
      ((create_scoped_logger asciiExternals "debug" (testStateAt .info)).1.dtor
        (create_scoped_logger asciiExternals "debug" (testStateAt .info)).2).level 0 = .info) := by
  have h := create_scoped_logger_valid asciiExternals "debug" (testStateAt .info) 0
    (by decide) (by decide)
  refine ⟨⟨by decide, by decide⟩, h.1, ?_, ?_, ?_⟩
  · simp only [should_log, h.2.2.1]
    decide
  · simp only [should_log, h.2.2.2.2 0]
    decide
  · rw [h.2.2.2.2 0]
    decide

/-- C2: for a name that is not a valid level, in a state whose default logger
is `d`, the guard returned by `create_scoped_logger` converts to true, holds
`d`, and the threshold of `d` is `info` while the guard is alive; the guard is
inactive only when there is no default logger. -/
theorem create_scoped_logger_invalid_name_is_active (x : Externals) (N : String) (s : State)
    (d : LoggerId) (hN : is_valid_level x N = false) (hd : s.default_logger = some d) :
    (create_scoped_logger x N s).1.toBool = true ∧
    (create_scoped_logger x N s).1.logger_ = some d ∧
    (create_scoped_logger x N s).1.original_level_ = s.level d ∧
    (create_scoped_logger x N s).2.level d = level_enum.info := by
  have h : create_scoped_logger x N s =
      ({ logger_ := some d, original_level_ := s.level d, active_ := true },
        set_level s d level_enum.info) := by
    simp [create_scoped_logger, hN, ScopedLoggerLevel.ctor, ScopedLoggerLevel.resolve, hd]
  rw [h]
  exact ⟨rfl, rfl, rfl, by simp [set_level]⟩

/-- C2, at the test fixture (default logger at threshold `trace`): the name
`invalid_level_name` is not a valid level, yet the guard converts to true and
the threshold of the default logger is `info`, not `trace`, while the guard
is alive. -/
theorem create_scoped_logger_invalid_name_is_active_witness :
    is_valid_level asciiExternals "invalid_level_name" = false ∧
    testState.default_logger = some 0 ∧
    testState.level 0 = level_enum.trace ∧
    (create_scoped_logger asciiExternals "invalid_level_name" testState).1.toBool = true ∧
    (create_scoped_logger asciiExternals "invalid_level_name" testState).2.level 0
      = level_enum.info :=
  have h := create_scoped_logger_invalid_name_is_active asciiExternals "invalid_level_name"
    testState 0 (by decide) rfl
  ⟨by decide, rfl, rfl, h.1, h.2.2.2⟩

/-! ## Nesting of guards -/

/-- The level guard's constructor followed, after any inner code that leaves
the observable state as it found it, by its destructor leaves the observable
state as it was. -/
theorem ScopedLoggerLevel_ctor_dtor_restores (logger_name : String) (lvl : level_enum)
    (s s' : State)
    (h : sameObservableState (ScopedLoggerLevel.ctor logger_name lvl s).2 s') :
    sameObservableState s ((ScopedLoggerLevel.ctor logger_name lvl s).1.dtor s') := by
  unfold ScopedLoggerLevel.ctor at h ⊢
  cases hr : ScopedLoggerLevel.resolve logger_name s with
  | none =>
      rw [hr] at h
      simpa [ScopedLoggerLevel.dtor] using h
  | some l =>
      rw [hr] at h
      obtain ⟨h1, h2, h3, h4, h5, h6, h7, h8⟩ := h
      refine ⟨?_, ?_, ?_, ?_, ?_, ?_, ?_, ?_⟩
      · intro j
        by_cases hj : j = l
        · simp [ScopedLoggerLevel.dtor, set_level, hj]
        · have := h1 j
          simp only [set_level, hj, if_false] at this
          simp [ScopedLoggerLevel.dtor, set_level, hj, this]
      · intro t
        simpa [ScopedLoggerLevel.dtor, set_level, get_current_module,
          get_current_module_name] using h2 t
      · simpa [ScopedLoggerLevel.dtor, set_level] using h3
      · simpa [ScopedLoggerLevel.dtor, set_level] using h4
      · simpa [ScopedLoggerLevel.dtor, set_level] using h5
      · simpa [ScopedLoggerLevel.dtor, set_level] using h6
      · simpa [ScopedLoggerLevel.dtor, set_level] using h7
      · simpa [ScopedLoggerLevel.dtor, set_level] using h8

/-- The module guard's constructor followed, after any inner code that leaves
the observable state as it found it, by its destructor leaves the observable
state as it was. -/
theorem ScopedModule_ctor_dtor_restores (t : ThreadId) (m : String) (s s' : State)
    (h : sameObservableState (ScopedModule.ctor t m s).2 s') :
    sameObservableState s ((ScopedModule.ctor t m s).1.dtor t s') := by
  obtain ⟨h1, h2, h3, h4, h5, h6, h7, h8⟩ := h
  refine ⟨?_, ?_, ?_, ?_, ?_, ?_, ?_, ?_⟩
  · intro j
    simpa [ScopedModule.dtor, ScopedModule.ctor, set_current_module_name] using h1 j
  · intro u
    by_cases hu : u = t
    · simp [ScopedModule.dtor, ScopedModule.ctor, set_current_module_name,
        get_current_module, get_current_module_name, hu]
    · have := h2 u
      simp only [ScopedModule.ctor, set_current_module_name, get_current_module,
        get_current_module_name, hu, if_false] at this
      simp [ScopedModule.dtor, ScopedModule.ctor, set_current_module_name,
        get_current_module, get_current_module_name, hu, this]
  · simpa [ScopedModule.dtor, ScopedModule.ctor, set_current_module_name] using h3
  · simpa [ScopedModule.dtor, ScopedModule.ctor, set_current_module_name] using h4
  · simpa [ScopedModule.dtor, ScopedModule.ctor, set_current_module_name] using h5
  · simpa [ScopedModule.dtor, ScopedModule.ctor, set_current_module_name] using h6
  · simpa [ScopedModule.dtor, ScopedModule.ctor, set_current_module_name] using h7
  · simpa [ScopedModule.dtor, ScopedModule.ctor, set_current_module_name] using h8

theorem sameObservableState_refl (s : State) : sameObservableState s s :=
  ⟨fun _ => rfl, fun _ => rfl, rfl, rfl, rfl, rfl, rfl, rfl⟩

theorem sameObservableState_trans {a b c : State} (hab : sameObservableState a b)
    (hbc : sameObservableState b c) : sameObservableState a c := by
  obtain ⟨h1, h2, h3, h4, h5, h6, h7, h8⟩ := hab
  obtain ⟨k1, k2, k3, k4, k5, k6, k7, k8⟩ := hbc
  exact ⟨fun l => (k1 l).trans (h1 l), fun t => (k2 t).trans (h2 t), k3.trans h3,
    k4.trans h4, k5.trans h5, k6.trans h6, k7.trans h7, k8.trans h8⟩

/-- Construction of any guard, inner code that preserves the observable state,
then destruction of the guard: the observable state is preserved. -/
theorem GuardDecl_construct_destroy_restores (t : ThreadId) (d : GuardDecl) (s s' : State)
    (h : sameObservableState (d.construct t s).2 s') :
    sameObservableState s ((d.construct t s).1.destroy t s') := by
  cases d with
  | level logger_name lvl =>
      exact ScopedLoggerLevel_ctor_dtor_restores logger_name lvl s s' h
  | module m =>
      exact ScopedModule_ctor_dtor_restores t m s s' h

/-- A properly nested sequence of guards preserves the observable state. -/
theorem Scopes_run_restores (t : ThreadId) (p : Scopes) :
    ∀ s : State, sameObservableState s (p.run t s) := by
  induction p with
  | done => intro s; exact sameObservableState_refl s
  | scope d inner next ihInner ihNext =>
      intro s
      have h1 := GuardDecl_construct_destroy_restores t d s _ (ihInner (d.construct t s).2)
      exact sameObservableState_trans h1 (ihNext _)

/-- C3: on any thread, for every guard declaration (level guard on any logger
name, or module guard) and every properly nested sequence `inner` of further
guards constructed and destroyed while it is alive, destroying the guard
restores the thresholds of all loggers and the module tag of every thread that
held just before its construction; and a whole properly nested sequence leaves
that observable state as it was before its first guard. -/
theorem scoped_guards_unwind (t : ThreadId) :
    (∀ (d : GuardDecl) (inner : Scopes) (s : State),
      sameObservableState s
        ((d.construct t s).1.destroy t (inner.run t (d.construct t s).2))) ∧
    (∀ (p : Scopes) (s : State), sameObservableState s (p.run t s)) :=
  ⟨fun d inner s =>
      GuardDecl_construct_destroy_restores t d s _ (Scopes_run_restores t inner _),
    fun p s => Scopes_run_restores t p s⟩

/-! ## Module guard -/

/-- C4: for every tag `m`, thread `t` and prior state: while the guard made by
`module(m)` is alive, `get_current_module()` is `m`, `current_module()` is
`m` and `previous_module()` is the prior tag `m0` (`unknown` when the thread
never set one); after the destructor `get_current_module()` is `m0` again.
With a guard for `Network` enclosing a guard for `HTTP`, leaving the inner one
gives `Network` and leaving the outer one gives the tag from before it. -/
theorem scoped_module_contract (t : ThreadId) (m : String) (s : State) :
    get_current_module t (module t m s).2 = m ∧
    (module t m s).1.current_module = m ∧
    (module t m s).1.previous_module = get_current_module t s ∧
    (s.module_storage t = none → (module t m s).1.previous_module = "unknown") ∧
    (∀ m0, s.module_storage t = some m0 → (module t m s).1.previous_module = m0) ∧
    get_current_module t ((module t m s).1.dtor t (module t m s).2) = get_current_module t s ∧
    get_current_module t
        ((module t "HTTP" (module t "Network" s).2).1.dtor t
          (module t "HTTP" (module t "Network" s).2).2) = "Network" ∧
    get_current_module t
        ((module t "Network" s).1.dtor t
          ((module t "HTTP" (module t "Network" s).2).1.dtor t
            (module t "HTTP" (module t "Network" s).2).2)) = get_current_module t s := by
  refine ⟨?_, rfl, rfl, ?_, ?_, ?_, ?_, ?_⟩
  · simp [module, ScopedModule.ctor, set_current_module_name, get_current_module,
      get_current_module_name]
  · intro h
    simp [module, ScopedModule.ctor, ScopedModule.previous_module, get_current_module_name, h]
  · intro m0 h
    simp [module, ScopedModule.ctor, ScopedModule.previous_module, get_current_module_name, h]
  · simp [module, ScopedModule.ctor, ScopedModule.dtor, set_current_module_name,
      get_current_module, get_current_module_name]
  · simp [module, ScopedModule.ctor, ScopedModule.dtor, set_current_module_name,
      get_current_module, get_current_module_name]
  · simp [module, ScopedModule.ctor, ScopedModule.dtor, set_current_module_name,
      get_current_module, get_current_module_name]

/-- C4, on the test fixture, where thread 0 never set a tag: inside the guard
for `scoped_test` the tag is `scoped_test` and the previous tag `unknown`, and
after the guard the tag is `unknown`. -/
theorem scoped_module_contract_witness :
    testState.module_storage 0 = none ∧
    get_current_module 0 (module 0 "scoped_test" testState).2 = "scoped_test" ∧
    (module 0 "scoped_test" testState).1.previous_module = "unknown" ∧
    get_current_module 0
      ((module 0 "scoped_test" testState).1.dtor 0 (module 0 "scoped_test" testState).2)
      = "unknown" := by
  have h := scoped_module_contract 0 "scoped_test" testState
  refine ⟨rfl, h.1, h.2.2.2.1 rfl, ?_⟩
  rw [h.2.2.2.2.2.1]
  decide

/-! ## Guards and exceptions -/

/-- C5: a block that holds a guard and then runs an arbitrary body ends, whether
the body completes normally or raises, in the state the destructor of the guard
produces from the state the body left.  For a module guard the tag of the
thread is then the tag from before the block; for a level guard that resolved
logger `l`, the threshold of `l` is the threshold from before the block.  The
completion of the body is passed on unchanged, and a handler around the block
starts from that restored state. -/
theorem guard_restores_on_every_exit (t : ThreadId) (body : State → State × Completion)
    (s : State) :
    (∀ m, get_current_module t (guarded_block t (.module m) body s).1
        = get_current_module t s) ∧
    (∀ logger_name lvl l, ScopedLoggerLevel.resolve logger_name s = some l →
      (guarded_block t (.level logger_name lvl) body s).1.level l = s.level l) ∧
    (∀ d, (guarded_block t d body s).1
        = (d.construct t s).1.destroy t (body (d.construct t s).2).1 ∧
      (guarded_block t d body s).2 = (body (d.construct t s).2).2) ∧
    (∀ d handler what, (body (d.construct t s).2).2 = Completion.raised what →
      try_catch (guarded_block t d body) handler s
        = handler what ((d.construct t s).1.destroy t (body (d.construct t s).2).1)) := by
  refine ⟨?_, ?_, ?_, ?_⟩
  · intro m
    simp [guarded_block, GuardDecl.construct, Guard.destroy, ScopedModule.ctor,
      ScopedModule.dtor, set_current_module_name, get_current_module, get_current_module_name]
  · intro logger_name lvl l hl
    simp [guarded_block, GuardDecl.construct, Guard.destroy, ScopedLoggerLevel.ctor, hl,
      ScopedLoggerLevel.dtor, set_level]
  · intro d
    exact ⟨rfl, rfl⟩
  · intro d handler what h
    simp [try_catch, guarded_block, h]

/-- C5, on the test fixture at threshold `warn`: with a body that changes tag
and threshold and raises, the handler around a module guard sees the tag
`unknown`, and the state after a level guard has threshold `warn`, the same
as with the body that does not raise. -/
theorem guard_restores_on_every_exit_witness :
    get_current_module 0
      (try_catch (guarded_block 0 (.module "ErrorHandling") (disturbingBody true))
        (fun _ st => st) (testStateAt .warn)) = "unknown" ∧
    (guarded_block 0 (.level "qt" .debug) (disturbingBody true) (testStateAt .warn)).1.level 0
      = level_enum.warn ∧
    (guarded_block 0 (.level "qt" .debug) (disturbingBody false) (testStateAt .warn)).1.level 0
      = level_enum.warn := by
  have h := guard_restores_on_every_exit 0 (disturbingBody true) (testStateAt .warn)
  have h' := guard_restores_on_every_exit 0 (disturbingBody false) (testStateAt .warn)
  refine ⟨?_, ?_, ?_⟩
  · rw [h.2.2.2 (.module "ErrorHandling") (fun _ st => st) "std::runtime_error" rfl]
    have := h.1 "ErrorHandling"
    rw [(h.2.2.1 (.module "ErrorHandling")).1] at this
    rw [this]
    decide
  · rw [h.2.1 "qt" .debug 0 (by decide)]
    decide
  · rw [h'.2.1 "qt" .debug 0 (by decide)]
    decide

/-! ## Resolution of the target logger -/

/-- C6: `ScopedLoggerLevel(name, level)` holds the logger registered under
`name` when `name` is non-empty and registered, and the default logger
otherwise; the held logger, and no other, gets the threshold `level`.  The
guard converts to false exactly when the name is empty or unregistered and
there is no default logger; then construction leaves the state unchanged and
the destructor leaves every state unchanged. -/
theorem ScopedLoggerLevel_resolution (logger_name : String) (lvl : level_enum) (s : State) :
    (∀ l, logger_name ≠ "" → s.registry logger_name = some l →
      (ScopedLoggerLevel.ctor logger_name lvl s).1.logger_ = some l) ∧
    ((logger_name = "" ∨ s.registry logger_name = none) →
      (ScopedLoggerLevel.ctor logger_name lvl s).1.logger_ = s.default_logger) ∧
    (∀ l, (ScopedLoggerLevel.ctor logger_name lvl s).1.logger_ = some l →
      (ScopedLoggerLevel.ctor logger_name lvl s).1.toBool = true ∧
      (ScopedLoggerLevel.ctor logger_name lvl s).1.original_level_ = s.level l ∧
      (ScopedLoggerLevel.ctor logger_name lvl s).2.level l = lvl ∧
      ∀ j, j ≠ l → (ScopedLoggerLevel.ctor logger_name lvl s).2.level j = s.level j) ∧
    ((ScopedLoggerLevel.ctor logger_name lvl s).1.toBool = false ↔
      ((logger_name = "" ∨ s.registry logger_name = none) ∧ s.default_logger = none)) ∧
    ((ScopedLoggerLevel.ctor logger_name lvl s).1.toBool = false →
      (ScopedLoggerLevel.ctor logger_name lvl s).2 = s ∧
      ∀ s', (ScopedLoggerLevel.ctor logger_name lvl s).1.dtor s' = s') := by
  unfold ScopedLoggerLevel.ctor ScopedLoggerLevel.resolve
  by_cases hn : logger_name = ""
  · cases hd : s.default_logger with
    | none => simp [hn, hd, ScopedLoggerLevel.toBool, ScopedLoggerLevel.dtor]
    | some d =>
        simp only [hn, hd, if_true, ScopedLoggerLevel.toBool]
        refine ⟨by simp, by simp, ?_, by simp, by simp⟩
        intro l hl
        simp only [Option.some.injEq] at hl
        subst hl
        simp only [set_level, if_true, true_and]
        intro j hj
        simp [hj]
  · cases hr : s.registry logger_name with
    | some r =>
        simp only [hn, hr, if_false, ScopedLoggerLevel.toBool]
        refine ⟨by simp, by simp, ?_, by simp, by simp⟩
        intro l hl
        simp only [Option.some.injEq] at hl
        subst hl
        simp only [set_level, if_true, true_and]
        intro j hj
        simp [hj]
    | none =>
        cases hd : s.default_logger with
        | none => simp [hn, hr, hd, ScopedLoggerLevel.toBool, ScopedLoggerLevel.dtor]
        | some d =>
            simp only [hn, hr, hd, if_false, ScopedLoggerLevel.toBool]
            refine ⟨by simp, by simp, ?_, by simp, by simp⟩
            intro l hl
            simp only [Option.some.injEq] at hl
            subst hl
            simp only [set_level, if_true, true_and]
            intro j hj
            simp [hj]

/-- C6, on concrete states: with nothing registered and no default logger the
guard for the empty name is inactive and construction changes nothing; on the
test fixture an unregistered name resolves to the default logger. -/
theorem ScopedLoggerLevel_resolution_witness :
    (ScopedLoggerLevel.ctor "" .debug noLoggerState).1.toBool = false ∧
    (ScopedLoggerLevel.ctor "" .debug noLoggerState).2 = noLoggerState ∧
    (ScopedLoggerLevel.ctor "missing" .debug testState).1.logger_ = some 0 := by
  have h := ScopedLoggerLevel_resolution "" .debug noLoggerState
  have hf := h.2.2.2.1.mpr ⟨Or.inl rfl, rfl⟩
  have k := ScopedLoggerLevel_resolution "missing" .debug testState
  exact ⟨hf, (h.2.2.2.2 hf).1, (k.2.1 (Or.inr (by decide))).trans rfl⟩

/-! ## Conditional dispatch -/

theorem should_log_off (s : State) (l : LoggerId) : should_log s l level_enum.off = true := by
  unfold should_log
  cases s.level l <;> decide

theorem should_log_iff (s : State) (l : LoggerId) (lvl : level_enum) :
    should_log s l lvl = true ↔ (s.level l).toNat ≤ lvl.toNat := by
  simp [should_log]

theorem should_log_eq_false_iff (s : State) (l : LoggerId) (lvl : level_enum) :
    should_log s l lvl = false ↔ lvl.toNat < (s.level l).toNat := by
  simp [should_log]

theorem LevelName_check_level_eq (n : LevelName) : n.check_level = n.method_level := by
  cases n <;> rfl

theorem LevelName_method_level_lt_off (n : LevelName) :
    n.method_level.toNat < level_enum.off.toNat := by
  cases n <;> decide

/-- The result of `QT_LOG_INTERNAL` when the check succeeds. -/
theorem QT_LOG_INTERNAL_pass {σ : Type} (l : LoggerId) (level_name : LevelName)
    (lvl : level_enum) (args : List (ArgExpr σ)) (w : σ) (s : State)
    (h : should_log s l lvl = true) :
    QT_LOG_INTERNAL (some l) level_name lvl args w s =
      some { world := (eval_args args w).2
             state := logger_log l level_name.method_level
               (forwarded_payload (eval_args args w).1) s
             trace := (List.range args.length).map Event.arg_evaluated ++
               ((List.range (eval_args args w).1.length).map Event.arg_converted ++
                 [Event.backend_call l level_name.method_level
                   (forwarded_payload (eval_args args w).1)]) } := by
  simp [QT_LOG_INTERNAL, h, utils.log_with_conversion, logger_func, forwarded_payload]

/-- The result of `QT_LOG_INTERNAL` when the check fails. -/
theorem QT_LOG_INTERNAL_fail {σ : Type} (l : LoggerId) (level_name : LevelName)
    (lvl : level_enum) (args : List (ArgExpr σ)) (w : σ) (s : State)
    (h : should_log s l lvl = false) :
    QT_LOG_INTERNAL (some l) level_name lvl args w s =
      some { world := w, state := s, trace := [] } := by
  simp [QT_LOG_INTERNAL, h]

/-- C7: `QT_LOG_ALWAYS` makes no threshold check of its own and calls the
backend at level `off`; the emit predicate holds for `off` against every
threshold, so for every threshold of the default logger, `off` included, the
message reaches the sinks: the output grows by one record of level `off`. -/
theorem QT_LOG_ALWAYS_emitted_at_every_threshold {σ : Type} (args : List (ArgExpr σ)) (w : σ)
    (s : State) (l : LoggerId) (hd : s.default_logger = some l) :
    (∀ threshold : level_enum, threshold.toNat ≤ level_enum.off.toNat) ∧
    should_log s l level_enum.off = true ∧
    ∃ d, QT_LOG_ALWAYS args w s = some d ∧
      d.trace.getLast? = some (Event.backend_call l level_enum.off
        (forwarded_payload (eval_args args w).1)) ∧
      d.state.output = s.output ++
        [{ logger := l, level := level_enum.off,
           payload := forwarded_payload (eval_args args w).1 }] := by
  refine ⟨fun threshold => by cases threshold <;> decide, should_log_off s l, ?_⟩
  refine ⟨_, by simp only [QT_LOG_ALWAYS, hd]; rfl, ?_, ?_⟩
  · simp [utils.log_with_conversion, logger_func, forwarded_payload]
  · simp [utils.log_with_conversion, logger_func, forwarded_payload, logger_log,
      should_log_off]

/-- C7, on the test fixture with threshold `off`: the statement
`QT_LOG_ALWAYS("{}", testMessage)` puts one record of level `off` into the
output. -/
theorem QT_LOG_ALWAYS_emitted_at_every_threshold_witness :
    (testStateAt .off).default_logger = some 0 ∧
    (testStateAt .off).level 0 = level_enum.off ∧
    (QT_LOG_ALWAYS [countingArg (.cstr "{}"), countingArg (.qstring "Test always message")]
        0 (testStateAt .off)).map (fun d => d.state.output)
      = some [{ logger := 0, level := level_enum.off,
                payload := ["{}", "Test always message"] }] := by
  refine ⟨rfl, rfl, ?_⟩
  obtain ⟨_, _, d, hd, _, hout⟩ := QT_LOG_ALWAYS_emitted_at_every_threshold
    [countingArg (.cstr "{}"), countingArg (.qstring "Test always message")] 0
    (testStateAt .off) 0 rfl
  rw [hd, Option.map_some', hout]
  decide

/-- C8: a `QT_LOGGER_<LEVEL>` statement on logger `l`, and a `QT_LOG_<LEVEL>`
statement when `l` is the default logger, at one of the six levels `L`, calls
the backend (at level `L`, on `l`) if and only if `L` is at least the current
threshold of `l`, and the output grows by one record exactly in that case.
With threshold `off` nothing is forwarded and the state is unchanged; with
threshold `L` the record is emitted. -/
theorem QT_LOG_forwarded_iff_level_ge_threshold {σ : Type} (n : LevelName)
    (args : List (ArgExpr σ)) (w : σ) (s : State) (l : LoggerId) :
    ∃ d, QT_LOGGER n (some l) args w s = some d ∧
      (s.default_logger = some l → QT_LOG n args w s = some d) ∧
      ((∃ payload, Event.backend_call l n.method_level payload ∈ d.trace) ↔
        (s.level l).toNat ≤ n.method_level.toNat) ∧
      (∀ l' lvl payload, Event.backend_call l' lvl payload ∈ d.trace →
        l' = l ∧ lvl = n.method_level) ∧
      ((s.level l).toNat ≤ n.method_level.toNat →
        d.state.output = s.output ++
          [{ logger := l, level := n.method_level,
             payload := forwarded_payload (eval_args args w).1 }]) ∧
      (¬ (s.level l).toNat ≤ n.method_level.toNat → d.trace = [] ∧ d.state = s) ∧
      (s.level l = level_enum.off → d.trace = [] ∧ d.state = s) ∧
      (s.level l = n.method_level →
        d.state.output = s.output ++
          [{ logger := l, level := n.method_level,
             payload := forwarded_payload (eval_args args w).1 }]) := by
  by_cases h : (s.level l).toNat ≤ n.method_level.toNat
  · have hs : should_log s l n.check_level = true := by
      rw [LevelName_check_level_eq, should_log_iff]; exact h
    have hs' : should_log s l n.method_level = true := (should_log_iff s l _).mpr h
    have hout : (logger_log l n.method_level (forwarded_payload (eval_args args w).1) s).output
        = s.output ++ [{ logger := l, level := n.method_level,
                         payload := forwarded_payload (eval_args args w).1 }] := by
      simp [logger_log, hs']
    refine ⟨_, QT_LOG_INTERNAL_pass l n n.check_level args w s hs, ?_, ?_, ?_, ?_, ?_, ?_, ?_⟩
    · intro hd
      simp only [QT_LOG, hd]
      exact QT_LOG_INTERNAL_pass l n n.check_level args w s hs
    · simp [h]
    · intro l' lvl payload hm
      simp at hm
      exact ⟨hm.1, hm.2.1⟩
    · intro _
      exact hout
    · intro hn
      exact absurd h hn
    · intro hoff
      have := LevelName_method_level_lt_off n
      rw [hoff] at h
      omega
    · intro _
      exact hout
  · have hs : should_log s l n.check_level = false := by
      rw [LevelName_check_level_eq, should_log_eq_false_iff]; omega
    refine ⟨_, QT_LOG_INTERNAL_fail l n n.check_level args w s hs, ?_, ?_, ?_, ?_, ?_, ?_, ?_⟩
    · intro hd
      simp only [QT_LOG, hd]
      exact QT_LOG_INTERNAL_fail l n n.check_level args w s hs
    · simp [h]
    · intro l' lvl payload hm
      simp at hm
    · intro hn
      exact absurd hn h
    · intro _
      exact ⟨rfl, rfl⟩
    · intro _
      exact ⟨rfl, rfl⟩
    · intro heq
      rw [heq] at h
      exact absurd (Nat.le_refl _) h

/-- C8, on the test fixture: with threshold `err`, `QT_LOG_ERROR("{}", testMessage)`
is emitted; with threshold `off`, `QT_LOG_CRITICAL` leaves the output empty. -/
theorem QT_LOG_forwarded_iff_level_ge_threshold_witness :
    (QT_LOG .error [countingArg (.cstr "{}"), countingArg (.qstring "Test error message")]
        0 (testStateAt .err)).map (fun d => d.state.output)
      = some [{ logger := 0, level := level_enum.err,
                payload := ["{}", "Test error message"] }] ∧
    (QT_LOG .critical [countingArg (.cstr "CRITICAL")] 0 (testStateAt .off)).map
        (fun d => d.state.output) = some [] := by
  obtain ⟨d, _, hd, _, _, _, _, _, hout⟩ := QT_LOG_forwarded_iff_level_ge_threshold .error
    [countingArg (.cstr "{}"), countingArg (.qstring "Test error message")] 0
    (testStateAt .err) 0
  obtain ⟨d', _, hd', _, _, _, _, hoff, _⟩ := QT_LOG_forwarded_iff_level_ge_threshold .critical
    [countingArg (.cstr "CRITICAL")] 0 (testStateAt .off) 0
  refine ⟨?_, ?_⟩
  · rw [hd rfl, Option.map_some', hout rfl]
    decide
  · rw [hd' rfl, Option.map_some', (hoff rfl).2]
    decide

/-- C9: in every statement built on `QT_LOG_INTERNAL`, when the level of the
statement is below the threshold of the target logger, the statement ends with
the world of the caller untouched by any argument expression (for the
`QT_LOG_IF_*` wrappers: as the condition left it), with the logging state as it
was when the check was made, and with no step performed: no argument
evaluated, none converted, no backend call.  Conversely a statement that
performed any step passed the check first. -/
theorem args_evaluated_only_after_check {σ : Type} (x : Externals) (t : ThreadId)
    (n : LevelName) (args : List (ArgExpr σ)) (condition : σ → Bool × σ) (w : σ) (s : State) :
    (∀ l level_name lvl, lvl.toNat < (s.level l).toNat →
      QT_LOG_INTERNAL (some l) level_name lvl args w s
        = some { world := w, state := s, trace := [] }) ∧
    (∀ l level_name lvl d, QT_LOG_INTERNAL (some l) level_name lvl args w s = some d →
      (d.trace ≠ [] ∨ d.state.output ≠ s.output) → should_log s l lvl = true) ∧
    (∀ l, s.default_logger = some l → n.check_level.toNat < (s.level l).toNat →
      QT_LOG n args w s = some { world := w, state := s, trace := [] }) ∧
    (∀ l, n.check_level.toNat < (s.level l).toNat →
      QT_LOGGER n (some l) args w s = some { world := w, state := s, trace := [] }) ∧
    (∀ l s1, get_thread_local_logger x t s = some (l, s1) →
      n.check_level.toNat < (s1.level l).toNat →
      QT_LOG_TS x t n args w s = some { world := w, state := s1, trace := [] }) ∧
    (∀ l, s.default_logger = some l → n.check_level.toNat < (s.level l).toNat →
      QT_LOG_IF n condition args w s
        = some { world := (condition w).2, state := s, trace := [] }) := by
  refine ⟨?_, ?_, ?_, ?_, ?_, ?_⟩
  · intro l level_name lvl h
    exact QT_LOG_INTERNAL_fail l level_name lvl args w s
      ((should_log_eq_false_iff s l lvl).mpr h)
  · intro l level_name lvl d hd hne
    by_contra hc
    have hf : should_log s l lvl = false := by simpa using hc
    rw [QT_LOG_INTERNAL_fail l level_name lvl args w s hf] at hd
    simp only [Option.some.injEq] at hd
    subst hd
    simp at hne
  · intro l hd h
    simp only [QT_LOG, hd]
    exact QT_LOG_INTERNAL_fail l n _ args w s ((should_log_eq_false_iff s l _).mpr h)
  · intro l h
    exact QT_LOG_INTERNAL_fail l n _ args w s ((should_log_eq_false_iff s l _).mpr h)
  · intro l s1 hg h
    simp only [QT_LOG_TS, hg]
    exact QT_LOG_INTERNAL_fail l n _ args w s1 ((should_log_eq_false_iff s1 l _).mpr h)
  · intro l hd h
    have hq : QT_LOG n args (condition w).2 s
        = some { world := (condition w).2, state := s, trace := [] } := by
      simp only [QT_LOG, hd]
      exact QT_LOG_INTERNAL_fail l n _ args _ s ((should_log_eq_false_iff s l _).mpr h)
    unfold QT_LOG_IF
    by_cases hc : (condition w).1 = true
    · simp [hc, hq]
    · simp [hc]

/-- C9, on the test fixture: at threshold `info` the statement
`QT_LOG_DEBUG("{}", arg)` leaves the evaluation counter of the caller at 0
and performs no step, while at threshold `trace` the same statement evaluates
both argument expressions. -/
theorem args_evaluated_only_after_check_witness :
    (QT_LOG .debug [countingArg (.cstr "{}"), countingArg (.qstring "data")] 0
        (testStateAt .info)).map (fun d => (d.world, d.trace)) = some (0, []) ∧
    (QT_LOG .debug [countingArg (.cstr "{}"), countingArg (.qstring "data")] 0
        (testStateAt .trace)).map (fun d => d.world) = some 2 := by
  have h := (args_evaluated_only_after_check asciiExternals 0 .debug
    [countingArg (.cstr "{}"), countingArg (.qstring "data")] (fun w => (true, w)) 0
    (testStateAt .info)).2.2.1 0 rfl (by decide)
  refine ⟨?_, ?_⟩
  · rw [h]
    rfl
  · decide

/-! ## Alias lookup -/

/-- When the lowercase form of the token is a key of the alias table,
`string_to_level` returns the value stored under that key. -/
theorem string_to_level_of_contains (x : Externals) (t : String)
    (h : QMap.contains details.get_string_to_level_map (x.toLower t) = true) :
    string_to_level x t
      = QMap.value details.get_string_to_level_map (x.toLower t) level_enum.trace := by
  simp [string_to_level, h]

/-- C10: whatever the letter case of the token `t`, if its lowercase form is
one of the nine alias keys then `string_to_level(t)` is the level of that key:
trace, debug, info, warn (for `warn` and `warning`), err (for `error`),
critical, and off (for `off` and `always`). -/
theorem string_to_level_alias_keys (x : Externals) (t : String) :
    (x.toLower t = "trace" → string_to_level x t = level_enum.trace) ∧
    (x.toLower t = "debug" → string_to_level x t = level_enum.debug) ∧
    (x.toLower t = "info" → string_to_level x t = level_enum.info) ∧
    (x.toLower t = "warn" → string_to_level x t = level_enum.warn) ∧
    (x.toLower t = "warning" → string_to_level x t = level_enum.warn) ∧
    (x.toLower t = "error" → string_to_level x t = level_enum.err) ∧
    (x.toLower t = "critical" → string_to_level x t = level_enum.critical) ∧
    (x.toLower t = "off" → string_to_level x t = level_enum.off) ∧
    (x.toLower t = "always" → string_to_level x t = level_enum.off) := by
  refine ⟨?_, ?_, ?_, ?_, ?_, ?_, ?_, ?_, ?_⟩ <;>
    · intro h
      have hc : QMap.contains details.get_string_to_level_map (x.toLower t) = true := by
        rw [h]
        decide
      rw [string_to_level_of_contains x t hc, h]
      decide

/-- C10, for the tokens `WARNING`, `Error` and `aLwAyS` under ASCII
lower-casing. -/
theorem string_to_level_alias_keys_witness :
    asciiExternals.toLower "WARNING" = "warning" ∧
    string_to_level asciiExternals "WARNING" = level_enum.warn ∧
    string_to_level asciiExternals "Error" = level_enum.err ∧
    string_to_level asciiExternals "aLwAyS" = level_enum.off :=
  ⟨by decide,
    (string_to_level_alias_keys asciiExternals "WARNING").2.2.2.2.1 (by decide),
    (string_to_level_alias_keys asciiExternals "Error").2.2.2.2.2.1 (by decide),
    (string_to_level_alias_keys asciiExternals "aLwAyS").2.2.2.2.2.2.2.2 (by decide)⟩

/-! ## Unknown tokens -/

/-- C11: for a token whose lowercase form is not an alias key,
`string_to_level` returns whatever level the parser of the backend returns for
the token, and `info` only when that parser throws.  The parser of spdlog does
not throw and answers `off` for a name it does not know, so that is the result
for such a token. -/
theorem string_to_level_unknown_token (x : Externals) (t : String)
    (hkey : is_valid_level x t = false) :
    (∀ l, x.from_str t = some l → string_to_level x t = l) ∧
    (x.from_str t = none → string_to_level x t = level_enum.info) := by
  have hc : QMap.contains details.get_string_to_level_map (x.toLower t) = false := hkey
  refine ⟨?_, ?_⟩
  · intro l hl
    simp [string_to_level, hc, hl]
  · intro hn
    simp [string_to_level, hc, hn]

/-- C11, for the token `invalid_level_name` with the parser of spdlog: it is no
alias key, the parser does not throw and answers `off`, and `string_to_level`
returns `off`, not `info`. -/
theorem string_to_level_unknown_token_witness :
    is_valid_level asciiExternals "invalid_level_name" = false ∧
    asciiExternals.from_str "invalid_level_name" = some level_enum.off ∧
    string_to_level asciiExternals "invalid_level_name" = level_enum.off ∧
    string_to_level asciiExternals "invalid_level_name" ≠ level_enum.info :=
  have h := (string_to_level_unknown_token asciiExternals "invalid_level_name"
    (by decide)).1 level_enum.off (by decide)
  ⟨by decide, by decide, h, by rw [h]; decide⟩

/-! ## Canonical names -/

/-- Every entry of the alias table is found again by `contains` and `value`. -/
theorem alias_table_lookup (key : String) (L : level_enum)
    (h : (key, L) ∈ details.get_string_to_level_map) :
    QMap.contains details.get_string_to_level_map key = true ∧
    QMap.value details.get_string_to_level_map key level_enum.trace = L := by
  have hall : ∀ e ∈ details.get_string_to_level_map,
      QMap.contains details.get_string_to_level_map e.1 = true ∧
      QMap.value details.get_string_to_level_map e.1 level_enum.trace = e.2 := by
    decide
  exact hall (key, L) h

/-- A token whose lowercase form is the key of an entry of the alias table is
mapped to the level of that entry. -/
theorem string_to_level_of_entry (x : Externals) (T key : String) (L : level_enum)
    (h : (key, L) ∈ details.get_string_to_level_map) (hT : x.toLower T = key) :
    string_to_level x T = L := by
  have hk := alias_table_lookup key L h
  rw [string_to_level_of_contains x T (by rw [hT]; exact hk.1), hT]
  exact hk.2

/-- The canonical name of every level is mapped back to the level, when
lower-casing leaves the alias keys alone. -/
theorem string_to_level_level_to_string (x : Externals) (hx : x.lowerFixesKeys)
    (L : level_enum) : string_to_level x (level_to_string L) = L := by
  cases L
  · exact string_to_level_of_entry x _ "trace" _ (by decide) (hx ("trace", .trace) (by decide))
  · exact string_to_level_of_entry x _ "debug" _ (by decide) (hx ("debug", .debug) (by decide))
  · exact string_to_level_of_entry x _ "info" _ (by decide) (hx ("info", .info) (by decide))
  · exact string_to_level_of_entry x _ "warn" _ (by decide) (hx ("warn", .warn) (by decide))
  · exact string_to_level_of_entry x _ "error" _ (by decide) (hx ("error", .err) (by decide))
  · exact string_to_level_of_entry x _ "critical" _ (by decide)
      (hx ("critical", .critical) (by decide))
  · exact string_to_level_of_entry x _ "off" _ (by decide) (hx ("off", .off) (by decide))

/-- C12: the canonical names of the seven levels are `trace`, `debug`, `info`,
`warn`, `error`, `critical` and `off`.  With a lower-casing function that leaves
the alias keys alone, for every token `T`, in any letter case, whose lowercase
form is an alias key of level `L`: `level_to_string(string_to_level(T))` is the
canonical name of `L`, `string_to_level` maps that name back to `L`, and
`get_level_display_name` applied twice gives the same as applied once. -/
theorem display_name_round_trip (x : Externals) (hx : x.lowerFixesKeys) :
    (level_to_string .trace = "trace" ∧ level_to_string .debug = "debug" ∧
      level_to_string .info = "info" ∧ level_to_string .warn = "warn" ∧
      level_to_string .err = "error" ∧ level_to_string .critical = "critical" ∧
      level_to_string .off = "off") ∧
    (∀ (T key : String) (L : level_enum), (key, L) ∈ details.get_string_to_level_map →
      x.toLower T = key →
      level_to_string (string_to_level x T) = level_to_string L ∧
      string_to_level x (level_to_string (string_to_level x T)) = L ∧
      get_level_display_name x (get_level_display_name x T) = get_level_display_name x T) := by
  refine ⟨by decide, ?_⟩
  intro T key L h hT
  have hL := string_to_level_of_entry x T key L h hT
  refine ⟨by rw [hL], ?_, ?_⟩
  · rw [hL]
    exact string_to_level_level_to_string x hx L
  · simp only [get_level_display_name]
    rw [string_to_level_level_to_string x hx]

/-- ASCII lower-casing leaves the alias keys alone. -/
theorem asciiExternals_lowerFixesKeys : asciiExternals.lowerFixesKeys := by
  unfold Externals.lowerFixesKeys
  decide

/-- C12, for the tokens `WARNING` and `Always` under ASCII lower-casing: the
display names are `warn` and `off`, and they are their own display names. -/
theorem display_name_round_trip_witness :
    get_level_display_name asciiExternals "WARNING" = "warn" ∧
    get_level_display_name asciiExternals "Always" = "off" ∧
    string_to_level asciiExternals "off" = level_enum.off ∧
    get_level_display_name asciiExternals (get_level_display_name asciiExternals "WARNING")
      = get_level_display_name asciiExternals "WARNING" := by
  have h := (display_name_round_trip asciiExternals asciiExternals_lowerFixesKeys).2
  have hw := h "WARNING" "warning" .warn (by decide) (by decide)
  have ha := h "Always" "always" .off (by decide) (by decide)
  refine ⟨?_, ?_, ?_, hw.2.2⟩
  · exact hw.1.trans (by decide)
  · exact ha.1.trans (by decide)
  · have := ha.2.1
    rw [ha.1] at this
    exact this

/-! ## Validity of level names and aliases -/

/-- C13: `is_valid_level(t)` is true exactly when the lowercase form of `t` is
one of the nine keys of the alias table.  It depends on the token and the
lower-casing only, never on the parser of the backend; a token can therefore be
invalid while `string_to_level` returns for it the level the parser gives, as
for `err`, which is invalid and is mapped to the level `err`, not `info`. -/
theorem is_valid_level_iff_alias_key (x : Externals) (t : String) :
    (is_valid_level x t = true ↔
      x.toLower t ∈ ["trace", "debug", "info", "warn", "warning", "error", "critical",
        "off", "always"]) ∧
    (∀ x' : Externals, x'.toLower = x.toLower → is_valid_level x' t = is_valid_level x t) ∧
    (∀ l, is_valid_level x t = false → x.from_str t = some l → string_to_level x t = l) ∧
    (is_valid_level asciiExternals "err" = false ∧
      string_to_level asciiExternals "err" = level_enum.err) := by
  refine ⟨?_, ?_, ?_, by decide⟩
  · simp only [is_valid_level, QMap.contains, details.get_string_to_level_map, List.any_cons,
      List.any_nil, Bool.or_false, Bool.or_eq_true, decide_eq_true_eq, List.mem_cons,
      List.mem_singleton, List.not_mem_nil, or_false]
    constructor <;>
      · intro h
        rcases h with h | h | h | h | h | h | h | h | h <;> simp [h]
  · intro x' hx'
    simp [is_valid_level, hx']
  · intro l hv hl
    have hc : QMap.contains details.get_string_to_level_map (x.toLower t) = false := hv
    simp [string_to_level, hc, hl]

/-- C13, for the tokens `Warning` and `verbose` under ASCII lower-casing: the
first is valid, the second is not. -/
theorem is_valid_level_iff_alias_key_witness :
    is_valid_level asciiExternals "Warning" = true ∧
    is_valid_level asciiExternals "verbose" = false := by
  have h := (is_valid_level_iff_alias_key asciiExternals "Warning").1
  have h' := (is_valid_level_iff_alias_key asciiExternals "verbose").1
  refine ⟨h.mpr (by decide), ?_⟩
  cases hv : is_valid_level asciiExternals "verbose" with
  | false => rfl
  | true => exact absurd (h'.mp hv) (by decide)

/-- The loop of `get_level_aliases` collects the keys of the visited entries
that satisfy its condition, in the order of the visit. -/
theorem foldl_append_if {α β : Type} (p : α → Prop) [DecidablePred p] (f : α → β)
    (l : List α) (init : List β) :
    l.foldl (fun acc e => if p e then acc ++ [f e] else acc) init
      = init ++ (l.filter (fun e => decide (p e))).map f := by
  induction l generalizing init with
  | nil => simp
  | cons a as ih =>
      by_cases ha : p a
      · simp [List.foldl_cons, ha, ih, List.filter_cons]
      · simp [List.foldl_cons, ha, ih, List.filter_cons]

/-- The list `get_level_aliases` returns, as a filter of the table in key
order. -/
theorem get_level_aliases_eq_filter (x : Externals) (c : String) :
    get_level_aliases x c
      = ((QMap.entriesByKey details.get_string_to_level_map).filter
          (fun e => decide (e.2 = string_to_level x c ∧ e.1 ≠ c))).map Prod.fst := by
  unfold get_level_aliases
  rw [foldl_append_if (fun e : String × level_enum => e.2 = string_to_level x c ∧ e.1 ≠ c)
    Prod.fst]
  simp

/-- C14: for every token `c`, a string is in `get_level_aliases(c)` exactly when
it is a key of the alias table whose level is `string_to_level(c)` and it
differs from `c`; no string occurs twice.  Under ASCII lower-casing the
aliases of `warn` are `[warning]`, of `warning` `[warn]`, of `off` `[always]`
and of `info` none. -/
theorem get_level_aliases_exact (x : Externals) (c : String) :
    (∀ k, k ∈ get_level_aliases x c ↔
      ((k, string_to_level x c) ∈ details.get_string_to_level_map ∧ k ≠ c)) ∧
    (get_level_aliases x c).Nodup ∧
    (get_level_aliases asciiExternals "warn" = ["warning"] ∧
      get_level_aliases asciiExternals "warning" = ["warn"] ∧
      get_level_aliases asciiExternals "off" = ["always"] ∧
      get_level_aliases asciiExternals "info" = []) := by
  have hperm : (QMap.entriesByKey details.get_string_to_level_map).Perm
      details.get_string_to_level_map := List.perm_insertionSort _ _
  refine ⟨?_, ?_, by decide⟩
  · intro k
    rw [get_level_aliases_eq_filter]
    simp only [List.mem_map, List.mem_filter, decide_eq_true_eq, hperm.mem_iff]
    constructor
    · rintro ⟨⟨k', l⟩, ⟨hmem, hl, hne⟩, rfl⟩
      simp only at hl hne
      subst hl
      exact ⟨hmem, hne⟩
    · rintro ⟨hmem, hne⟩
      exact ⟨(k, string_to_level x c), ⟨hmem, rfl, hne⟩, rfl⟩
  · rw [get_level_aliases_eq_filter]
    have hkeys : ((QMap.entriesByKey details.get_string_to_level_map).map Prod.fst).Nodup := by
      decide
    exact hkeys.sublist ((List.filter_sublist _).map Prod.fst)

/-! ## Host severities -/

/-- C15: every host severity has an entry in the table of `qt_to_spdlog_level`,
so the default is never used for them, and the five results are debug, info,
warn, err and critical.  In the reverse direction every level from `trace` to
`off` has an entry, `get_qt_level` is the lookup of the threshold of the
default logger, and the lookup gives `QtInfoMsg` for every threshold value
without an entry, such as `n_levels = 7`. -/
theorem qt_level_tables_total :
    (∀ q : QtMsgType, QMap.contains details.get_qt_to_spdlog_map q = true) ∧
    (qt_to_spdlog_level .QtDebugMsg = level_enum.debug ∧
      qt_to_spdlog_level .QtInfoMsg = level_enum.info ∧
      qt_to_spdlog_level .QtWarningMsg = level_enum.warn ∧
      qt_to_spdlog_level .QtCriticalMsg = level_enum.err ∧
      qt_to_spdlog_level .QtFatalMsg = level_enum.critical) ∧
    (∀ L : level_enum, QMap.contains details.get_spdlog_to_qt_map L = true) ∧
    (∀ raw : Nat, (∀ e ∈ details.get_spdlog_to_qt_map, e.1.toNat ≠ raw) →
      get_qt_level_lookup raw = QtMsgType.QtInfoMsg) ∧
    (∀ (s : State) (d : LoggerId), s.default_logger = some d →
      get_qt_level s = some (get_qt_level_lookup (s.level d).toNat)) ∧
    get_qt_level_lookup 7 = QtMsgType.QtInfoMsg := by
  refine ⟨fun q => by cases q <;> decide, by decide, fun L => by cases L <;> decide, ?_, ?_,
    by decide⟩
  · intro raw h
    unfold get_qt_level_lookup
    have hnone : details.get_spdlog_to_qt_map.find? (fun e => decide (e.1.toNat = raw))
        = none := by
      rw [List.find?_eq_none]
      intro e he
      simpa using h e he
    rw [hnone]
  · intro s d hd
    simp [get_qt_level, hd]

/-- C15, on the test fixture at threshold `warn` and for the value 7: the host
severity of the threshold is `QtWarningMsg`, and the value 7, which has no
entry, gives `QtInfoMsg`. -/
theorem qt_level_tables_total_witness :
    get_qt_level (testStateAt .warn) = some QtMsgType.QtWarningMsg ∧
    get_qt_level_lookup 7 = QtMsgType.QtInfoMsg := by
  have h := qt_level_tables_total
  refine ⟨?_, h.2.2.2.1 7 (by decide)⟩
  rw [h.2.2.2.2.1 (testStateAt .warn) 0 rfl]
  decide

/-- C16: for levels `L1` and `L2` among debug, info, warn and err with
`L1 <= L2`, mapping each to its host severity by the reverse table and back
by `qt_to_spdlog_level` gives levels in the same order; on these four levels
the round trip even returns the level itself. -/
theorem host_round_trip_order_preserving (L1 L2 : level_enum)
    (h1 : L1 ∈ [level_enum.debug, level_enum.info, level_enum.warn, level_enum.err])
    (h2 : L2 ∈ [level_enum.debug, level_enum.info, level_enum.warn, level_enum.err])
    (hle : L1.toNat ≤ L2.toNat) :
    (qt_to_spdlog_level (get_qt_level_lookup L1.toNat)).toNat
      ≤ (qt_to_spdlog_level (get_qt_level_lookup L2.toNat)).toNat ∧
    qt_to_spdlog_level (get_qt_level_lookup L1.toNat) = L1 ∧
    qt_to_spdlog_level (get_qt_level_lookup L2.toNat) = L2 := by
  cases L1 <;> cases L2 <;> revert h1 h2 hle <;> decide

/-- C16, for `info <= err`: the round trip gives `info` and `err`. -/
theorem host_round_trip_order_preserving_witness :
    (level_enum.info.toNat ≤ level_enum.err.toNat) ∧
    (qt_to_spdlog_level (get_qt_level_lookup level_enum.info.toNat)).toNat
      ≤ (qt_to_spdlog_level (get_qt_level_lookup level_enum.err.toNat)).toNat :=
  ⟨by decide,
    (host_round_trip_order_preserving .info .err (by decide) (by decide) (by decide)).1⟩

/-- C14, for the token `WARN` under ASCII lower-casing: `warning` is among its
aliases, and so is `warn`, which differs from the token by its letter case. -/
theorem get_level_aliases_exact_witness :
    "warning" ∈ get_level_aliases asciiExternals "WARN" ∧
    "warn" ∈ get_level_aliases asciiExternals "WARN" ∧
    "WARN" ∉ get_level_aliases asciiExternals "WARN" := by
  have h := (get_level_aliases_exact asciiExternals "WARN").1
  refine ⟨(h "warning").mpr ⟨by decide, by decide⟩, (h "warn").mpr ⟨by decide, by decide⟩, ?_⟩
  intro hmem
  exact ((h "WARN").mp hmem).2 rfl

/-! ## Rendering of byte arrays -/

theorem String_join_cons (a : String) (l : List String) :
    String.join (a :: l) = a ++ String.join l := by
  apply String.ext
  simp [String.data_join, String.data_append]

theorem String_join_nil : String.join [] = "" := rfl

/-- A loop that appends one piece per element builds the initial text followed
by the concatenation of the pieces. -/
theorem foldl_append_eq_join {α : Type} (f : α → String) (l : List α) (init : String) :
    l.foldl (fun result a => result ++ f a) init = init ++ String.join (l.map f) := by
  induction l generalizing init with
  | nil => simp [String_join_nil, String.append_empty]
  | cons a as ih =>
      simp only [List.foldl_cons, List.map_cons, String_join_cons, ih, String.append_assoc]

/-- The printable test of `formatQByteArray` on the `char` value of a byte, for
signed and for unsigned `char`, is the test on its unsigned value. -/
theorem charValue_printable_iff (char_signed : Bool) (b : Byte) :
    (charValue char_signed b ≥ 32 ∧ charValue char_signed b ≤ 126 ∧
        charValue char_signed b ≠ 39 ∧ charValue char_signed b ≠ 92) ↔
      (32 ≤ b.val ∧ b.val ≤ 126 ∧ b.val ≠ 39 ∧ b.val ≠ 92) := by
  have hb := b.isLt
  unfold charValue
  cases char_signed
  · simp only [Bool.false_and, Bool.false_eq_true, if_false]
    omega
  · by_cases h : 128 ≤ b.val
    · simp only [Bool.true_and, h, decide_True, if_true]
      omega
    · simp only [Bool.true_and, h, decide_False, Bool.false_eq_true, if_false]
      omega

set_option maxRecDepth 1000000 in
/-- The hexadecimal number of a byte, right-justified to width 2 with zeros, is
the digit of its high half-byte followed by the digit of its low half-byte. -/
theorem rightJustified_number_base_16 :
    ∀ b : Byte, QString.rightJustified (QString.number_base b.val 16) 2 '0'
      = String.mk [lowerHexDigit (b.val / 16), lowerHexDigit (b.val % 16)] := by
  decide

/-- One step of the loop of `formatQByteArray` appends the rendering of the
byte that the specification describes. -/
theorem formatQByteArray_step (char_signed : Bool) (result : String) (b : Byte) :
    (if charValue char_signed b ≥ 32 ∧ charValue char_signed b ≤ 126 ∧
          charValue char_signed b ≠ 39 ∧ charValue char_signed b ≠ 92 then
        result ++ String.singleton (Char.ofNat b.val)
      else
        result ++ ("\\x" ++ QString.rightJustified (QString.number_base b.val 16) 2 '0'))
      = result ++ escapedByte b := by
  unfold escapedByte
  by_cases h : 32 ≤ b.val ∧ b.val ≤ 126 ∧ b.val ≠ 39 ∧ b.val ≠ 92
  · rw [if_pos ((charValue_printable_iff char_signed b).mpr h), if_pos h]
  · rw [if_neg (fun hc => h ((charValue_printable_iff char_signed b).mp hc)), if_neg h,
      rightJustified_number_base_16 b]

/-- The text mode of `formatQByteArray` as a concatenation. -/
theorem formatQByteArray_text_eq (char_signed : Bool) (data : QByteArray) :
    formatQByteArray char_signed data false
      = "b'" ++ String.join (data.map escapedByte) ++ "'" := by
  cases data with
  | nil => cases char_signed <;> decide
  | cons b bs =>
      have hstep : (fun (result : String) (b : Byte) =>
          if charValue char_signed b ≥ 32 ∧ charValue char_signed b ≤ 126 ∧
              charValue char_signed b ≠ 39 ∧ charValue char_signed b ≠ 92 then
            result ++ String.singleton (Char.ofNat b.val)
          else
            result ++ ("\\x" ++ QString.rightJustified (QString.number_base b.val 16) 2 '0'))
          = fun result b => result ++ escapedByte b := by
        funext result b
        exact formatQByteArray_step char_signed result b
      simp only [formatQByteArray, List.isEmpty_cons, Bool.false_eq_true, if_false]
      rw [hstep, foldl_append_eq_join]

/-- Every value below 16 has a digit among `0123456789abcdef`. -/
theorem lowerHexDigit_mem (d : Nat) (h : d < 16) : lowerHexDigit d ∈ hexDigitChars := by
  have : ∀ d : Fin 16, lowerHexDigit d.val ∈ hexDigitChars := by decide
  exact this ⟨d, h⟩

/-- C17: for every byte array, on platforms with signed and with unsigned
`char`, `formatQByteArray(b, false)` is `b'`, then the renderings of the bytes
in order, then `'`.  A byte that is printable ASCII (32..126) other than the
quote (39) and the backslash (92) is rendered as itself, every other byte as
a backslash, `x` and the two lowercase hexadecimal digits of its unsigned
value.  The empty array gives `b''` and the bytes 48 65 6c 6c 6f give
`b'Hello'`. -/
theorem formatQByteArray_text_mode (char_signed : Bool) (data : QByteArray) :
    formatQByteArray char_signed data false
      = "b'" ++ String.join (data.map escapedByte) ++ "'" ∧
    (∀ b : Byte, (32 ≤ b.val ∧ b.val ≤ 126 ∧ b.val ≠ 39 ∧ b.val ≠ 92) →
      escapedByte b = String.singleton (Char.ofNat b.val)) ∧
    (∀ b : Byte, ¬ (32 ≤ b.val ∧ b.val ≤ 126 ∧ b.val ≠ 39 ∧ b.val ≠ 92) →
      escapedByte b = "\\x" ++ String.mk [lowerHexDigit (b.val / 16), lowerHexDigit (b.val % 16)] ∧
      (escapedByte b).length = 4 ∧
      lowerHexDigit (b.val / 16) ∈ hexDigitChars ∧ lowerHexDigit (b.val % 16) ∈ hexDigitChars) ∧
    formatQByteArray char_signed [] false = "b''" ∧
    formatQByteArray char_signed [0x48, 0x65, 0x6c, 0x6c, 0x6f] false = "b'Hello'" := by
  refine ⟨formatQByteArray_text_eq char_signed data, ?_, ?_, ?_, ?_⟩
  · intro b h
    simp only [escapedByte, if_pos h]
  · intro b h
    have hb := b.isLt
    refine ⟨by simp only [escapedByte, if_neg h], ?_, lowerHexDigit_mem _ (by omega),
      lowerHexDigit_mem _ (by omega)⟩
    simp only [escapedByte, if_neg h, String.length_append, String.length_mk]
    rfl
  · cases char_signed <;> decide
  · cases char_signed <;> decide

/-- C17, for the bytes 27 5c ff 0a 41 (quote, backslash, 255, line feed, `A`)
with signed `char`: the first four are escaped and `A` is passed through. -/
theorem formatQByteArray_text_mode_witness :
    formatQByteArray true [0x27, 0x5c, 0xff, 0x0a, 0x41] false = "b'\\x27\\x5c\\xff\\x0aA'" :=
  (formatQByteArray_text_mode true [0x27, 0x5c, 0xff, 0x0a, 0x41]).1.trans (by decide)

theorem QByteArray_toHex_eq_join (data : QByteArray) :
    QByteArray.toHex data
      = String.join (data.map
          (fun b => String.mk [lowerHexDigit (b.val / 16), lowerHexDigit (b.val % 16)])) := by
  apply String.ext
  simp [QByteArray.toHex, String.data_join, List.map_map, Function.comp_def]

theorem QByteArray_toHex_length (data : QByteArray) :
    (QByteArray.toHex data).length = 2 * data.length := by
  induction data with
  | nil => rfl
  | cons b bs ih =>
      simp only [QByteArray.toHex, String.length_mk, List.map_cons, List.flatten_cons,
        List.length_append, List.length_cons, List.length_nil] at ih ⊢
      omega

/-- C18: for every byte array, `formatQByteArray(b, true)` is `x'`, then two
lowercase hexadecimal digits per byte (high half-byte first) in the order of
the bytes, then `'`; its length is `2*|b| + 3`.  The empty array gives `x''`
and the bytes 48 65 6c 6c 6f give `x'48656c6c6f'`. -/
theorem formatQByteArray_hex_mode (char_signed : Bool) (data : QByteArray) :
    formatQByteArray char_signed data true
      = "x'" ++ String.join (data.map
          (fun b => String.mk [lowerHexDigit (b.val / 16), lowerHexDigit (b.val % 16)])) ++ "'" ∧
    (∀ b ∈ data, lowerHexDigit (b.val / 16) ∈ hexDigitChars ∧
      lowerHexDigit (b.val % 16) ∈ hexDigitChars) ∧
    (formatQByteArray char_signed data true).length = 2 * data.length + 3 ∧
    formatQByteArray char_signed [] true = "x''" ∧
    formatQByteArray char_signed [0x48, 0x65, 0x6c, 0x6c, 0x6f] true = "x'48656c6c6f'" := by
  have heq : formatQByteArray char_signed data true = "x'" ++ QByteArray.toHex data ++ "'" := by
    cases data with
    | nil => cases char_signed <;> decide
    | cons b bs => simp [formatQByteArray]
  refine ⟨by rw [heq, QByteArray_toHex_eq_join], ?_, ?_, ?_, ?_⟩
  · intro b _
    have hb := b.isLt
    exact ⟨lowerHexDigit_mem _ (by omega), lowerHexDigit_mem _ (by omega)⟩
  · rw [heq, String.length_append, String.length_append, QByteArray_toHex_length]
    have h1 : "x'".length = 2 := rfl
    have h2 : "'".length = 1 := rfl
    omega
  · cases char_signed <;> decide
  · cases char_signed <;> decide

/-- C18, for the eleven bytes of `Hello World`, the case of the unit test. -/
theorem formatQByteArray_hex_mode_witness :
    formatQByteArray true
        [0x48, 0x65, 0x6c, 0x6c, 0x6f, 0x20, 0x57, 0x6f, 0x72, 0x6c, 0x64] true
      = "x'48656c6c6f20576f726c64'" ∧
    (formatQByteArray true
        [0x48, 0x65, 0x6c, 0x6c, 0x6f, 0x20, 0x57, 0x6f, 0x72, 0x6c, 0x64] true).length = 25 :=
  ⟨(formatQByteArray_hex_mode true
      [0x48, 0x65, 0x6c, 0x6c, 0x6f, 0x20, 0x57, 0x6f, 0x72, 0x6c, 0x64]).1.trans (by decide),
    (formatQByteArray_hex_mode true
      [0x48, 0x65, 0x6c, 0x6c, 0x6f, 0x20, 0x57, 0x6f, 0x72, 0x6c, 0x64]).2.2.1⟩

/-! ## Rendering of variants -/

/-- C19: `formatQVariant` renders a string variant as the string itself, an Int
variant as its decimal rendering, a Bool variant as `true` or `false`, a
byte-array variant as the UTF-8 decoding of its bytes, the default-constructed
(invalid) variant as `null`, and a variant of any type without a case of its
own as `null` when it is null and as its own `toString()` otherwise. -/
theorem formatQVariant_dispatch (fromUtf8 : QByteArray → String) :
    (∀ s : String, formatQVariant fromUtf8 (.string s) = s) ∧
    (∀ i : Int, formatQVariant fromUtf8 (.int i) = toString i) ∧
    (formatQVariant fromUtf8 (.int 42) = "42" ∧ formatQVariant fromUtf8 (.int (-100)) = "-100") ∧
    (formatQVariant fromUtf8 (.bool true) = "true" ∧
      formatQVariant fromUtf8 (.bool false) = "false") ∧
    (∀ b : QByteArray, formatQVariant fromUtf8 (.byteArray b) = fromUtf8 b) ∧
    formatQVariant fromUtf8 .invalid = "null" ∧
    (∀ text : String, formatQVariant fromUtf8 (.other false text) = text) ∧
    (∀ text : String, formatQVariant fromUtf8 (.other true text) = "null") := by
  refine ⟨?_, ?_, ⟨?_, ?_⟩, ⟨?_, ?_⟩, ?_, ?_, ?_, ?_⟩
  · intro s
    simp [formatQVariant]
  · intro i
    simp [formatQVariant, QString.number]
  · simp only [formatQVariant, QString.number]
    decide
  · simp only [formatQVariant, QString.number]
    decide
  · simp [formatQVariant]
  · simp [formatQVariant]
  · intro b
    simp [formatQVariant]
  · simp [formatQVariant]
  · intro text
    simp [formatQVariant]
  · intro text
    simp [formatQVariant]

/-- C19, for the values of the unit test: the string `Hello`, the number 42,
`true`, the default-constructed variant, and the bytes of `Hello`. -/
theorem formatQVariant_dispatch_witness :
    formatQVariant asciiFromUtf8 (.string "Hello") = "Hello" ∧
    formatQVariant asciiFromUtf8 (.int 42) = "42" ∧
    formatQVariant asciiFromUtf8 (.bool true) = "true" ∧
    formatQVariant asciiFromUtf8 .invalid = "null" ∧
    formatQVariant asciiFromUtf8 (.byteArray [0x48, 0x65, 0x6c, 0x6c, 0x6f]) = "Hello" :=
  have h := formatQVariant_dispatch asciiFromUtf8
  ⟨h.1 "Hello", h.2.2.1.1, h.2.2.2.1.1, h.2.2.2.2.2.1,
    (h.2.2.2.2.1 [0x48, 0x65, 0x6c, 0x6c, 0x6f]).trans (by decide)⟩

theorem String_intercalate_go (acc sep : String) (l : List String) :
    String.intercalate.go acc sep l = acc ++ String.join (l.map (fun a => sep ++ a)) := by
  induction l generalizing acc with
  | nil => simp [String.intercalate.go, String_join_nil, String.append_empty]
  | cons a as ih =>
      simp only [String.intercalate.go, ih, List.map_cons, String_join_cons,
        String.append_assoc]

theorem String_intercalate_cons (sep a : String) (l : List String) :
    String.intercalate sep (a :: l) = a ++ String.join (l.map (fun b => sep ++ b)) := by
  simp only [String.intercalate, String_intercalate_go]

/-- Every element of a list is a substring of the concatenation of the
elements, each preceded by a separator. -/
theorem containsSubstring_join_sep (sep a : String) (l : List String) (h : a ∈ l) :
    containsSubstring (String.join (l.map (fun b => sep ++ b))) a := by
  induction l with
  | nil => cases h
  | cons b bs ih =>
      rw [List.map_cons, String_join_cons]
      rcases List.mem_cons.mp h with rfl | hmem
      · exact ⟨sep, String.join (bs.map (fun b => sep ++ b)), by
          simp only [String.append_assoc]⟩
      · obtain ⟨pre, post, hpp⟩ := ih hmem
        exact ⟨sep ++ b ++ pre, post, by rw [hpp]; simp only [String.append_assoc]⟩

/-- Every element of a list is a substring of the list joined by a separator. -/
theorem containsSubstring_intercalate (sep a : String) (l : List String) (h : a ∈ l) :
    containsSubstring (String.intercalate sep l) a := by
  cases l with
  | nil => cases h
  | cons b bs =>
      rw [String_intercalate_cons]
      rcases List.mem_cons.mp h with rfl | hmem
      · exact ⟨"", String.join (bs.map (fun b => sep ++ b)), by
          simp only [String.empty_append]⟩
      · obtain ⟨pre, post, hpp⟩ := containsSubstring_join_sep sep a bs hmem
        exact ⟨b ++ pre, post, by rw [hpp]; simp only [String.append_assoc]⟩

/-- The loop of `formatQVariantList` past the first element appends every
remaining element preceded by the separator. -/
theorem formatQVariantList_loop_eq (fromUtf8 : QByteArray → String) (l : List QVariant)
    (i : Nat) (hi : 0 < i) (result : String) :
    formatQVariantList_loop fromUtf8 l i result
      = result ++ String.join (l.map (fun v => ", " ++ formatQVariant fromUtf8 v)) := by
  induction l generalizing i result with
  | nil => simp [formatQVariantList_loop, String_join_nil, String.append_empty]
  | cons v vs ih =>
      rw [formatQVariantList_loop, ih (i + 1) (Nat.succ_pos i), if_pos hi, List.map_cons,
        String_join_cons]
      simp only [String.append_assoc]

/-- The loop of `formatQVariantMap` past the first entry appends every remaining
entry preceded by the separator. -/
theorem formatQVariantMap_loop_eq (fromUtf8 : QByteArray → String)
    (m : List (String × QVariant)) (i : Nat) (hi : 0 < i) (result : String) :
    formatQVariantMap_loop fromUtf8 m i result
      = result ++ String.join
          (m.map (fun e => ", " ++ (e.1 ++ ": " ++ formatQVariant fromUtf8 e.2))) := by
  induction m generalizing i result with
  | nil => simp [formatQVariantMap_loop, String_join_nil, String.append_empty]
  | cons e es ih =>
      obtain ⟨key, value⟩ := e
      rw [formatQVariantMap_loop, ih (i + 1) (Nat.succ_pos i), if_pos hi, List.map_cons,
        String_join_cons]
      simp only [String.append_assoc]

/-- The result of `formatQVariantList` as a joined list. -/
theorem formatQVariantList_eq (fromUtf8 : QByteArray → String) (l : List QVariant) :
    formatQVariantList fromUtf8 l
      = "[" ++ String.intercalate ", " (l.map (formatQVariant fromUtf8)) ++ "]" := by
  cases l with
  | nil =>
      rw [formatQVariantList]
      rfl
  | cons v vs =>
      rw [formatQVariantList, formatQVariantList_loop,
        formatQVariantList_loop_eq fromUtf8 vs 1 Nat.one_pos, List.map_cons,
        String_intercalate_cons]
      simp only [List.isEmpty_cons, Bool.false_eq_true, if_false, Nat.lt_irrefl, gt_iff_lt,
        List.map_map, Function.comp_def, String.append_assoc]

/-- The result of `formatQVariantMap` as a joined list. -/
theorem formatQVariantMap_eq (fromUtf8 : QByteArray → String) (m : List (String × QVariant)) :
    formatQVariantMap fromUtf8 m
      = "\x7b" ++ String.intercalate ", "
          (m.map (fun e => e.1 ++ ": " ++ formatQVariant fromUtf8 e.2)) ++ "\x7d" := by
  cases m with
  | nil =>
      rw [formatQVariantMap]
      rfl
  | cons e es =>
      obtain ⟨key, value⟩ := e
      rw [formatQVariantMap, formatQVariantMap_loop,
        formatQVariantMap_loop_eq fromUtf8 es 1 Nat.one_pos, List.map_cons,
        String_intercalate_cons]
      simp only [List.isEmpty_cons, Bool.false_eq_true, if_false, Nat.lt_irrefl, gt_iff_lt,
        List.map_map, Function.comp_def, String.append_assoc]

/-- C20: `formatQVariantList(l)` is `[`, the `formatQVariant` renderings of the
elements joined by comma and space, and `]`, which is `[]` for the empty
list; `formatQVariantMap(m)` is an opening brace, the entries `key: rendering
of the value` joined by comma and space, and a closing brace, which is the
pair of braces for the empty map, so the text `k: formatQVariant(v)` of
every entry is a substring of it; and a list, a map or a string list held in
a variant is rendered by `formatQVariantList`, `formatQVariantMap` and the
same bracket rule. -/
theorem formatQVariant_containers (fromUtf8 : QByteArray → String) :
    (∀ l : List QVariant, formatQVariantList fromUtf8 l
      = "[" ++ String.intercalate ", " (l.map (formatQVariant fromUtf8)) ++ "]") ∧
    formatQVariantList fromUtf8 [] = "[]" ∧
    (∀ m : List (String × QVariant), formatQVariantMap fromUtf8 m
      = "\x7b" ++ String.intercalate ", "
          (m.map (fun e => e.1 ++ ": " ++ formatQVariant fromUtf8 e.2)) ++ "\x7d") ∧
    formatQVariantMap fromUtf8 [] = "\x7b\x7d" ∧
    (∀ (m : List (String × QVariant)) (k : String) (v : QVariant), (k, v) ∈ m →
      containsSubstring (formatQVariantMap fromUtf8 m)
        (k ++ ": " ++ formatQVariant fromUtf8 v)) ∧
    (∀ l : List QVariant,
      formatQVariant fromUtf8 (.list l) = formatQVariantList fromUtf8 l) ∧
    (∀ m : List (String × QVariant),
      formatQVariant fromUtf8 (.map m) = formatQVariantMap fromUtf8 m) ∧
    (∀ l : List String,
      formatQVariant fromUtf8 (.stringList l) = "[" ++ String.intercalate ", " l ++ "]") := by
  refine ⟨formatQVariantList_eq fromUtf8, ?_, formatQVariantMap_eq fromUtf8, ?_, ?_, ?_, ?_, ?_⟩
  · rw [formatQVariantList]
    rfl
  · rw [formatQVariantMap]
    rfl
  · intro m k v h
    have hmem : (k ++ ": " ++ formatQVariant fromUtf8 v)
        ∈ m.map (fun e => e.1 ++ ": " ++ formatQVariant fromUtf8 e.2) :=
      List.mem_map.mpr ⟨(k, v), h, rfl⟩
    obtain ⟨pre, post, hpp⟩ := containsSubstring_intercalate ", " _ _ hmem
    refine ⟨"\x7b" ++ pre, post ++ "\x7d", ?_⟩
    rw [formatQVariantMap_eq, hpp]
    simp only [String.append_assoc]
  · intro l
    rw [formatQVariant]
  · intro m
    rw [formatQVariant]
  · intro l
    rw [formatQVariant]
    cases l with
    | nil => rfl
    | cons a as => simp [formatQStringList, QStringList.join]

/-- C20, for the list and the map of the unit tests and a nested value: the list
`1, hello, 3.14, true`, the map with the keys `active`, `age` and `name`, and a
map holding a list, a string list and an empty map. -/
theorem formatQVariant_containers_witness :
    formatQVariantList asciiFromUtf8
        [.int 1, .string "hello", .double { number := "3.14" }, .bool true]
      = "[1, hello, 3.14, true]" ∧
    formatQVariantMap asciiFromUtf8
        [("active", .bool true), ("age", .int 30), ("name", .string "John")]
      = "\x7bactive: true, age: 30, name: John\x7d" ∧
    containsSubstring
      (formatQVariantMap asciiFromUtf8
        [("active", .bool true), ("age", .int 30), ("name", .string "John")])
      "age: 30" ∧
    formatQVariant asciiFromUtf8
        (.map [("ids", .list [.int 1, .int 2]), ("tags", .stringList ["a", "b"]),
          ("x", .map [])])
      = "\x7bids: [1, 2], tags: [a, b], x: \x7b\x7d\x7d" := by
  have h := formatQVariant_containers asciiFromUtf8
  have h30 : formatQVariant asciiFromUtf8 (.int 30) = "30" := by
    rw [formatQVariant]
    decide
  have h1 : formatQVariant asciiFromUtf8 (.int 1) = "1" := by
    rw [formatQVariant]
    decide
  have h2 : formatQVariant asciiFromUtf8 (.int 2) = "2" := by
    rw [formatQVariant]
    decide
  have hdbl : formatQVariant asciiFromUtf8 (.double { number := "3.14" }) = "3.14" := by
    rw [formatQVariant]
  have hstr : ∀ s : String, formatQVariant asciiFromUtf8 (.string s) = s := by
    intro s
    rw [formatQVariant]
  have htrue : formatQVariant asciiFromUtf8 (.bool true) = "true" := by
    rw [formatQVariant]
    rfl
  refine ⟨?_, ?_, ?_, ?_⟩
  · rw [h.1]
    simp only [List.map_cons, List.map_nil, h1, hstr, hdbl, htrue]
    decide
  · rw [h.2.2.1]
    simp only [List.map_cons, List.map_nil, h30, hstr, htrue]
    decide
  · have := h.2.2.2.2.1 [("active", .bool true), ("age", .int 30), ("name", .string "John")]
      "age" (.int 30) (by simp)
    rw [h30] at this
    exact this
  · rw [h.2.2.2.2.2.2.1, h.2.2.1]
    simp only [List.map_cons, List.map_nil, h.2.2.2.2.2.1, h.2.2.2.2.2.2.1, h.2.2.2.2.2.2.2,
      h.1, h.2.2.1, h1, h2]
    decide

/-! ## Rendering of numeric and string sequences -/

/-- The loop of `formatListNums` past the first element appends every remaining
element preceded by the separator. -/
theorem formatListNums_loop_eq (l : List Int) (i : Nat) (hi : 0 < i) (result : String) :
    formatListNums_loop l i result
      = result ++ String.join (l.map (fun v => ", " ++ formatNum v)) := by
  induction l generalizing i result with
  | nil => simp [formatListNums_loop, String_join_nil, String.append_empty]
  | cons v vs ih =>
      rw [formatListNums_loop, ih (i + 1) (Nat.succ_pos i), if_pos hi, List.map_cons,
        String_join_cons]
      simp only [String.append_assoc]

/-- The loop of `formatVectorNums` past the first element appends every
remaining element preceded by the separator. -/
theorem formatVectorNums_loop_eq (l : List Int) (i : Nat) (hi : 0 < i) (result : String) :
    formatVectorNums_loop l i result
      = result ++ String.join (l.map (fun v => ", " ++ formatNum v)) := by
  induction l generalizing i result with
  | nil => simp [formatVectorNums_loop, String_join_nil, String.append_empty]
  | cons v vs ih =>
      rw [formatVectorNums_loop, ih (i + 1) (Nat.succ_pos i), if_pos hi, List.map_cons,
        String_join_cons]
      simp only [String.append_assoc]

/-- C21: for every list of integers, `formatListNums` and `formatVectorNums`
both give `[`, the decimal renderings of the elements in order joined by
comma and space, and `]`; that is `[]` for the empty list, `[1, 2, 3, 4, 5]`
for 1..5 and `[10, 20, 30]` for 10, 20, 30. -/
theorem formatListNums_joined (xs : List Int) :
    formatListNums xs = "[" ++ String.intercalate ", " (xs.map (fun v => toString v)) ++ "]" ∧
    formatVectorNums xs
      = "[" ++ String.intercalate ", " (xs.map (fun v => toString v)) ++ "]" ∧
    formatListNums [] = "[]" ∧ formatVectorNums [] = "[]" ∧
    formatListNums [1, 2, 3, 4, 5] = "[1, 2, 3, 4, 5]" ∧
    formatVectorNums [10, 20, 30] = "[10, 20, 30]" := by
  refine ⟨?_, ?_, by decide, by decide, by decide, by decide⟩
  · cases xs with
    | nil => rfl
    | cons v vs =>
        rw [formatListNums, formatListNums_loop, formatListNums_loop_eq vs 1 Nat.one_pos,
          List.map_cons, String_intercalate_cons]
        simp only [List.isEmpty_cons, Bool.false_eq_true, if_false, Nat.lt_irrefl, gt_iff_lt,
          List.map_map, Function.comp_def, String.append_assoc, formatNum, QString.number]
  · cases xs with
    | nil => rfl
    | cons v vs =>
        rw [formatVectorNums, formatVectorNums_loop, formatVectorNums_loop_eq vs 1 Nat.one_pos,
          List.map_cons, String_intercalate_cons]
        simp only [List.isEmpty_cons, Bool.false_eq_true, if_false, Nat.lt_irrefl, gt_iff_lt,
          List.map_map, Function.comp_def, String.append_assoc, formatNum, QString.number]

/-- C21, for a list with negative numbers: `-100, 0, 42`. -/
theorem formatListNums_joined_witness :
    formatListNums [-100, 0, 42] = "[-100, 0, 42]" ∧
    formatVectorNums [-100, 0, 42] = "[-100, 0, 42]" :=
  ⟨(formatListNums_joined [-100, 0, 42]).1.trans (by decide),
    (formatListNums_joined [-100, 0, 42]).2.1.trans (by decide)⟩

/-- C22: for every string list, `formatQStringList` gives `[`, the elements
verbatim and in order joined by comma and space, and `]`; a non-empty list
`x, rest` gives `[x` followed by every further element preceded by comma and
space, and `]`; the empty list gives `[]`, and apple, banana, cherry give
`[apple, banana, cherry]`. -/
theorem formatQStringList_joined (xs : List String) :
    formatQStringList xs = "[" ++ String.intercalate ", " xs ++ "]" ∧
    (∀ x rest, xs = x :: rest →
      formatQStringList xs = "[" ++ x ++ String.join (rest.map (fun e => ", " ++ e)) ++ "]") ∧
    formatQStringList [] = "[]" ∧
    formatQStringList ["apple", "banana", "cherry"] = "[apple, banana, cherry]" := by
  have h : formatQStringList xs = "[" ++ String.intercalate ", " xs ++ "]" := by
    cases xs with
    | nil => rfl
    | cons a as => simp [formatQStringList, QStringList.join]
  refine ⟨h, ?_, by decide, by decide⟩
  intro x rest hx
  rw [h, hx, String_intercalate_cons]
  simp only [String.append_assoc]

/-- C22, for a list whose elements contain commas, brackets and an empty
string: they are copied verbatim. -/
theorem formatQStringList_joined_witness :
    formatQStringList ["a, b", "", "[c]"] = "[a, b, , [c]]" :=
  (formatQStringList_joined ["a, b", "", "[c]"]).1.trans (by decide)

/-! ## Totality of the variant formatters -/

theorem String_join_append (l₁ l₂ : List String) :
    String.join (l₁ ++ l₂) = String.join l₁ ++ String.join l₂ := by
  apply String.ext
  simp [String.data_join, String.data_append]

/-- The rendering of a singleton list of variants. -/
theorem formatQVariantList_singleton (fromUtf8 : QByteArray → String) (v : QVariant) :
    formatQVariantList fromUtf8 [v] = "[" ++ formatQVariant fromUtf8 v ++ "]" := by
  rw [formatQVariantList_eq, List.map_cons, List.map_nil, String_intercalate_cons]
  simp [String_join_nil, String.append_empty]

/-- The rendering of the variant tree of depth `n`. -/
theorem formatQVariant_nestedList (fromUtf8 : QByteArray → String) (n : Nat) :
    formatQVariant fromUtf8 (nestedList n)
      = String.join (List.replicate n "[") ++ "null" ++ String.join (List.replicate n "]") := by
  induction n with
  | zero =>
      rw [nestedList, formatQVariant]
      rfl
  | succ n ih =>
      rw [nestedList, formatQVariant, formatQVariantList_singleton, ih, List.replicate_succ,
        String_join_cons, List.replicate_succ', String_join_append, String_join_cons,
        String_join_nil, String.append_empty]
      simp only [String.append_assoc]

theorem List_sizeOf_pos {α : Type} [SizeOf α] (l : List α) : 0 < sizeOf l := by
  cases l <;> simp

theorem QVariant_sizeOf_pos (v : QVariant) : 0 < sizeOf v := by
  cases v <;> simp

/-- The element at index `i` and the elements behind it. -/
theorem drop_eq_cons {α : Type} (l : List α) (i : Nat) (v : α) (rest : List α)
    (h : l.drop i = v :: rest) : i < l.length ∧ l[i]? = some v ∧ l.drop (i + 1) = rest := by
  have hlt : i < l.length := by
    by_contra hge
    rw [List.drop_eq_nil_of_le (Nat.le_of_not_lt hge)] at h
    cases h
  refine ⟨hlt, ?_, ?_⟩
  · have h0 : (l.drop i)[0]? = some v := by rw [h]; simp
    rw [List.getElem?_drop] at h0
    simpa using h0
  · have h1 : (l.drop i).drop 1 = rest := by rw [h]; rfl
    rw [List.drop_drop] at h1
    exact h1

/-- With enough steps each run returns what the formatter returns: twice the
size of the tree is enough. -/
theorem run_returns (fromUtf8 : QByteArray → String) : ∀ steps : Nat,
    (∀ v : QVariant, 2 * sizeOf v ≤ steps →
      formatQVariant_run fromUtf8 steps v = Run.returned (formatQVariant fromUtf8 v)) ∧
    (∀ l : List QVariant, 2 * sizeOf l + 1 ≤ steps →
      formatQVariantList_run fromUtf8 steps l = Run.returned (formatQVariantList fromUtf8 l)) ∧
    (∀ (l : List QVariant) (i : Nat) (result : String), 2 * sizeOf (l.drop i) ≤ steps →
      formatQVariantList_loop_run fromUtf8 steps l i result
        = Run.returned (formatQVariantList_loop fromUtf8 (l.drop i) i result)) ∧
    (∀ m : List (String × QVariant), 2 * sizeOf m + 1 ≤ steps →
      formatQVariantMap_run fromUtf8 steps m = Run.returned (formatQVariantMap fromUtf8 m)) ∧
    (∀ (m : List (String × QVariant)) (i : Nat) (result : String),
      2 * sizeOf (m.drop i) ≤ steps →
      formatQVariantMap_loop_run fromUtf8 steps m i result
        = Run.returned (formatQVariantMap_loop fromUtf8 (m.drop i) i result)) := by
  intro steps
  induction steps with
  | zero =>
      refine ⟨?_, ?_, ?_, ?_, ?_⟩
      · intro v h
        have := QVariant_sizeOf_pos v
        omega
      · intro l h
        omega
      · intro l i result h
        have := List_sizeOf_pos (l.drop i)
        omega
      · intro m h
        omega
      · intro m i result h
        have := List_sizeOf_pos (m.drop i)
        omega
  | succ n ih =>
      obtain ⟨ihV, ihL, ihLl, ihM, ihMl⟩ := ih
      refine ⟨?_, ?_, ?_, ?_, ?_⟩
      · intro v h
        cases v with
        | list l =>
            rw [formatQVariant_run, formatQVariant]
            apply ihL
            simp only [QVariant.list.sizeOf_spec] at h
            omega
        | map m =>
            rw [formatQVariant_run, formatQVariant]
            apply ihM
            simp only [QVariant.map.sizeOf_spec] at h
            omega
        | _ => rw [formatQVariant_run, formatQVariant]
      · intro l h
        rw [formatQVariantList_run, formatQVariantList]
        by_cases he : l.isEmpty = true
        · simp only [he, if_true]
        · simp only [he, if_false]
          have h0 := ihLl l 0 "[" (by rw [List.drop_zero]; omega)
          rw [List.drop_zero] at h0
          rw [h0]
          simp
      · intro l i result h
        rw [formatQVariantList_loop_run]
        cases hd : l.drop i with
        | nil =>
            have hge : ¬ i < l.length := Nat.not_lt.mpr (List.drop_eq_nil_iff.mp hd)
            rw [if_neg hge, formatQVariantList_loop]
        | cons v rest =>
            obtain ⟨hlt, hget, hrest⟩ := drop_eq_cons l i v rest hd
            rw [hd] at h
            simp only [List.cons.sizeOf_spec] at h
            have hr := List_sizeOf_pos rest
            have hv := ihV v (by omega)
            have hl := ihLl l (i + 1)
            rw [hrest] at hl
            rw [if_pos hlt, hget]
            simp only [hv]
            rw [hl _ (by omega), formatQVariantList_loop]
      · intro m h
        rw [formatQVariantMap_run, formatQVariantMap]
        by_cases he : m.isEmpty = true
        · simp only [he, if_true]
        · simp only [he, if_false]
          have h0 := ihMl m 0 "\x7b" (by rw [List.drop_zero]; omega)
          rw [List.drop_zero] at h0
          rw [h0]
          simp
      · intro m i result h
        rw [formatQVariantMap_loop_run]
        cases hd : m.drop i with
        | nil =>
            have hge : ¬ i < m.length := Nat.not_lt.mpr (List.drop_eq_nil_iff.mp hd)
            rw [if_neg hge, formatQVariantMap_loop]
        | cons e rest =>
            obtain ⟨key, value⟩ := e
            obtain ⟨hlt, hget, hrest⟩ := drop_eq_cons m i (key, value) rest hd
            rw [hd] at h
            simp only [List.cons.sizeOf_spec, Prod.mk.sizeOf_spec] at h
            have hr := List_sizeOf_pos rest
            have hv := ihV value (by omega)
            have hl := ihMl m (i + 1)
            rw [hrest] at hl
            rw [if_pos hlt, hget]
            simp only [hv]
            rw [hl _ (by omega), formatQVariantMap_loop]

/-- Whatever the bound, a run is cut short or returns what the formatter
returns: no access is outside its container. -/
theorem run_unfinished_or_returns (fromUtf8 : QByteArray → String) : ∀ steps : Nat,
    (∀ v : QVariant,
      formatQVariant_run fromUtf8 steps v = Run.unfinished ∨
      formatQVariant_run fromUtf8 steps v = Run.returned (formatQVariant fromUtf8 v)) ∧
    (∀ l : List QVariant,
      formatQVariantList_run fromUtf8 steps l = Run.unfinished ∨
      formatQVariantList_run fromUtf8 steps l
        = Run.returned (formatQVariantList fromUtf8 l)) ∧
    (∀ (l : List QVariant) (i : Nat) (result : String),
      formatQVariantList_loop_run fromUtf8 steps l i result = Run.unfinished ∨
      formatQVariantList_loop_run fromUtf8 steps l i result
        = Run.returned (formatQVariantList_loop fromUtf8 (l.drop i) i result)) ∧
    (∀ m : List (String × QVariant),
      formatQVariantMap_run fromUtf8 steps m = Run.unfinished ∨
      formatQVariantMap_run fromUtf8 steps m = Run.returned (formatQVariantMap fromUtf8 m)) ∧
    (∀ (m : List (String × QVariant)) (i : Nat) (result : String),
      formatQVariantMap_loop_run fromUtf8 steps m i result = Run.unfinished ∨
      formatQVariantMap_loop_run fromUtf8 steps m i result
        = Run.returned (formatQVariantMap_loop fromUtf8 (m.drop i) i result)) := by
  intro steps
  induction steps with
  | zero =>
      exact ⟨fun v => Or.inl (by rw [formatQVariant_run]),
        fun l => Or.inl (by rw [formatQVariantList_run]),
        fun l i result => Or.inl (by rw [formatQVariantList_loop_run]),
        fun m => Or.inl (by rw [formatQVariantMap_run]),
        fun m i result => Or.inl (by rw [formatQVariantMap_loop_run])⟩
  | succ n ih =>
      obtain ⟨ihV, ihL, ihLl, ihM, ihMl⟩ := ih
      refine ⟨?_, ?_, ?_, ?_, ?_⟩
      · intro v
        cases v with
        | list l =>
            rw [formatQVariant_run, formatQVariant]
            exact ihL l
        | map m =>
            rw [formatQVariant_run, formatQVariant]
            exact ihM m
        | _ =>
            right
            rw [formatQVariant_run, formatQVariant]
      · intro l
        rw [formatQVariantList_run, formatQVariantList]
        by_cases he : l.isEmpty = true
        · right
          simp only [he, if_true]
        · have h0 := ihLl l 0 "["
          rw [List.drop_zero] at h0
          rcases h0 with h0 | h0
          · left
            simp [he, h0]
          · right
            simp [he, h0]
      · intro l i result
        rw [formatQVariantList_loop_run]
        cases hd : l.drop i with
        | nil =>
            have hge : ¬ i < l.length := Nat.not_lt.mpr (List.drop_eq_nil_iff.mp hd)
            right
            rw [if_neg hge, formatQVariantList_loop]
        | cons v rest =>
            obtain ⟨hlt, hget, hrest⟩ := drop_eq_cons l i v rest hd
            rw [if_pos hlt, hget]
            rcases ihV v with hv | hv
            · left
              simp only [hv]
            · have hl := ihLl l (i + 1)
              rw [hrest] at hl
              simp only [hv]
              rw [formatQVariantList_loop]
              exact hl _
      · intro m
        rw [formatQVariantMap_run, formatQVariantMap]
        by_cases he : m.isEmpty = true
        · right
          simp only [he, if_true]
        · have h0 := ihMl m 0 "\x7b"
          rw [List.drop_zero] at h0
          rcases h0 with h0 | h0
          · left
            simp [he, h0]
          · right
            simp [he, h0]
      · intro m i result
        rw [formatQVariantMap_loop_run]
        cases hd : m.drop i with
        | nil =>
            have hge : ¬ i < m.length := Nat.not_lt.mpr (List.drop_eq_nil_iff.mp hd)
            right
            rw [if_neg hge, formatQVariantMap_loop]
        | cons e rest =>
            obtain ⟨key, value⟩ := e
            obtain ⟨hlt, hget, hrest⟩ := drop_eq_cons m i (key, value) rest hd
            rw [if_pos hlt, hget]
            rcases ihV value with hv | hv
            · left
              simp only [hv]
            · have hl := ihMl m (i + 1)
              rw [hrest] at hl
              simp only [hv]
              rw [formatQVariantMap_loop]
              exact hl _

/-- C24: each of the three variant formatters, run statement by statement with
every call and every pass of a loop counted as a step, terminates on every
variant tree: with a bound of at least twice the size of the tree (of the
list, of the map) the run returns a string, the one the formatter returns.
No run raises, whatever the tree and the bound: every access `list[i]` and
`keys[i]` is inside its container, so a run with too small a bound is cut
short and nothing else.  For every nesting depth `n` the tree of `n` nested
lists is rendered, as `n` opening brackets, `null` and `n` closing brackets. -/
theorem formatQVariant_total (fromUtf8 : QByteArray → String) :
    (∀ (v : QVariant) (steps : Nat), 2 * sizeOf v ≤ steps →
      formatQVariant_run fromUtf8 steps v = Run.returned (formatQVariant fromUtf8 v)) ∧
    (∀ (l : List QVariant) (steps : Nat), 2 * sizeOf l + 1 ≤ steps →
      formatQVariantList_run fromUtf8 steps l
        = Run.returned (formatQVariantList fromUtf8 l)) ∧
    (∀ (m : List (String × QVariant)) (steps : Nat), 2 * sizeOf m + 1 ≤ steps →
      formatQVariantMap_run fromUtf8 steps m = Run.returned (formatQVariantMap fromUtf8 m)) ∧
    (∀ (v : QVariant) (steps : Nat), formatQVariant_run fromUtf8 steps v ≠ Run.raised) ∧
    (∀ (l : List QVariant) (steps : Nat),
      formatQVariantList_run fromUtf8 steps l ≠ Run.raised) ∧
    (∀ (m : List (String × QVariant)) (steps : Nat),
      formatQVariantMap_run fromUtf8 steps m ≠ Run.raised) ∧
    (∀ n : Nat, ∃ steps : Nat, formatQVariant_run fromUtf8 steps (nestedList n)
      = Run.returned
          (String.join (List.replicate n "[") ++ "null" ++ String.join (List.replicate n "]")))
    := by
  refine ⟨fun v steps h => (run_returns fromUtf8 steps).1 v h,
    fun l steps h => (run_returns fromUtf8 steps).2.1 l h,
    fun m steps h => (run_returns fromUtf8 steps).2.2.2.1 m h, ?_, ?_, ?_, ?_⟩
  · intro v steps h
    rcases (run_unfinished_or_returns fromUtf8 steps).1 v with h1 | h1 <;>
      rw [h1] at h <;> cases h
  · intro l steps h
    rcases (run_unfinished_or_returns fromUtf8 steps).2.1 l with h1 | h1 <;>
      rw [h1] at h <;> cases h
  · intro m steps h
    rcases (run_unfinished_or_returns fromUtf8 steps).2.2.2.1 m with h1 | h1 <;>
      rw [h1] at h <;> cases h
  · intro n
    refine ⟨2 * sizeOf (nestedList n), ?_⟩
    rw [(run_returns fromUtf8 _).1 (nestedList n) le_rfl, formatQVariant_nestedList]

/-- C24, for a tree with a list, a map and a string list inside a list: a run
of two thousand steps, more than twice the size of the tree, returns its
rendering, as a run of twelve steps does; a run of eight steps is cut short. -/
theorem formatQVariant_total_witness :
    2 * sizeOf sampleTree ≤ 2000 ∧
    formatQVariant_run asciiFromUtf8 2000 sampleTree
      = Run.returned (formatQVariant asciiFromUtf8 sampleTree) ∧
    formatQVariant_run asciiFromUtf8 12 sampleTree
      = Run.returned "[1, \x7ba: [null], b: true\x7d, [x, y]]" ∧
    formatQVariant_run asciiFromUtf8 8 sampleTree = Run.unfinished :=
  ⟨by decide, (formatQVariant_total asciiFromUtf8).1 sampleTree 2000 (by decide), by decide,
    by decide⟩

/-! ## The module tag of each thread -/

/-- The tag a thread observes after a list of writes. -/
theorem get_current_module_runModuleWrites (t : ThreadId) (ws : List ModuleWrite) :
    ∀ s : State, get_current_module t (runModuleWrites ws s)
      = (match lastModuleWrite t ws with
        | some m => m
        | none => get_current_module t s) := by
  induction ws with
  | nil => intro s; rfl
  | cons w ws ih =>
      intro s
      have hrun : runModuleWrites (w :: ws) s
          = runModuleWrites ws (set_current_module w.thread w.tag s) := rfl
      rw [hrun, ih, lastModuleWrite]
      cases hlast : lastModuleWrite t ws with
      | some m => rfl
      | none =>
          by_cases hw : w.thread = t
          · simp [hw, set_current_module, set_current_module_name, get_current_module,
              get_current_module_name]
          · have hne : t ≠ w.thread := fun h => hw h.symm
            simp [hw, hne, set_current_module, set_current_module_name, get_current_module,
              get_current_module_name]

/-- C25: after any sequence of writes of module tags by any threads, in any
interleaving, `get_current_module()` on thread `t` returns the tag of the last
write that `t` itself executed, and what it returned before the sequence when
`t` executed none, which is `unknown` when `t` never wrote a tag.  A write on
one thread leaves the tag every other thread observes unchanged, and the
constructor and destructor of a module guard are such writes. -/
theorem module_tag_per_thread (t : ThreadId) (ws : List ModuleWrite) (s : State) :
    get_current_module t (runModuleWrites ws s)
      = (match lastModuleWrite t ws with
        | some m => m
        | none => get_current_module t s) ∧
    (s.module_storage t = none → lastModuleWrite t ws = none →
      get_current_module t (runModuleWrites ws s) = "unknown") ∧
    (∀ (u : ThreadId) (m : String), u ≠ t →
      get_current_module u (set_current_module t m s) = get_current_module u s) ∧
    (∀ m : String, get_current_module t (set_current_module t m s) = m) ∧
    (∀ m : String, (ScopedModule.ctor t m s).2 = set_current_module t m s) ∧
    (∀ g : ScopedModule, g.dtor t s = set_current_module t g.m_previous_module s) := by
  refine ⟨get_current_module_runModuleWrites t ws s, ?_, ?_, ?_, fun m => rfl, fun g => rfl⟩
  · intro hs hlast
    rw [get_current_module_runModuleWrites, hlast]
    simp [get_current_module, get_current_module_name, hs]
  · intro u m hu
    simp [set_current_module, set_current_module_name, get_current_module,
      get_current_module_name, hu]
  · intro m
    simp [set_current_module, set_current_module_name, get_current_module,
      get_current_module_name]

/-- C25, on the test fixture with two threads writing alternately: thread 1
sets `A`, thread 2 sets `B`, thread 1 sets `C`; then thread 1 observes `C`,
thread 2 observes `B` and thread 3, which never wrote, observes `unknown`. -/
theorem module_tag_per_thread_witness :
    get_current_module 1
      (runModuleWrites [{ thread := 1, tag := "A" }, { thread := 2, tag := "B" },
        { thread := 1, tag := "C" }] testState) = "C" ∧
    get_current_module 2
      (runModuleWrites [{ thread := 1, tag := "A" }, { thread := 2, tag := "B" },
        { thread := 1, tag := "C" }] testState) = "B" ∧
    get_current_module 3
      (runModuleWrites [{ thread := 1, tag := "A" }, { thread := 2, tag := "B" },
        { thread := 1, tag := "C" }] testState) = "unknown" :=
  ⟨(module_tag_per_thread 1 _ testState).1.trans (by decide),
    (module_tag_per_thread 2 _ testState).1.trans (by decide),
    (module_tag_per_thread 3 _ testState).2.1 rfl (by decide)⟩

/-! ## Injectivity of the text-escape rendering -/

set_option maxRecDepth 1000000 in
/-- The character with the code of a byte has that code. -/
theorem Char_ofNat_toNat_byte : ∀ b : Byte, (Char.ofNat b.val).toNat = b.val := by
  decide

set_option maxRecDepth 1000000 in
/-- Different values below 16 have different hexadecimal digits. -/
theorem lowerHexDigit_injective :
    ∀ a b : Fin 16, lowerHexDigit a.val = lowerHexDigit b.val → a = b := by
  decide

/-- The characters of the rendering of a printable byte. -/
theorem escapedByte_data_printable (b : Byte)
    (h : 32 ≤ b.val ∧ b.val ≤ 126 ∧ b.val ≠ 39 ∧ b.val ≠ 92) :
    (escapedByte b).data = [Char.ofNat b.val] := by
  simp only [escapedByte, if_pos h]
  rfl

/-- The characters of the rendering of a byte that is escaped. -/
theorem escapedByte_data_escaped (b : Byte)
    (h : ¬ (32 ≤ b.val ∧ b.val ≤ 126 ∧ b.val ≠ 39 ∧ b.val ≠ 92)) :
    (escapedByte b).data
      = [Char.ofNat 92, Char.ofNat 120, lowerHexDigit (b.val / 16), lowerHexDigit (b.val % 16)] := by
  simp only [escapedByte, if_neg h, String.data_append]
  rfl

/-- A printable byte is not rendered as a backslash. -/
theorem printable_ne_backslash (b : Byte)
    (h : 32 ≤ b.val ∧ b.val ≤ 126 ∧ b.val ≠ 39 ∧ b.val ≠ 92) :
    Char.ofNat b.val ≠ Char.ofNat 92 := by
  intro hc
  have h1 := congrArg Char.toNat hc
  rw [Char_ofNat_toNat_byte b] at h1
  have h2 : (Char.ofNat 92).toNat = 92 := by decide
  rw [h2] at h1
  exact h.2.2.2 h1

/-- The rendering of a byte at the head of a text determines the byte and the
rest of the text. -/
theorem escapedByte_decode (b₁ b₂ : Byte) (r₁ r₂ : List Char)
    (h : (escapedByte b₁).data ++ r₁ = (escapedByte b₂).data ++ r₂) :
    b₁ = b₂ ∧ r₁ = r₂ := by
  by_cases p₁ : 32 ≤ b₁.val ∧ b₁.val ≤ 126 ∧ b₁.val ≠ 39 ∧ b₁.val ≠ 92
  · by_cases p₂ : 32 ≤ b₂.val ∧ b₂.val ≤ 126 ∧ b₂.val ≠ 39 ∧ b₂.val ≠ 92
    · rw [escapedByte_data_printable b₁ p₁, escapedByte_data_printable b₂ p₂] at h
      simp only [List.singleton_append, List.cons.injEq] at h
      have hc := congrArg Char.toNat h.1
      rw [Char_ofNat_toNat_byte b₁, Char_ofNat_toNat_byte b₂] at hc
      exact ⟨Fin.ext hc, h.2⟩
    · rw [escapedByte_data_printable b₁ p₁, escapedByte_data_escaped b₂ p₂] at h
      simp only [List.singleton_append, List.cons_append, List.cons.injEq] at h
      exact absurd h.1 (printable_ne_backslash b₁ p₁)
  · by_cases p₂ : 32 ≤ b₂.val ∧ b₂.val ≤ 126 ∧ b₂.val ≠ 39 ∧ b₂.val ≠ 92
    · rw [escapedByte_data_escaped b₁ p₁, escapedByte_data_printable b₂ p₂] at h
      simp only [List.singleton_append, List.cons_append, List.cons.injEq] at h
      exact absurd h.1.symm (printable_ne_backslash b₂ p₂)
    · rw [escapedByte_data_escaped b₁ p₁, escapedByte_data_escaped b₂ p₂] at h
      simp only [List.cons_append, List.nil_append, List.cons.injEq, true_and] at h
      obtain ⟨hhi, hlo, hr⟩ := h
      have hb₁ := b₁.isLt
      have hb₂ := b₂.isLt
      have e₁ := lowerHexDigit_injective ⟨b₁.val / 16, by omega⟩ ⟨b₂.val / 16, by omega⟩ hhi
      have e₂ := lowerHexDigit_injective ⟨b₁.val % 16, by omega⟩ ⟨b₂.val % 16, by omega⟩ hlo
      have e₁' : b₁.val / 16 = b₂.val / 16 := congrArg Fin.val e₁
      have e₂' : b₁.val % 16 = b₂.val % 16 := congrArg Fin.val e₂
      refine ⟨Fin.ext ?_, hr⟩
      omega

/-- The rendering of every byte has at least one character. -/
theorem escapedByte_data_ne_nil (b : Byte) : (escapedByte b).data ≠ [] := by
  by_cases p : 32 ≤ b.val ∧ b.val ≤ 126 ∧ b.val ≠ 39 ∧ b.val ≠ 92
  · rw [escapedByte_data_printable b p]
    exact List.cons_ne_nil _ _
  · rw [escapedByte_data_escaped b p]
    exact List.cons_ne_nil _ _

/-- The concatenated renderings of the bytes determine the bytes. -/
theorem escapedByte_join_injective (a : QByteArray) :
    ∀ b : QByteArray,
      (a.map (fun x => (escapedByte x).data)).flatten
        = (b.map (fun x => (escapedByte x).data)).flatten → a = b := by
  induction a with
  | nil =>
      intro b h
      cases b with
      | nil => rfl
      | cons y ys =>
          simp only [List.map_nil, List.flatten_nil, List.map_cons, List.flatten_cons] at h
          have := List.append_eq_nil.mp h.symm
          exact absurd this.1 (escapedByte_data_ne_nil y)
  | cons x xs ih =>
      intro b h
      cases b with
      | nil =>
          simp only [List.map_nil, List.flatten_nil, List.map_cons, List.flatten_cons] at h
          have := List.append_eq_nil.mp h
          exact absurd this.1 (escapedByte_data_ne_nil x)
      | cons y ys =>
          simp only [List.map_cons, List.flatten_cons] at h
          obtain ⟨hxy, hrest⟩ := escapedByte_decode x y _ _ h
          rw [hxy, ih ys hrest]

/-- C30: the text-escape rendering is injective: two byte arrays with the same
`formatQByteArray(_, false)` are equal, also when one rendering is made with
signed and the other with unsigned `char`.  In the rendering of a byte a
backslash occurs only as the first of the four characters of an escape: a
byte passed through is never a backslash. -/
theorem formatQByteArray_text_injective (cs₁ cs₂ : Bool) (a b : QByteArray)
    (h : formatQByteArray cs₁ a false = formatQByteArray cs₂ b false) :
    a = b ∧
    (∀ x : Byte, (32 ≤ x.val ∧ x.val ≤ 126 ∧ x.val ≠ 39 ∧ x.val ≠ 92) →
      (escapedByte x).data = [Char.ofNat x.val] ∧ Char.ofNat x.val ≠ Char.ofNat 92) ∧
    (∀ x : Byte, ¬ (32 ≤ x.val ∧ x.val ≤ 126 ∧ x.val ≠ 39 ∧ x.val ≠ 92) →
      (escapedByte x).data = [Char.ofNat 92, Char.ofNat 120, lowerHexDigit (x.val / 16),
        lowerHexDigit (x.val % 16)]) := by
  refine ⟨?_, fun x hx => ⟨escapedByte_data_printable x hx, printable_ne_backslash x hx⟩,
    fun x hx => escapedByte_data_escaped x hx⟩
  rw [formatQByteArray_text_eq, formatQByteArray_text_eq] at h
  have hd := congrArg String.data h
  simp only [String.data_append, String.data_join, List.map_map, Function.comp_def] at hd
  have h1 := List.append_cancel_right hd
  have h2 := List.append_cancel_left h1
  exact escapedByte_join_injective a b h2

/-- C30, for the two arrays `\x41` as four bytes (backslash, `x`, `4`, `1`) and
as the one byte 0x41: their renderings differ, and equal renderings mean equal
arrays. -/
theorem formatQByteArray_text_injective_witness :
    formatQByteArray true [0x5c, 0x78, 0x34, 0x31] false = "b'\\x5cx41'" ∧
    formatQByteArray true [0x41] false = "b'A'" ∧
    (formatQByteArray true [0x41] false = formatQByteArray false [0x41] false ∧
      ([0x41] : QByteArray) = [0x41]) := by
  refine ⟨by decide, by decide, by decide, ?_⟩
  exact (formatQByteArray_text_injective true false [0x41] [0x41] (by decide)).1

/-! ## Rendering of maps -/

/-- In a list of pairs with distinct keys, the value looked up under the key of
a pair is the value of that pair. -/
theorem QMap_value_of_mem {κ β : Type} [DecidableEq κ] (m : List (κ × β))
    (hnd : (m.map Prod.fst).Nodup) (k : κ) (v dflt : β) (h : (k, v) ∈ m) :
    QMap.value m k dflt = v := by
  induction m with
  | nil => cases h
  | cons e es ih =>
      rw [List.map_cons, List.nodup_cons] at hnd
      unfold QMap.value
      by_cases hk : e.1 = k
      · simp only [List.find?_cons, hk, decide_True]
        rcases List.mem_cons.mp h with heq | hmem
        · rw [← heq]
        · exact absurd (List.mem_map.mpr ⟨(k, v), hmem, hk.symm⟩) hnd.1
      · simp only [List.find?_cons, hk, decide_False]
        rcases List.mem_cons.mp h with heq | hmem
        · exact absurd (by rw [← heq]) hk
        · exact ih hnd.2 hmem

/-- Sorting two arrangements of the same elements by a total, transitive
relation that is antisymmetric on them gives the same list. -/
theorem insertionSort_perm_eq {α : Type} (r : α → α → Prop) [DecidableRel r]
    (htot : ∀ a b, r a b ∨ r b a) (htr : ∀ a b c, r a b → r b c → r a c)
    (l l' : List α) (hp : l'.Perm l)
    (hanti : ∀ a ∈ l, ∀ b ∈ l, r a b → r b a → a = b) :
    l'.insertionSort r = l.insertionSort r := by
  haveI : IsTotal α r := ⟨htot⟩
  haveI : IsTrans α r := ⟨htr⟩
  have p' := List.perm_insertionSort r l'
  have p := List.perm_insertionSort r l
  refine List.Perm.eq_of_sorted ?_ (List.sorted_insertionSort r l')
    (List.sorted_insertionSort r l) (p'.trans (hp.trans p.symm))
  intro a b ha hb hab hba
  exact hanti a (hp.mem_iff.mp (p'.mem_iff.mp ha)) b (p.mem_iff.mp hb) hab hba

/-- Pairs with distinct keys that have the same key are the same pair. -/
theorem eq_of_key_eq {κ β : Type} (m : List (κ × β)) (hnd : (m.map Prod.fst).Nodup)
    (a : κ × β) (ha : a ∈ m) (b : κ × β) (hb : b ∈ m) (h : a.1 = b.1) : a = b :=
  List.inj_on_of_nodup_map hnd ha hb h

/-- A character is in the BMP outside the surrogates, or above the BMP. -/
theorem Char_toNat_valid (c : Char) :
    c.toNat < 0xd800 ∨ (0xdfff < c.toNat ∧ c.toNat < 0x110000) := c.valid

theorem Char_eq_of_toNat_eq (x y : Char) (h : x.toNat = y.toNat) : x = y := by
  apply Char.ext
  apply UInt32.ext
  exact h

/-- The code units of a character can be read back from the front of a run of
code units: a first unit in the range of the high surrogates begins a pair. -/
theorem utf16CodeUnits_decode (x y : Char) (r₁ r₂ : List Nat)
    (h : utf16CodeUnits x ++ r₁ = utf16CodeUnits y ++ r₂) : x = y ∧ r₁ = r₂ := by
  have hx := Char_toNat_valid x
  have hy := Char_toNat_valid y
  unfold utf16CodeUnits at h
  by_cases bx : x.toNat < 0x10000 <;> by_cases bY : y.toNat < 0x10000
  · simp only [bx, bY, if_true, List.cons_append, List.nil_append, List.cons.injEq] at h
    exact ⟨Char_eq_of_toNat_eq x y h.1, h.2⟩
  · simp only [bx, bY, if_true, if_false, List.cons_append, List.nil_append,
      List.cons.injEq] at h
    omega
  · simp only [bx, bY, if_true, if_false, List.cons_append, List.nil_append,
      List.cons.injEq] at h
    omega
  · simp only [bx, bY, if_false, List.cons_append, List.nil_append, List.cons.injEq] at h
    refine ⟨Char_eq_of_toNat_eq x y ?_, h.2.2⟩
    omega

/-- Strings with the same code units are the same string. -/
theorem QString_utf16_injective (a b : String) (h : QString.utf16 a = QString.utf16 b) :
    a = b := by
  apply String.ext
  have h' : (a.data.map utf16CodeUnits).flatten = (b.data.map utf16CodeUnits).flatten := h
  generalize a.data = xs at h'
  generalize b.data = ys at h'
  induction xs generalizing ys with
  | nil =>
      cases ys with
      | nil => rfl
      | cons y ys =>
          simp only [List.map_nil, List.flatten_nil, List.map_cons, List.flatten_cons] at h'
          unfold utf16CodeUnits at h'
          split at h' <;> simp at h'
  | cons x xs ih =>
      cases ys with
      | nil =>
          simp only [List.map_nil, List.flatten_nil, List.map_cons, List.flatten_cons] at h'
          unfold utf16CodeUnits at h'
          split at h' <;> simp at h'
      | cons y ys =>
          simp only [List.map_cons, List.flatten_cons] at h'
          obtain ⟨hxy, hrest⟩ := utf16CodeUnits_decode x y _ _ h'
          rw [hxy, ih ys hrest]

/-- The entries of a map with `QString` keys in key order do not depend on the
order of insertion. -/
theorem entriesByKey_perm {β : Type} (m m' : List (String × β)) (hp : m'.Perm m)
    (hnd : (m.map Prod.fst).Nodup) : QMap.entriesByKey m' = QMap.entriesByKey m := by
  unfold QMap.entriesByKey
  refine insertionSort_perm_eq (fun a b : String × β => QString.utf16 a.1 ≤ QString.utf16 b.1)
    (fun a b => le_total (QString.utf16 a.1) (QString.utf16 b.1)) (fun a b c => le_trans)
    m m' hp ?_
  intro a ha b hb hab hba
  exact eq_of_key_eq m hnd a ha b hb (QString_utf16_injective _ _ (le_antisymm hab hba))

/-- The entries of a map with numeric keys in key order do not depend on the
order of insertion. -/
theorem entriesByNumKey_perm {T β : Type} [LinearOrder T] (m m' : List (T × β))
    (hp : m'.Perm m) (hnd : (m.map Prod.fst).Nodup) :
    QMap.entriesByNumKey m' = QMap.entriesByNumKey m := by
  unfold QMap.entriesByNumKey
  refine insertionSort_perm_eq (fun a b : T × β => a.1 ≤ b.1)
    (fun a b => le_total a.1 b.1) (fun a b c => le_trans) m m' hp ?_
  intro a ha b hb hab hba
  exact eq_of_key_eq m hnd a ha b hb (le_antisymm hab hba)

/-- A list sorted by a total and transitive relation, whose elements are
pairwise unrelated in at least one direction unless equal in key, is strictly
ascending. -/
theorem insertionSort_strict {α : Type} (r : α → α → Prop) [DecidableRel r]
    (htot : ∀ a b, r a b ∨ r b a) (htr : ∀ a b c, r a b → r b c → r a c)
    (l : List α) (hnd : l.Nodup) (hanti : ∀ a ∈ l, ∀ b ∈ l, r a b → r b a → a = b) :
    (l.insertionSort r).Pairwise (fun a b => r a b ∧ ¬ r b a) := by
  haveI : IsTotal α r := ⟨htot⟩
  haveI : IsTrans α r := ⟨htr⟩
  have p := List.perm_insertionSort r l
  have hs : (l.insertionSort r).Pairwise r := List.sorted_insertionSort r l
  have hn : (l.insertionSort r).Pairwise (fun a b => a ≠ b) := p.nodup_iff.mpr hnd
  refine (hs.and hn).imp_of_mem ?_
  intro a b ha hb hab
  exact ⟨hab.1, fun hba => hab.2 (hanti a (p.mem_iff.mp ha) b (p.mem_iff.mp hb) hab.1 hba)⟩

/-- The loop of `formatMapStrNums` past the first key appends every remaining
entry preceded by the separator. -/
theorem formatMapStrNums_loop_eq {T : Type} (nt : NumberType T) (m : List (String × T))
    (ks : List String) (i : Nat) (hi : 0 < i) (result : String) :
    formatMapStrNums_loop nt m ks i result
      = result ++ String.join
          (ks.map (fun k => ", " ++ (k ++ ": " ++ nt.number (QMap.value m k nt.zero)))) := by
  induction ks generalizing i result with
  | nil => simp [formatMapStrNums_loop, String_join_nil, String.append_empty]
  | cons k ks ih =>
      rw [formatMapStrNums_loop, ih (i + 1) (Nat.succ_pos i), if_pos hi, List.map_cons,
        String_join_cons]
      simp only [String.append_assoc]

/-- The loop of `formatMapNumStrs` past the first key appends every remaining
entry preceded by the separator. -/
theorem formatMapNumStrs_loop_eq {T : Type} [LinearOrder T] (nt : NumberType T)
    (m : List (T × String)) (ks : List T) (i : Nat) (hi : 0 < i) (result : String) :
    formatMapNumStrs_loop nt m ks i result
      = result ++ String.join
          (ks.map (fun k => ", " ++ (nt.number k ++ ": " ++ QMap.value m k ""))) := by
  induction ks generalizing i result with
  | nil => simp [formatMapNumStrs_loop, String_join_nil, String.append_empty]
  | cons k ks ih =>
      rw [formatMapNumStrs_loop, ih (i + 1) (Nat.succ_pos i), if_pos hi, List.map_cons,
        String_join_cons]
      simp only [String.append_assoc]

/-- The loop of `formatMapStrNums` from the first key on. -/
theorem formatMapStrNums_loop_zero {T : Type} (nt : NumberType T) (m : List (String × T))
    (ks : List String) (result : String) :
    formatMapStrNums_loop nt m ks 0 result
      = result ++ String.intercalate ", "
          (ks.map (fun k => k ++ ": " ++ nt.number (QMap.value m k nt.zero))) := by
  cases ks with
  | nil => simp [formatMapStrNums_loop, String.intercalate, String.append_empty]
  | cons k ks =>
      rw [formatMapStrNums_loop, formatMapStrNums_loop_eq nt m ks 1 Nat.one_pos, List.map_cons,
        String_intercalate_cons]
      simp only [Nat.lt_irrefl, gt_iff_lt, if_false, List.map_map, Function.comp_def,
        String.append_assoc]

/-- The loop of `formatMapNumStrs` from the first key on. -/
theorem formatMapNumStrs_loop_zero {T : Type} [LinearOrder T] (nt : NumberType T)
    (m : List (T × String)) (ks : List T) (result : String) :
    formatMapNumStrs_loop nt m ks 0 result
      = result ++ String.intercalate ", "
          (ks.map (fun k => nt.number k ++ ": " ++ QMap.value m k "")) := by
  cases ks with
  | nil => simp [formatMapNumStrs_loop, String.intercalate, String.append_empty]
  | cons k ks =>
      rw [formatMapNumStrs_loop, formatMapNumStrs_loop_eq nt m ks 1 Nat.one_pos, List.map_cons,
        String_intercalate_cons]
      simp only [Nat.lt_irrefl, gt_iff_lt, if_false, List.map_map, Function.comp_def,
        String.append_assoc]

/-- The result of `formatMapStrNums` as the joined entries in key order. -/
theorem formatMapStrNums_eq {T : Type} (nt : NumberType T) (m : List (String × T))
    (hnd : (m.map Prod.fst).Nodup) :
    formatMapStrNums nt m
      = "\x7b" ++ String.intercalate ", "
          ((QMap.entriesByKey m).map (fun e => e.1 ++ ": " ++ nt.number e.2)) ++ "\x7d" := by
  cases m with
  | nil => rfl
  | cons e es =>
      have hmem : ∀ a ∈ QMap.entriesByKey (e :: es), a ∈ e :: es := fun a ha =>
        (List.perm_insertionSort _ _).mem_iff.mp ha
      have hmap : (QMap.keys (e :: es)).map
            (fun k => k ++ ": " ++ nt.number (QMap.value (e :: es) k nt.zero))
          = (QMap.entriesByKey (e :: es)).map (fun a => a.1 ++ ": " ++ nt.number a.2) := by
        rw [QMap.keys, List.map_map]
        refine List.map_congr_left ?_
        intro a ha
        have hv := QMap_value_of_mem (e :: es) hnd a.1 a.2 nt.zero (hmem a ha)
        simp only [Function.comp_apply, hv]
      simp only [formatMapStrNums, List.isEmpty_cons, Bool.false_eq_true, if_false]
      rw [formatMapStrNums_loop_zero, hmap]

/-- The result of `formatMapNumStrs` as the joined entries in key order. -/
theorem formatMapNumStrs_eq {T : Type} [LinearOrder T] (nt : NumberType T)
    (m : List (T × String)) (hnd : (m.map Prod.fst).Nodup) :
    formatMapNumStrs nt m
      = "\x7b" ++ String.intercalate ", "
          ((QMap.entriesByNumKey m).map (fun e => nt.number e.1 ++ ": " ++ e.2)) ++ "\x7d" := by
  cases m with
  | nil => rfl
  | cons e es =>
      have hmem : ∀ a ∈ QMap.entriesByNumKey (e :: es), a ∈ e :: es := fun a ha =>
        (List.perm_insertionSort _ _).mem_iff.mp ha
      have hmap : (QMap.numKeys (e :: es)).map
            (fun k => nt.number k ++ ": " ++ QMap.value (e :: es) k "")
          = (QMap.entriesByNumKey (e :: es)).map (fun a => nt.number a.1 ++ ": " ++ a.2) := by
        rw [QMap.numKeys, List.map_map]
        refine List.map_congr_left ?_
        intro a ha
        have hv := QMap_value_of_mem (e :: es) hnd a.1 a.2 "" (hmem a ha)
        simp only [Function.comp_apply, hv]
      simp only [formatMapNumStrs, List.isEmpty_cons, Bool.false_eq_true, if_false]
      rw [formatMapNumStrs_loop_zero, hmap]

/-- C23: for every numeric value type `T` and every numeric key type `K` of the
two function templates (each given by its `QString::number` text, `K` also by
its total order), for every map from strings to `T` and every map from `K` to
strings, each given by its pairs (distinct keys) in the order of insertion:
`formatMapStrNums` and `formatMapNumStrs` return the pair of braces for the
empty map and otherwise an opening brace, one entry `key: value` per pair
joined by comma and space, and a closing brace, the entries being the pairs of
the map in strictly ascending key order (string keys compared by their UTF-16
code units, as `QString` compares); and every other order of insertion of the
same pairs gives the same text. -/
theorem formatMap_ascending_keys {T K : Type} [LinearOrder K] (nt : NumberType T)
    (nk : NumberType K) (ms : List (String × T)) (mn : List (K × String))
    (hs : (ms.map Prod.fst).Nodup) (hn : (mn.map Prod.fst).Nodup) :
    (formatMapStrNums nt [] = "\x7b\x7d" ∧ formatMapNumStrs nk [] = "\x7b\x7d") ∧
    formatMapStrNums nt ms
      = "\x7b" ++ String.intercalate ", "
          ((QMap.entriesByKey ms).map (fun e => e.1 ++ ": " ++ nt.number e.2)) ++ "\x7d" ∧
    formatMapNumStrs nk mn
      = "\x7b" ++ String.intercalate ", "
          ((QMap.entriesByNumKey mn).map (fun e => nk.number e.1 ++ ": " ++ e.2)) ++ "\x7d" ∧
    ((QMap.entriesByKey ms).Perm ms ∧
      (QMap.entriesByKey ms).Pairwise (fun a b => QString.utf16 a.1 < QString.utf16 b.1)) ∧
    ((QMap.entriesByNumKey mn).Perm mn ∧
      (QMap.entriesByNumKey mn).Pairwise (fun a b => a.1 < b.1)) ∧
    (∀ ms' : List (String × T), ms'.Perm ms →
      formatMapStrNums nt ms' = formatMapStrNums nt ms) ∧
    (∀ mn' : List (K × String), mn'.Perm mn →
      formatMapNumStrs nk mn' = formatMapNumStrs nk mn) := by
  refine ⟨⟨rfl, rfl⟩, formatMapStrNums_eq nt ms hs, formatMapNumStrs_eq nk mn hn,
    ⟨List.perm_insertionSort _ _, ?_⟩, ⟨List.perm_insertionSort _ _, ?_⟩, ?_, ?_⟩
  · have h := insertionSort_strict
      (fun a b : String × T => QString.utf16 a.1 ≤ QString.utf16 b.1)
      (fun a b => le_total (QString.utf16 a.1) (QString.utf16 b.1)) (fun a b c => le_trans) ms
      (List.Nodup.of_map _ hs)
      (fun a ha b hb hab hba =>
        eq_of_key_eq ms hs a ha b hb (QString_utf16_injective _ _ (le_antisymm hab hba)))
    exact h.imp (fun hab => lt_of_not_le hab.2)
  · have h := insertionSort_strict (fun a b : K × String => a.1 ≤ b.1)
      (fun a b => le_total a.1 b.1) (fun a b c => le_trans) mn
      (List.Nodup.of_map _ hn)
      (fun a ha b hb hab hba => eq_of_key_eq mn hn a ha b hb (le_antisymm hab hba))
    exact h.imp (fun hab => lt_of_not_le hab.2)
  · intro ms' hp
    have hs' : (ms'.map Prod.fst).Nodup := (hp.map Prod.fst).nodup_iff.mpr hs
    rw [formatMapStrNums_eq nt ms' hs', formatMapStrNums_eq nt ms hs,
      entriesByKey_perm ms ms' hp hs]
  · intro mn' hp
    have hn' : (mn'.map Prod.fst).Nodup := (hp.map Prod.fst).nodup_iff.mpr hn
    rw [formatMapNumStrs_eq nk mn' hn', formatMapNumStrs_eq nk mn hn,
      entriesByNumKey_perm mn mn' hp hn]

/-- C23, for integers, the pairs b: 2, a: 1, c: -3 and the pairs 3: x, -1: y:
the entries come in ascending key order, and inserting the first map in the
order a, c, b gives the same text.  For a map to `float` with the keys `Борис`
and `Анна` the entry of `Анна` comes first.  Of the keys U+FF5E and U+1F600 the
second comes first: its first code unit is the surrogate `0xD83D`. -/
theorem formatMap_ascending_keys_witness :
    formatMapStrNums intType [("b", 2), ("a", 1), ("c", -3)] = "\x7ba: 1, b: 2, c: -3\x7d" ∧
    formatMapNumStrs intType [(3, "x"), (-1, "y")] = "\x7b-1: y, 3: x\x7d" ∧
    formatMapStrNums intType [("a", 1), ("c", -3), ("b", 2)]
      = formatMapStrNums intType [("b", 2), ("a", 1), ("c", -3)] ∧
    formatMapStrNums doubleType [("Борис", { number := "87.4" }), ("Анна", { number := "95.4" })]
      = "\x7bАнна: 95.4, Борис: 87.4\x7d" ∧
    formatMapStrNums intType
        [(String.mk [Char.ofNat 0xFF5E], 1), (String.mk [Char.ofNat 0x1F600], 2)]
      = String.mk ([Char.ofNat 0x7b, Char.ofNat 0x1F600] ++ ": 2, ".data
          ++ [Char.ofNat 0xFF5E] ++ ": 1".data ++ [Char.ofNat 0x7d]) := by
  have h := formatMap_ascending_keys intType intType [("b", 2), ("a", 1), ("c", -3)]
    [(3, "x"), (-1, "y")] (by decide) (by decide)
  have hd := formatMap_ascending_keys doubleType intType
    [("Борис", { number := "87.4" }), ("Анна", { number := "95.4" })] []
    (by decide) (by decide)
  have hu := formatMap_ascending_keys intType intType
    [(String.mk [Char.ofNat 0xFF5E], 1), (String.mk [Char.ofNat 0x1F600], 2)] []
    (by decide) (by decide)
  refine ⟨h.2.1.trans (by decide), h.2.2.1.trans (by decide), ?_, hd.2.1.trans (by decide),
    hu.2.1.trans (by decide)⟩
  exact h.2.2.2.2.2.1 [("a", 1), ("c", -3), ("b", 2)] (by decide)

/-! ## The memoized thread-local logger -/

/-- The result of `get_thread_local_logger` on a thread without a thread-local
logger. -/
theorem get_thread_local_logger_fresh (x : Externals) (t : ThreadId) (s : State) (d : LoggerId)
    (hd : s.default_logger = some d) (hfresh : s.logger_storage t = none) :
    get_thread_local_logger x t s = some (s.next_logger,
      { s with
        level := fun j => if j = s.next_logger then s.level d else s.level j
        name := fun j =>
          if j = s.next_logger then
            get_current_module_name t s ++ "_" ++ toString (x.thread_hash t)
          else s.name j
        next_logger := s.next_logger + 1
        logger_storage := fun u => if u = t then some s.next_logger else s.logger_storage u }) := by
  simp only [get_thread_local_logger, hfresh, hd]

/-- After its first call of `get_thread_local_logger` a thread holds the logger
created by the call. -/
theorem holdsLogger_fresh (x : Externals) (t : ThreadId) (s : State) (d : LoggerId)
    (hd : s.default_logger = some d) :
    holdsLogger t s.next_logger
      (get_current_module_name t s ++ "_" ++ toString (x.thread_hash t))
      { s with
        level := fun j => if j = s.next_logger then s.level d else s.level j
        name := fun j =>
          if j = s.next_logger then
            get_current_module_name t s ++ "_" ++ toString (x.thread_hash t)
          else s.name j
        next_logger := s.next_logger + 1
        logger_storage := fun u => if u = t then some s.next_logger else s.logger_storage u } :=
  ⟨by simp, by simp, Nat.lt_succ_self _, d, hd⟩

/-- One operation of any thread keeps the logger a thread holds, and its name. -/
theorem ContextOp_run_holdsLogger (x : Externals) (t : ThreadId) (l : LoggerId) (n : String)
    (op : ContextOp) (s : State) (h : holdsLogger t l n s) :
    ∃ s', op.run x s = some s' ∧ holdsLogger t l n s' := by
  obtain ⟨hst, hname, hlt, d, hd⟩ := h
  cases op with
  | setModule u tag =>
      exact ⟨_, rfl, hst, hname, hlt, d, hd⟩
  | getLogger u =>
      cases hu : s.logger_storage u with
      | some j =>
          refine ⟨s, ?_, hst, hname, hlt, d, hd⟩
          simp [ContextOp.run, get_thread_local_logger, hu]
      | none =>
          have hut : t ≠ u := by
            intro h
            rw [h, hu] at hst
            cases hst
          have hne : l ≠ s.next_logger := Nat.ne_of_lt hlt
          have hrun : ContextOp.run x (.getLogger u) s
              = (match get_thread_local_logger x u s with
                | some r => some r.2
                | none => none) := rfl
          rw [hrun, get_thread_local_logger_fresh x u s d hd hu]
          refine ⟨_, rfl, ?_, ?_, ?_, d, hd⟩
          · simp [hut, hst]
          · simp [hne, hname]
          · exact Nat.lt_succ_of_lt hlt

/-- Any sequence of operations of any threads keeps the logger a thread holds,
and its name. -/
theorem runContextOps_holdsLogger (x : Externals) (t : ThreadId) (l : LoggerId) (n : String)
    (ops : List ContextOp) :
    ∀ s : State, holdsLogger t l n s →
      ∃ s', runContextOps x ops s = some s' ∧ holdsLogger t l n s' := by
  induction ops with
  | nil => intro s h; exact ⟨s, rfl, h⟩
  | cons op ops ih =>
      intro s h
      obtain ⟨s1, hrun, h1⟩ := ContextOp_run_holdsLogger x t l n op s h
      obtain ⟨s2, hrun2, h2⟩ := ih s1 h1
      exact ⟨s2, by simp only [runContextOps, hrun, hrun2], h2⟩

/-- C26: on a thread `t` without a thread-local logger, in a state with a
default logger, `get_thread_local_logger()` creates a new logger object with
the threshold of the default logger and the name made of the module tag current
at that call, an underscore and the decimal hash of the thread id; it is kept
for `t` and not entered in the registry.  After any sequence of
`set_current_module` calls (module guards are such calls) and
`get_thread_local_logger` calls on any threads, the call on `t` returns that
same object, leaves the state as it is, and the object still has that name. -/
theorem thread_local_logger_memoized (x : Externals) (t : ThreadId) (s : State) (d : LoggerId)
    (hd : s.default_logger = some d) (hfresh : s.logger_storage t = none) :
    ∃ s1, get_thread_local_logger x t s = some (s.next_logger, s1) ∧
      s1.name s.next_logger = get_current_module t s ++ "_" ++ toString (x.thread_hash t) ∧
      s1.level s.next_logger = s.level d ∧
      s1.logger_storage t = some s.next_logger ∧
      (∀ j, j ≠ s.next_logger → s1.level j = s.level j ∧ s1.name j = s.name j) ∧
      s1.registry = s.registry ∧
      ∀ ops : List ContextOp, ∃ s2, runContextOps x ops s1 = some s2 ∧
        get_thread_local_logger x t s2 = some (s.next_logger, s2) ∧
        s2.name s.next_logger
          = get_current_module t s ++ "_" ++ toString (x.thread_hash t) := by
  refine ⟨_, get_thread_local_logger_fresh x t s d hd hfresh, ?_, ?_, ?_, ?_, rfl, ?_⟩
  · simp [get_current_module]
  · simp
  · simp
  · intro j hj
    simp [hj]
  · intro ops
    obtain ⟨s2, hrun, hst, hname, _, _⟩ := runContextOps_holdsLogger x t s.next_logger
      (get_current_module_name t s ++ "_" ++ toString (x.thread_hash t)) ops _
      (holdsLogger_fresh x t s d hd)
    refine ⟨s2, hrun, ?_, hname⟩
    simp [get_thread_local_logger, hst]

/-- C26, on the test fixture with the tag `test_module` set on thread 7: the
first call creates logger 1 named `test_module_7`; after the tag is set to the
empty string and another thread has created its logger, the call on thread 7
still returns logger 1 with that name. -/
theorem thread_local_logger_memoized_witness :
    (get_thread_local_logger asciiExternals 7
        (set_current_module 7 "test_module" testState)).map (fun r => (r.1, r.2.name r.1))
      = some (1, "test_module_7") ∧
    ∃ s1 s2, get_thread_local_logger asciiExternals 7
        (set_current_module 7 "test_module" testState) = some (1, s1) ∧
      runContextOps asciiExternals [.setModule 7 "", .getLogger 8, .getLogger 7] s1 = some s2 ∧
      get_thread_local_logger asciiExternals 7 s2 = some (1, s2) ∧
      s2.name 1 = "test_module_7" := by
  obtain ⟨s1, h1, hname, _, _, _, _, hops⟩ := thread_local_logger_memoized asciiExternals 7
    (set_current_module 7 "test_module" testState) 0 rfl rfl
  obtain ⟨s2, hrun, hget, hname2⟩ := hops [.setModule 7 "", .getLogger 8, .getLogger 7]
  have hn : get_current_module 7 (set_current_module 7 "test_module" testState) ++ "_"
      ++ toString (asciiExternals.thread_hash 7) = "test_module_7" := by decide
  refine ⟨?_, s1, s2, h1, hrun, hget, hname2.trans hn⟩
  rw [h1, Option.map_some']
  exact congrArg some (Prod.ext rfl (hname.trans hn))

/-! ## Setting the global level by name -/

/-- The name `get_level` reports is the canonical name of the threshold of the
default logger. -/
theorem get_level_eq (s : State) (d : LoggerId) (hd : s.default_logger = some d) :
    get_level s = some (level_to_string (s.level d)) := by
  simp only [get_level, hd]
  cases s.level d <;> rfl

/-- The canonical name of a level is left alone by a lower-casing that leaves
the alias keys alone, and it is a valid level name. -/
theorem level_to_string_valid (x : Externals) (hx : x.lowerFixesKeys) (L : level_enum) :
    x.toLower (level_to_string L) = level_to_string L ∧
    is_valid_level x (level_to_string L) = true := by
  have hfix : x.toLower (level_to_string L) = level_to_string L := by
    cases L
    · exact hx ("trace", .trace) (by decide)
    · exact hx ("debug", .debug) (by decide)
    · exact hx ("info", .info) (by decide)
    · exact hx ("warn", .warn) (by decide)
    · exact hx ("error", .err) (by decide)
    · exact hx ("critical", .critical) (by decide)
    · exact hx ("off", .off) (by decide)
  refine ⟨hfix, ?_⟩
  unfold is_valid_level
  rw [hfix]
  cases L <;> decide

/-- The call `set_level(token)` for a valid token. -/
theorem set_level_QString_valid (x : Externals) (token : String) (s : State)
    (hv : is_valid_level x token = true) :
    set_level_QString x token s = (true, spdlog_set_level s (string_to_level x token)) := by
  have hc : QMap.contains details.get_string_to_level_map (x.toLower token) = true := hv
  cases hfind : details.get_string_to_level_map.find?
      (fun e => decide (e.1 = x.toLower token)) with
  | none =>
      rw [List.find?_eq_none] at hfind
      simp only [QMap.contains, List.any_eq_true] at hc
      obtain ⟨e, he, hp⟩ := hc
      exact absurd hp (hfind e he)
  | some it =>
      have hval : string_to_level x token = it.2 := by
        simp only [string_to_level, hc, if_true, QMap.value, hfind]
      simp only [set_level_QString, hfind, hval]

/-- The call `set_level(token)` for an invalid token. -/
theorem set_level_QString_invalid (x : Externals) (token : String) (s : State)
    (hv : is_valid_level x token = false) :
    set_level_QString x token s = (false, s) := by
  have hc : QMap.contains details.get_string_to_level_map (x.toLower token) = false := hv
  have hfind : details.get_string_to_level_map.find?
      (fun e => decide (e.1 = x.toLower token)) = none := by
    rw [List.find?_eq_none]
    intro e he hp
    have : QMap.contains details.get_string_to_level_map (x.toLower token) = true := by
      simp only [QMap.contains, List.any_eq_true]
      exact ⟨e, he, hp⟩
    rw [hc] at this
    cases this
  simp only [set_level_QString, hfind]

/-- C27: for a valid token `set_level(token)` returns true and gives every
registered logger, hence the default logger when it is in the registry (where
`set_default_logger` puts it), the threshold `string_to_level(token)`, which
is then what `spdlog::get_level()` reads; for an invalid token it returns
false and leaves the state unchanged.  With a lower-casing that leaves the
alias keys alone, for every threshold of the default logger
`set_level(get_level())` returns true, leaves that threshold as it was, and
`get_level()` reports the same name afterwards. -/
theorem set_level_by_name (x : Externals) (token : String) (s : State) :
    (is_valid_level x token = true →
      set_level_QString x token s = (true, spdlog_set_level s (string_to_level x token)) ∧
      ∀ d, s.default_logger = some d → s.isRegistered d = true →
        (set_level_QString x token s).2.level d = string_to_level x token) ∧
    (is_valid_level x token = false → set_level_QString x token s = (false, s)) ∧
    (x.lowerFixesKeys → ∀ (d : LoggerId) (name : String), s.default_logger = some d →
      s.isRegistered d = true → get_level s = some name →
      (set_level_QString x name s).1 = true ∧
      (set_level_QString x name s).2.level d = s.level d ∧
      get_level (set_level_QString x name s).2 = some name) := by
  refine ⟨?_, set_level_QString_invalid x token s, ?_⟩
  · intro hv
    refine ⟨set_level_QString_valid x token s hv, ?_⟩
    intro d _ hreg
    rw [set_level_QString_valid x token s hv]
    simp [spdlog_set_level, hreg]
  · intro hx d name hd hreg hname
    rw [get_level_eq s d hd] at hname
    have hn : name = level_to_string (s.level d) := (Option.some.inj hname).symm
    have hvalid := (level_to_string_valid x hx (s.level d)).2
    have hset := set_level_QString_valid x (level_to_string (s.level d)) s hvalid
    rw [string_to_level_level_to_string x hx] at hset
    rw [hn, hset]
    have hlev : (spdlog_set_level s (s.level d)).level d = s.level d := by
      simp [spdlog_set_level, hreg]
    refine ⟨rfl, hlev, ?_⟩
    have hd' : (spdlog_set_level s (s.level d)).default_logger = some d := hd
    rw [get_level_eq _ d hd', hlev]

/-- C27, on the test fixture: `set_level("WARNING")` returns true and sets the
threshold to `warn`, `set_level("verbose")` returns false and leaves it at
`trace`, and at threshold `err` the name `get_level()` reports is `error` and
setting it leaves `err`. -/
theorem set_level_by_name_witness :
    (set_level_QString asciiExternals "WARNING" testState).1 = true ∧
    (set_level_QString asciiExternals "WARNING" testState).2.level 0 = level_enum.warn ∧
    set_level_QString asciiExternals "verbose" testState = (false, testState) ∧
    get_level (testStateAt .err) = some "error" ∧
    (set_level_QString asciiExternals "error" (testStateAt .err)).2.level 0 = level_enum.err := by
  have h := set_level_by_name asciiExternals "WARNING" testState
  have h' := set_level_by_name asciiExternals "verbose" testState
  have h'' := (set_level_by_name asciiExternals "error" (testStateAt .err)).2.2
    asciiExternals_lowerFixesKeys 0 "error" rfl (by decide) (by decide)
  refine ⟨?_, ?_, h'.2.1 (by decide), by decide, h''.2.1.trans (by decide)⟩
  · rw [(h.1 (by decide)).1]
  · rw [(h.1 (by decide)).2 0 rfl (by decide)]
    decide

/-! ## The handler for host messages -/

/-- C28: the switch of the installed handler gives, for each of the five host
severities, the level `qt_to_spdlog_level` gives, and `info` for every other
value of the type.  With a default logger the handler passes the message to it
at that level and then ends; it ends in `std::abort()` exactly when the type is
`QtFatalMsg`, with the message already passed to the logger. -/
theorem qt_message_handler_levels (type : Nat) (msg : String) (s : State) (d : LoggerId)
    (hd : s.default_logger = some d) :
    (∀ q : QtMsgType, message_handler_level q.toNat = qt_to_spdlog_level q) ∧
    ((∀ q : QtMsgType, type ≠ q.toNat) → message_handler_level type = level_enum.info) ∧
    (∃ e : HandlerEnd,
      qt_message_handler type msg s
        = some (logger_log d (message_handler_level type) [msg] s, e) ∧
      (e = HandlerEnd.aborted ↔ type = QtMsgType.QtFatalMsg.toNat)) := by
  refine ⟨fun q => by cases q <;> decide, ?_, ?_⟩
  · intro h
    have h0 := h .QtDebugMsg
    have h1 := h .QtWarningMsg
    have h2 := h .QtCriticalMsg
    have h3 := h .QtFatalMsg
    have h4 := h .QtInfoMsg
    simp only [message_handler_level, h0, h1, h2, h3, h4, if_false]
  · by_cases hf : type = QtMsgType.QtFatalMsg.toNat
    · exact ⟨HandlerEnd.aborted, by simp only [qt_message_handler, hd, hf, if_true], by simp [hf]⟩
    · exact ⟨HandlerEnd.returned, by simp only [qt_message_handler, hd, hf, if_false],
        by simp [hf]⟩

/-- C28, on the test fixture: a fatal message is passed to the logger at level
`critical` and the handler aborts; a debug message is passed at level `debug`
and the handler returns; a message of the unknown type 9 is passed at `info`. -/
theorem qt_message_handler_levels_witness :
    (qt_message_handler 3 "fatal" testState).map (fun r => (r.1.output, r.2))
      = some ([{ logger := 0, level := level_enum.critical, payload := ["fatal"] }],
          HandlerEnd.aborted) ∧
    (qt_message_handler 0 "dbg" testState).map (fun r => (r.1.output, r.2))
      = some ([{ logger := 0, level := level_enum.debug, payload := ["dbg"] }],
          HandlerEnd.returned) ∧
    message_handler_level 9 = level_enum.info := by
  refine ⟨?_, ?_, (qt_message_handler_levels 9 "x" testState 0 rfl).2.1
    (fun q => by cases q <;> decide)⟩
  · obtain ⟨e, he, hiff⟩ := (qt_message_handler_levels 3 "fatal" testState 0 rfl).2.2
    rw [he, hiff.mpr rfl]
    decide
  · decide

/-! ## Exception names -/

/-- Passing over `k` characters is dropping them. -/
theorem replaceScan_skip (p a : List Char) (k : Nat) (s : List Char) :
    replaceScan p a k s = replaceScan p a 0 (s.drop k) := by
  induction k generalizing s with
  | zero => rfl
  | succ k ih =>
      cases s with
      | nil => rfl
      | cons c cs => simpa [replaceScan] using ih cs

/-- An occurrence at the front is replaced and the scan goes on behind it. -/
theorem replaceScan_at_front (p a : List Char) (hp : p ≠ []) (rest : List Char) :
    replaceScan p a 0 (p ++ rest) = a ++ replaceScan p a 0 rest := by
  cases p with
  | nil => exact absurd rfl hp
  | cons c p' =>
      have hpre : (c :: p').isPrefixOf (c :: (p' ++ rest)) = true := by
        rw [List.isPrefixOf_iff_prefix]
        exact List.prefix_append (c :: p') rest
      rw [List.cons_append, replaceScan, if_pos hpre, replaceScan_skip]
      simp

/-- Where there is no occurrence at the front, the first character is kept. -/
theorem replaceScan_keep (p a : List Char) (c : Char) (cs : List Char)
    (h : ¬ p <+: c :: cs) :
    replaceScan p a 0 (c :: cs) = c :: replaceScan p a 0 cs := by
  have hpre : ¬ (p.isPrefixOf (c :: cs) = true) := by
    rw [List.isPrefixOf_iff_prefix]
    exact h
  rw [replaceScan, if_neg hpre]

/-- What `noOverlap u v` says: `v` does not begin a text that begins with a
non-empty end piece of `u`. -/
theorem noOverlap_spec (u v : List Char) (h : noOverlap u v = true) (t : List Char)
    (ht : t <:+ u) (hne : t ≠ []) (q : List Char) : ¬ v <+: t ++ q := by
  intro hv
  have hall := List.all_eq_true.mp h t ((List.mem_tails t u).mpr ht)
  have hemp : t.isEmpty = false := by
    cases t with
    | nil => exact absurd rfl hne
    | cons _ _ => rfl
  simp only [hemp, Bool.false_or, Bool.and_eq_true, Bool.not_eq_true',
    ← Bool.not_eq_true, List.isPrefixOf_iff_prefix] at hall
  rcases List.prefix_or_prefix_of_prefix hv (List.prefix_append t q) with h1 | h1
  · exact hall.2 h1
  · exact hall.1 h1

/-- A text that occurs in `u ++ rest` and cannot begin inside `u` occurs in
`rest`. -/
theorem infix_of_append (u w : List Char) (h : noOverlap u w = true) :
    ∀ (t rest : List Char), t <:+ u → w <:+: t ++ rest → w <:+: rest := by
  intro t
  induction t with
  | nil => intro rest _ hw; simpa using hw
  | cons c t ih =>
      intro rest ht hw
      rw [List.cons_append, List.infix_cons_iff] at hw
      rcases hw with hw | hw
      · exact absurd hw (noOverlap_spec u w h (c :: t) ht (List.cons_ne_nil c t) rest)
      · exact ih rest ((List.suffix_cons c t).trans ht) hw

/-- The scan copies a text that `p` cannot begin inside. -/
theorem replaceScan_copy (p a w : List Char) (h : noOverlap w p = true) :
    ∀ (t q : List Char), t <:+ w →
      replaceScan p a 0 (t ++ q) = t ++ replaceScan p a 0 q := by
  intro t
  induction t with
  | nil => intro q _; rfl
  | cons c t ih =>
      intro q ht
      rw [List.cons_append, replaceScan_keep p a c (t ++ q)
        (noOverlap_spec w p h (c :: t) ht (List.cons_ne_nil c t) q),
        ih q ((List.suffix_cons c t).trans ht), List.cons_append]

/-- Every occurrence of `p` gives an occurrence of `a` in the result. -/
theorem replaceScan_replaces (p a : List Char) (hp : p ≠ []) :
    ∀ s : List Char, p <:+: s → a <:+: replaceScan p a 0 s := by
  intro s
  induction s with
  | nil =>
      intro h
      exact absurd (List.infix_nil.mp h) hp
  | cons c cs ih =>
      intro h
      by_cases hpre : p <+: c :: cs
      · obtain ⟨rest, hrest⟩ := hpre
        rw [← hrest, replaceScan_at_front p a hp rest]
        exact List.infix_append' [] a (replaceScan p a 0 rest) |>.trans (by simp)
      · rw [replaceScan_keep p a c cs hpre]
        rcases List.infix_cons_iff.mp h with h1 | h1
        · exact absurd h1 hpre
        · exact (ih h1).trans (List.suffix_cons c _).isInfix

/-- A text that does not overlap with `p` survives the replacement of `p`. -/
theorem replaceScan_preserves (p a w : List Char) (hp : p ≠ [])
    (hwp : noOverlap w p = true) (hpw : noOverlap p w = true) :
    ∀ (n : Nat) (s : List Char), s.length ≤ n → w <:+: s → w <:+: replaceScan p a 0 s := by
  intro n
  induction n with
  | zero =>
      intro s hs hw
      have : s = [] := List.length_eq_zero.mp (Nat.le_zero.mp hs)
      subst this
      exact hw
  | succ n ih =>
      intro s hs hw
      cases s with
      | nil => exact hw
      | cons c cs =>
          by_cases hpre : p <+: c :: cs
          · obtain ⟨rest, hrest⟩ := hpre
            have hlen : rest.length ≤ n := by
              have h1 := congrArg List.length hrest
              have h2 : 0 < p.length := List.length_pos.mpr hp
              simp only [List.length_append, List.length_cons] at h1 hs
              omega
            rw [← hrest] at hw ⊢
            rw [replaceScan_at_front p a hp rest]
            exact (ih rest hlen (infix_of_append p w hpw p rest (List.suffix_refl p) hw)).trans
              (List.suffix_append a _).isInfix
          · rcases List.infix_cons_iff.mp hw with h1 | h1
            · obtain ⟨q, hq⟩ := h1
              rw [← hq, replaceScan_copy p a w hwp w q (List.suffix_refl w)]
              exact (List.prefix_append w _).isInfix
            · rw [replaceScan_keep p a c cs hpre]
              exact (ih cs (by simpa using hs) h1).trans (List.suffix_cons c _).isInfix

/-- Containment of strings is containment of their characters. -/
theorem containsSubstring_iff (whole piece : String) :
    containsSubstring whole piece ↔ piece.data <:+: whole.data := by
  constructor
  · rintro ⟨pre, post, h⟩
    exact ⟨pre.data, post.data, by rw [h]; simp⟩
  · rintro ⟨u, v, h⟩
    exact ⟨String.mk u, String.mk v, String.ext (by simp [h])⟩

/-- A replacement puts `after` where `before` stood. -/
theorem QString_replace_replaces (s before after : String) (hb : before.data ≠ [])
    (h : containsSubstring s before) :
    containsSubstring (QString.replace s before after) after := by
  rw [containsSubstring_iff] at h ⊢
  exact replaceScan_replaces before.data after.data hb s.data h

/-- A replacement keeps a text that does not overlap with `before`. -/
theorem QString_replace_preserves (w : String) (e : String × String) (s : String)
    (he : e.1.data ≠ [] ∧ noOverlap w.data e.1.data = true ∧ noOverlap e.1.data w.data = true)
    (h : containsSubstring s w) :
    containsSubstring (QString.replace s e.1 e.2) w := by
  rw [containsSubstring_iff] at h ⊢
  exact replaceScan_preserves e.1.data e.2.data w.data he.1 he.2.1 he.2.2 _ s.data le_rfl h

/-- A run of replacements keeps a text that overlaps with none of them. -/
theorem replace_run_preserves (w : String) (table : List (String × String)) :
    ∀ s : String,
      (∀ e ∈ table, e.1.data ≠ [] ∧ noOverlap w.data e.1.data = true ∧
        noOverlap e.1.data w.data = true) →
      containsSubstring s w →
      containsSubstring (table.foldl (fun r e => QString.replace r e.1 e.2) s) w := by
  induction table with
  | nil => intro s _ h; exact h
  | cons e rest ih =>
      intro s hall h
      rw [List.foldl_cons]
      exact ih _ (fun e' he' => hall e' (List.mem_cons_of_mem e he'))
        (QString_replace_preserves w e s (hall e (List.mem_cons_self e rest)) h)

/-- The removal of a leading "St" keeps a text that cannot begin inside it. -/
theorem strip_preserves (s w : String) (h : noOverlap "St".data w.data = true)
    (hw : containsSubstring s w) :
    containsSubstring (if QString.startsWith s "St" then QString.mid s 2 else s) w := by
  by_cases hs : QString.startsWith s "St" = true
  · rw [if_pos hs]
    rw [containsSubstring_iff] at hw ⊢
    have hpre : "St".data <+: s.data := List.isPrefixOf_iff_prefix.mp hs
    obtain ⟨rest, hrest⟩ := hpre
    have hmid : (QString.mid s 2).data = rest := by
      simp only [QString.mid, ← hrest]
      rfl
    rw [hmid]
    rw [← hrest] at hw
    exact infix_of_append "St".data w.data h "St".data rest (List.suffix_refl _) hw
  · rw [if_neg hs]
    exact hw

/-- The function `format_exception_name` as a run of replacements. -/
theorem format_exception_name_run (name : String) :
    utils.format_exception_name name =
      (fun r : String => if QString.startsWith r "St" then QString.mid r 2 else r)
        (List.foldl (fun r e => QString.replace r e.1 e.2) name
          [("St13runtime_error", "std::runtime_error"),
           ("St16invalid_argument", "std::invalid_argument"),
           ("St12out_of_range", "std::out_of_range"),
           ("St11logic_error", "std::logic_error"),
           ("St12length_error", "std::length_error"),
           ("NSt8ios_base7failureE", "std::ios::failure"),
           ("NSt8ios_base7failureB5cxx11E", "std::ios::failure")]) := rfl

/-- A mangled name `m` that the replacements before its own leave alone is
replaced by its readable name `w`, which the later replacements and the removal
of a leading "St" leave alone. -/
theorem format_exception_name_contains (before later : List (String × String))
    (m w name : String)
    (hsplit : before ++ (m, w) :: later =
      [("St13runtime_error", "std::runtime_error"),
       ("St16invalid_argument", "std::invalid_argument"),
       ("St12out_of_range", "std::out_of_range"),
       ("St11logic_error", "std::logic_error"),
       ("St12length_error", "std::length_error"),
       ("NSt8ios_base7failureE", "std::ios::failure"),
       ("NSt8ios_base7failureB5cxx11E", "std::ios::failure")])
    (hbefore : ∀ e ∈ before, e.1.data ≠ [] ∧ noOverlap m.data e.1.data = true ∧
      noOverlap e.1.data m.data = true)
    (hm : m.data ≠ [])
    (hlater : ∀ e ∈ later, e.1.data ≠ [] ∧ noOverlap w.data e.1.data = true ∧
      noOverlap e.1.data w.data = true)
    (hstrip : noOverlap "St".data w.data = true)
    (h : containsSubstring name m) :
    containsSubstring (utils.format_exception_name name) w := by
  rw [format_exception_name_run, ← hsplit, List.foldl_append, List.foldl_cons]
  exact strip_preserves _ w hstrip
    (replace_run_preserves w later _ hlater
      (QString_replace_replaces _ m w hm (replace_run_preserves m before name hbefore h)))

set_option maxRecDepth 100000 in
/-- C29: an input that contains the mangled name of `std::runtime_error`,
`std::invalid_argument` or `std::out_of_range` gives a result that contains the
readable name with its `std::`; the mangled name alone gives exactly the
readable name, which does not begin with "St" and so is not shortened. -/
theorem format_exception_name_readable (name : String) :
    (containsSubstring name "St13runtime_error" →
      containsSubstring (utils.format_exception_name name) "std::runtime_error") ∧
    (containsSubstring name "St16invalid_argument" →
      containsSubstring (utils.format_exception_name name) "std::invalid_argument") ∧
    (containsSubstring name "St12out_of_range" →
      containsSubstring (utils.format_exception_name name) "std::out_of_range") ∧
    utils.format_exception_name "St13runtime_error" = "std::runtime_error" ∧
    utils.format_exception_name "St16invalid_argument" = "std::invalid_argument" ∧
    utils.format_exception_name "St12out_of_range" = "std::out_of_range" ∧
    QString.startsWith "std::runtime_error" "St" = false ∧
    QString.startsWith "std::invalid_argument" "St" = false ∧
    QString.startsWith "std::out_of_range" "St" = false := by
  refine ⟨?_, ?_, ?_, by decide, by decide, by decide, by decide, by decide, by decide⟩
  · exact format_exception_name_contains [] _ _ _ name rfl (by decide) (by decide)
      (by decide) (by decide)
  · exact format_exception_name_contains [_] _ _ _ name rfl (by decide) (by decide)
      (by decide) (by decide)
  · exact format_exception_name_contains [_, _] _ _ _ name rfl (by decide) (by decide)
      (by decide) (by decide)

/-- C29, on a name with the mangled name inside: the result has the readable
name in its place. -/
theorem format_exception_name_readable_witness :
    containsSubstring "N3fooSt13runtime_errorE" "St13runtime_error" ∧
    containsSubstring (utils.format_exception_name "N3fooSt13runtime_errorE")
      "std::runtime_error" ∧
    utils.format_exception_name "N3fooSt13runtime_errorE" = "N3foostd::runtime_errorE" :=
  ⟨⟨"N3foo", "E", by decide⟩,
   (format_exception_name_readable "N3fooSt13runtime_errorE").1 ⟨"N3foo", "E", by decide⟩,
   by decide⟩
